import Mathlib

/-! Snakolek: the game loop of the terminal snake game as a state machine.

The Go program keeps its state in two globals, `gSt` (one round of the game) and
`gEnv` (the process-wide environment), and mutates them from a single `select`
loop in `main` that handles key events and timer ticks one at a time.  Here the
two globals are passed explicitly, and everything the loop obtains from outside
the program is read from a `world` value:

* `draws`: the successive raw values of `randomGenerator`; `Intn n` reduces the
  next one modulo `n`, so every result in `[0, n)` can occur;
* `events`: the terminal events returned by `termbox.PollEvent` inside
  `readPlayerName`;
* `responses`: the outcomes of the HTTP requests that complete;
* `now`: the wall clock.

A function that needs more input than the `world` holds returns `fault.starved`
(the Go code would still be waiting or looping).  The run-time panics of Go that
the loop can raise are kept apart: `fault.divideByZero` (the integer division of
the score), `fault.invalidIntn` (`Intn` with a non-positive bound) and
`fault.nonPositiveInterval` (`time.NewTicker` with a non-positive interval).

Go's `int` (64 bits) is modelled by `Int`: the board extents come from the
size of a terminal (16-bit values), a fruit adds at most 100 times its distance
to the score, the snake, and with it the number of fruits eaten in a round, is
bounded by the number of cells, and the step counter grows by one per tick, so
no value of a run comes near the 64-bit limits.  `float32` values are binary
floating-point numbers with 24 significant bits, and every operation rounds to
the nearest one, ties to even, as Go does; the exponent is not bounded, which
differs from Go only outside of the normal range of `float32` (a run starts with
a delay of 100 and stops before a delay below 0.99 is stored).  Drawing calls
(`termbox.SetCell`, `Flush`, the spinner) and the sound are not part of the
model; of the ticker, the interval it is created with is, because
`time.NewTicker` panics when the interval is not positive.
-/

namespace Snakolek

/-! ## Data model -/

/-- Pair of board coordinates (the struct `coords`). -/
structure coords where
  x : Int
  y : Int
  deriving DecidableEq, Repr

/-- Values of type `float32`: the number `mant * 2^exp`, negated when `neg` is set.  The
operations below return a mantissa of exactly 24 bits (`2^23 <= mant < 2^24`), or zero. -/
structure float32 where
  neg : Bool
  mant : Nat
  exp : Int
  deriving DecidableEq, Repr

/-- The number of binary digits of `n`, counted by halving `n` (`fuel` bounds the count). -/
def bitLengthAux : Nat → Nat → Nat
  | 0, _ => 0
  | fuel + 1, n => if n = 0 then 0 else bitLengthAux fuel (n / 2) + 1

/-- The number of binary digits of `n`: 0 for 0, otherwise the `k` with `2^(k-1) <= n < 2^k`. -/
def bitLength (n : Nat) : Nat := bitLengthAux n n

/-- The `float32` nearest to `m * 2^e`, ties to even: a mantissa of more than 24 bits loses
its low bits and is rounded up when they are more than half of the last kept bit, or exactly
half with the kept part odd. -/
def float32.round (neg : Bool) (m : Nat) (e : Int) : float32 :=
  if m = 0 then { neg := neg, mant := 0, exp := 0 }
  else if bitLength m ≤ 24 then
    { neg := neg, mant := m * 2 ^ (24 - bitLength m), exp := e - ((24 - bitLength m : Nat) : Int) }
  else
    let k := bitLength m - 24
    let q := m / 2 ^ k
    let r := m % 2 ^ k
    let q := if r > 2 ^ (k - 1) ∨ (r = 2 ^ (k - 1) ∧ q % 2 = 1) then q + 1 else q
    if q = 2 ^ 24 then { neg := neg, mant := 2 ^ 23, exp := e + (k : Int) + 1 }
    else { neg := neg, mant := q, exp := e + (k : Int) }

/-- The `float32` nearest to `num / den * 2^e` (`den` is not zero): the quotient is taken
to 26 bits or more, with one more bit below them that tells whether a remainder was left,
and then rounded. -/
def float32.roundQuot (neg : Bool) (num den : Nat) (e : Int) : float32 :=
  if num = 0 then { neg := neg, mant := 0, exp := 0 }
  else
    let t : Int := 26 + (bitLength den : Int) - (bitLength num : Int)
    let N := if t ≥ 0 then num * 2 ^ t.toNat else num
    let D := if t ≥ 0 then den else den * 2 ^ (-t).toNat
    float32.round neg (2 * (N / D) + (if N % D = 0 then 0 else 1)) (e - t - 1)

/-- A constant of the source converted to `float32`: the value nearest to
`mantissa / 10^decimals` (`lit 995 3` is the constant `0.995`, `lit 100 0` is `100`). -/
def float32.lit (mantissa : Int) (decimals : Nat) : float32 :=
  float32.roundQuot (decide (mantissa < 0)) mantissa.natAbs (10 ^ decimals) 0

/-- The product `a * b` of two `float32` values. -/
def float32.mul (a b : float32) : float32 :=
  float32.round (a.neg != b.neg) (a.mant * b.mant) (a.exp + b.exp)

/-- The quotient `a / b` of two `float32` values.  The program divides by `float32(1)` and
`float32(2)` only; for a zero divisor, where Go yields an infinity or a NaN, which this type
does not hold, the dividend is returned. -/
def float32.div (a b : float32) : float32 :=
  if b.mant = 0 then a
  else float32.roundQuot (a.neg != b.neg) a.mant b.mant (a.exp - b.exp)

/-- The conversion of a `float32` to an integer type, as in `time.Duration(x)`: the fraction
is discarded. -/
def float32.trunc (a : float32) : Int :=
  let mag : Nat := if a.exp ≥ 0 then a.mant * 2 ^ a.exp.toNat else a.mant / 2 ^ (-a.exp).toNat
  if a.neg then -(mag : Int) else (mag : Int)

/-- The struct `gameEnvironment` (the spinner, which only drives drawing, is left out).
The player name is the sequence of its characters. -/
structure gameEnvironment where
  consoleWidth : Int
  consoleHeight : Int
  boardWidth : Int
  boardHeight : Int
  soundOn : Bool
  tickerFactor : float32
  playerName : List Char
  isHighScoreRequest : Bool
  highScoreRequestResult : Bool
  deriving DecidableEq, Repr

/-- The struct `gameState`. -/
structure gameState where
  snakeDirX : Int
  snakeDirY : Int
  inputDirX : Int
  inputDirY : Int
  snakeHeadCoords : coords
  snakeCoords : List coords
  fruitCoords : coords
  fruitDistance : Int
  stepsToFruit : Int
  score : Int
  isFruit : Bool
  isSpecialFruit : Bool
  eliMode : Bool
  gameStarted : Bool
  gamePaused : Bool
  gameOver : Bool
  serverContentShown : Bool
  tickerDelay : float32
  fruits : Int
  specialFruits : Int
  startTimestamp : Int
  endTimestamp : Int
  deriving DecidableEq, Repr

/-- Kind of a terminal event (`termbox.Event.Type`); only key events are acted on. -/
inductive EventType where
  | EventKey
  | EventOther
  deriving DecidableEq, Repr

/-- The keys the program distinguishes (`termbox.Key`).  `KeyNone` is the key code 0
carried by a character event. -/
inductive Key where
  | KeyNone
  | KeyArrowLeft
  | KeyArrowRight
  | KeyArrowUp
  | KeyArrowDown
  | KeyCtrlP
  | KeyCtrlS
  | KeySpace
  | KeyCtrlR
  | KeyCtrlE
  | KeyCtrlH
  | KeyCtrlQ
  | KeyBackspace2
  | KeyEnter
  | KeyEsc
  | KeyOther
  deriving DecidableEq, Repr

/-- In termbox `KeyBackspace` and `KeyCtrlH` are the same key code (0x08). -/
abbrev Key.KeyBackspace : Key := Key.KeyCtrlH

/-- A terminal event (`termbox.Event`): its kind, key code and character. -/
structure Event where
  EvType : EventType
  Key : Key
  Ch : Char
  deriving DecidableEq, Repr

/-- Everything a step of the loop reads from outside the program. -/
structure world where
  draws : List Nat
  events : List Event
  responses : List (Option Nat)
  now : Int
  deriving DecidableEq, Repr

/-- Ways in which a modelled function fails to return a value: the run-time panics of an
integer division by zero, of `Intn` with a non-positive bound and of `time.NewTicker` with a
non-positive interval, and the lack of input. -/
inductive fault where
  | divideByZero
  | invalidIntn
  | nonPositiveInterval
  | starved
  deriving DecidableEq, Repr

deriving instance DecidableEq for Except

/-! ## Geometry and randomizer -/

/-- Checks if given coordinates pair is in given slice of coordinates pairs. -/
def areCoordsInSlice (coordsPair : coords) : List coords → Bool
  | [] => false
  | notAllowedCoordsPair :: rest =>
    if coordsPair = notAllowedCoordsPair then true else areCoordsInSlice coordsPair rest

/-- The call `randomGenerator.Intn(n)`: panics for `n <= 0`, otherwise a value in `[0, n)`. -/
def Intn (n : Int) (w : world) : Except fault (Int × world) :=
  if n ≤ 0 then .error .invalidIntn
  else
    match w.draws with
    | [] => .error .starved
    | r :: rest => .ok ((r : Int) % n, { w with draws := rest })

/-- Returns random snakes horizontal and vertical directions. -/
def generateRandomSnakeDirection (w : world) : Except fault (Int × Int × world) :=
  match Intn 4 w with
  | .error e => .error e
  | .ok (dirCase, w) =>
    if dirCase = 1 then .ok (1, 0, w)
    else if dirCase = 2 then .ok (0, 1, w)
    else if dirCase = 3 then .ok (-1, 0, w)
    else .ok (0, -1, w)

/-- The rejection-sampling loop of the fruit spawn (`for` loop at lines 353-360), run on the
raw draws: two draws per iteration, stops at the first cell that is not on the snake.  The
board extents are positive here: the caller has returned the panic of `Intn` otherwise. -/
def drawFruitCoords (boardWidth boardHeight : Int) (snakeCoords : List coords) :
    List Nat → Except fault (coords × List Nat)
  | rx :: ry :: rest =>
    let fruitCoords : coords := { x := (rx : Int) % boardWidth, y := (ry : Int) % boardHeight }
    if !areCoordsInSlice fruitCoords snakeCoords then .ok (fruitCoords, rest)
    else drawFruitCoords boardWidth boardHeight snakeCoords rest
  | _ => .error .starved

/-! ## Initialisation -/

/-- The function `initGameEnvironment`, from the terminal size. -/
def initGameEnvironment (consoleWidth consoleHeight : Int) : gameEnvironment :=
  { consoleWidth := consoleWidth
    consoleHeight := consoleHeight
    boardWidth := Int.tdiv consoleWidth 2
    boardHeight := consoleHeight - 1
    soundOn := false
    tickerFactor := .lit 995 3
    playerName := []
    isHighScoreRequest := false
    highScoreRequestResult := false }

/-- The function `initFreshGameState`. -/
def initFreshGameState (gEnv : gameEnvironment) (eliMode : Bool) (w : world) :
    Except fault (gameState × world) :=
  match generateRandomSnakeDirection w with
  | .error e => .error e
  | .ok (snakeDirX, snakeDirY, w) =>
    let snakeHeadCoords : coords :=
      { x := Int.tdiv gEnv.boardWidth 2, y := Int.tdiv gEnv.boardHeight 2 }
    .ok ({ snakeDirX := snakeDirX
           snakeDirY := snakeDirY
           inputDirX := snakeDirX
           inputDirY := snakeDirY
           snakeHeadCoords := snakeHeadCoords
           snakeCoords := [snakeHeadCoords]
           fruitCoords := { x := 0, y := 0 }
           fruitDistance := 0
           stepsToFruit := 0
           score := 0
           isFruit := false
           isSpecialFruit := false
           eliMode := eliMode
           gameStarted := false
           gamePaused := false
           gameOver := false
           serverContentShown := false
           tickerDelay := .lit 100 0
           fruits := 0
           specialFruits := 0
           startTimestamp := w.now
           endTimestamp := 0 }, w)

/-- The function `startNewGame`.  The ticker it creates at line 380 has the interval of the
fresh state, 100 ms, so `time.NewTicker` returns. -/
def startNewGame (gEnv : gameEnvironment) (eliMode : Bool) (w : world) :
    Except fault (gameState × world) :=
  match initFreshGameState gEnv eliMode w with
  | .error e => .error e
  | .ok (gSt, w) => .ok ({ gSt with gameStarted := true }, w)

/-! ## Game over: name entry and score posting -/

/-- The test on `ev.Ch` at line 718: characters allowed in a player name. -/
def isNameChar (ch : Char) : Bool :=
  ch = '_' || ch = '-' || ('a' ≤ ch && ch ≤ 'z') || ('A' ≤ ch && ch ≤ 'Z') ||
    ('0' ≤ ch && ch ≤ '9')

/-- One iteration of the loop of `readPlayerName` on the polled event: the player name after
the iteration and, when the iteration returns, the returned value. -/
def readPlayerNameStep (playerName : List Char) (ev : Event) : List Char × Option Bool :=
  if ev.EvType = .EventKey then
    if isNameChar ev.Ch then
      if playerName.length < 20 then (playerName ++ [ev.Ch], none) else (playerName, none)
    else if ev.Key = Key.KeyBackspace ∨ ev.Key = .KeyBackspace2 then
      if playerName.length > 0 then (playerName.dropLast, none) else (playerName, none)
    else if ev.Key = .KeyEnter then
      if playerName.length > 0 ∧ playerName.length ≤ 20 then (playerName, some true)
      else (playerName, none)
    else if ev.Key = .KeyEsc then (playerName, some false)
    else (playerName, none)
  else (playerName, none)

/-- The function `readPlayerName` on the events it polls: the returned flag, the player name
it leaves in `gEnv` and the events not yet consumed. -/
def readPlayerName (playerName : List Char) :
    List Event → Except fault (Bool × List Char × List Event)
  | [] => .error .starved
  | ev :: rest =>
    match readPlayerNameStep playerName ev with
    | (playerName, some validName) => .ok (validName, playerName, rest)
    | (playerName, none) => readPlayerName playerName rest

/-- Prints game introduction: besides drawing, `printGameIntro` clears `gameOver`. -/
def printGameIntro (gSt : gameState) : gameState :=
  { gSt with gameOver := false }

/-- Prints game summary containing score: with a positive score the player name is read,
and the score is zeroed when the entry is cancelled. -/
def printGameSummary (gEnv : gameEnvironment) (gSt : gameState) (w : world) :
    Except fault (gameEnvironment × gameState × world) :=
  if gSt.score > 0 then
    match readPlayerName gEnv.playerName w.events with
    | .error e => .error e
    | .ok (validName, playerName, events) =>
      let gEnv := { gEnv with playerName := playerName }
      let w := { w with events := events }
      if validName then .ok (gEnv, gSt, w) else .ok (gEnv, { gSt with score := 0 }, w)
  else .ok (gEnv, gSt, w)

/-- The request of `postHighScore` together with the polling loop that waits for it: the
flag `isHighScoreRequest` is set, and cleared when the request completes with a transport
error (`none`) or a status code; success is exactly status 201. -/
def postHighScore (gEnv : gameEnvironment) (w : world) : Except fault (gameEnvironment × world) :=
  match w.responses with
  | [] => .error .starved
  | r :: rest =>
    .ok ({ gEnv with isHighScoreRequest := false, highScoreRequestResult := decide (r = some 201) },
         { w with responses := rest })

/-- The request of `fetchHighScores` together with the polling loop of `showHighScores`;
success is exactly status 200. -/
def fetchHighScores (gEnv : gameEnvironment) (w : world) : Except fault (gameEnvironment × world) :=
  match w.responses with
  | [] => .error .starved
  | r :: rest =>
    .ok ({ gEnv with isHighScoreRequest := false, highScoreRequestResult := decide (r = some 200) },
         { w with responses := rest })

/-- The function `showHighScores`; `printHighScores` sets `serverContentShown`. -/
def showHighScores (gEnv : gameEnvironment) (gSt : gameState) (w : world) :
    Except fault (gameEnvironment × gameState × world) :=
  match fetchHighScores gEnv w with
  | .error e => .error e
  | .ok (gEnv, w) => .ok (gEnv, { gSt with serverContentShown := true }, w)

/-- The function `handleGameOver`. -/
def handleGameOver (gEnv : gameEnvironment) (gSt : gameState) (w : world) :
    Except fault (gameEnvironment × gameState × world) :=
  let gSt := { gSt with gameStarted := false, gameOver := true, endTimestamp := w.now }
  match printGameSummary gEnv gSt w with
  | .error e => .error e
  | .ok (gEnv, gSt, w) =>
    if gSt.score > 0 then
      match postHighScore gEnv w with
      | .error e => .error e
      | .ok (gEnv, w) => .ok (gEnv, gSt, w)
    else .ok (gEnv, printGameIntro gSt, w)

/-! ## Key events of the main loop -/

/-- The function `interruptPause`. -/
def interruptPause (gSt : gameState) : gameState :=
  if gSt.gamePaused then { gSt with gamePaused := false } else gSt

/-- The `case ev := <-eventQueue` branch of the loop in `main`.  `Ctrl+Q` leaves the loop; no
event follows it, so it is a step that changes nothing. -/
def mainKeyEvent (gEnv : gameEnvironment) (gSt : gameState) (ev : Event) (w : world) :
    Except fault (gameEnvironment × gameState × world) :=
  if ev.EvType = .EventKey then
    match ev.Key with
    | .KeyArrowLeft =>
      let gSt := interruptPause gSt
      if gSt.snakeDirX = 0 then .ok (gEnv, { gSt with inputDirX := -1, inputDirY := 0 }, w)
      else .ok (gEnv, gSt, w)
    | .KeyArrowRight =>
      let gSt := interruptPause gSt
      if gSt.snakeDirX = 0 then .ok (gEnv, { gSt with inputDirX := 1, inputDirY := 0 }, w)
      else .ok (gEnv, gSt, w)
    | .KeyArrowUp =>
      let gSt := interruptPause gSt
      if gSt.snakeDirY = 0 then .ok (gEnv, { gSt with inputDirX := 0, inputDirY := -1 }, w)
      else .ok (gEnv, gSt, w)
    | .KeyArrowDown =>
      let gSt := interruptPause gSt
      if gSt.snakeDirY = 0 then .ok (gEnv, { gSt with inputDirX := 0, inputDirY := 1 }, w)
      else .ok (gEnv, gSt, w)
    | .KeyCtrlP =>
      if !gSt.gamePaused && !gSt.gameOver && gSt.gameStarted then
        .ok (gEnv, { gSt with gamePaused := true }, w)
      else .ok (gEnv, gSt, w)
    | .KeyCtrlS => .ok ({ gEnv with soundOn := !gEnv.soundOn }, gSt, w)
    | .KeySpace =>
      if gSt.gameOver || gSt.serverContentShown then
        .ok (gEnv, { printGameIntro gSt with serverContentShown := false }, w)
      else .ok (gEnv, gSt, w)
    | .KeyCtrlR =>
      if !gSt.gameStarted && !gSt.gameOver && !gSt.serverContentShown then
        match startNewGame gEnv false w with
        | .error e => .error e
        | .ok (gSt, w) => .ok (gEnv, gSt, w)
      else .ok (gEnv, gSt, w)
    | .KeyCtrlE =>
      if !gSt.gameStarted && !gSt.gameOver && !gSt.serverContentShown then
        match startNewGame gEnv true w with
        | .error e => .error e
        | .ok (gSt, w) => .ok (gEnv, gSt, w)
      else .ok (gEnv, gSt, w)
    | .KeyCtrlH =>
      if !gSt.gameStarted && !gSt.gameOver then showHighScores gEnv gSt w
      else .ok (gEnv, gSt, w)
    | _ => .ok (gEnv, gSt, w)
  else .ok (gEnv, gSt, w)

/-! ## The timer tick of the main loop

The body of `case <-redraw.C` is split along its blocks; `mainTick` chains them. -/

/-- The guard of the tick (line 276): the game is running. -/
def isRunning (gSt : gameState) : Bool :=
  gSt.gameStarted && !gSt.gamePaused && !gSt.gameOver

/-- Lines 278-296: commit the queued direction, advance the head, and in Eli mode bring a
head that left the board back in on the opposite side. -/
def tickAdvanceHead (gEnv : gameEnvironment) (gSt : gameState) : gameState :=
  let gSt := { gSt with snakeDirX := gSt.inputDirX, snakeDirY := gSt.inputDirY }
  let gSt := { gSt with snakeHeadCoords :=
    { x := gSt.snakeHeadCoords.x + gSt.snakeDirX, y := gSt.snakeHeadCoords.y + gSt.snakeDirY } }
  if gSt.eliMode then
    let gSt :=
      if gSt.snakeHeadCoords.x < 0 then
        { gSt with snakeHeadCoords := { gSt.snakeHeadCoords with x := gEnv.boardWidth - 1 } }
      else if gSt.snakeHeadCoords.x ≥ gEnv.boardWidth then
        { gSt with snakeHeadCoords := { gSt.snakeHeadCoords with x := 0 } }
      else gSt
    if gSt.snakeHeadCoords.y < 0 then
      { gSt with snakeHeadCoords := { gSt.snakeHeadCoords with y := gEnv.boardHeight - 1 } }
    else if gSt.snakeHeadCoords.y ≥ gEnv.boardHeight then
      { gSt with snakeHeadCoords := { gSt.snakeHeadCoords with y := 0 } }
    else gSt
  else gSt

/-- Lines 299-300: append the head to the snake and count the step. -/
def tickAppendHead (gSt : gameState) : gameState :=
  { gSt with snakeCoords := gSt.snakeCoords ++ [gSt.snakeHeadCoords],
             stepsToFruit := gSt.stepsToFruit + 1 }

/-- Lines 302-306: a special fruit older than its distance plus 10 steps is removed. -/
def tickExpireFruit (gSt : gameState) : gameState :=
  if gSt.isFruit && gSt.isSpecialFruit && decide (gSt.stepsToFruit > gSt.fruitDistance + 10) then
    { gSt with isFruit := false, isSpecialFruit := false }
  else gSt

/-- The condition at line 309: the head went over the fruit. -/
def headOnFruit (gSt : gameState) : Bool :=
  gSt.isFruit && decide (gSt.snakeHeadCoords.x = gSt.fruitCoords.x) &&
    decide (gSt.snakeHeadCoords.y = gSt.fruitCoords.y)

/-- The constant `time.Millisecond`, in nanoseconds. -/
def Millisecond : Int := 1000000

/-- The call `time.NewTicker(d)`, of which only the panic is kept: the interval `d`, in
nanoseconds, has to be positive. -/
def NewTicker (d : Int) : Except fault Unit :=
  if d ≤ 0 then .error .nonPositiveInterval else .ok ()

/-- The interval of the ticker created at line 324, in nanoseconds:
`time.Duration(tickerDelay/float32(ratio)) * time.Millisecond`, where `ratio` is 2 for a
special fruit and 1 otherwise. -/
def tickerInterval (tickerDelay : float32) (isSpecialFruit : Bool) : Int :=
  let ratio : Int := if isSpecialFruit then 2 else 1
  (float32.div tickerDelay (float32.lit ratio 0)).trunc * Millisecond

/-- The writes of lines 310-326 to the state: score the fruit (more when it is special),
count it, shorten the ticker delay and clear the fruit.  The division is Go's truncating
integer division. -/
def eatenState (gEnv : gameEnvironment) (gSt : gameState) : gameState :=
  let scoreDelta := Int.tdiv (10 * gSt.fruitDistance) gSt.stepsToFruit
  let scoreDelta := if gSt.isSpecialFruit then scoreDelta * 10 else scoreDelta
  let gSt :=
    if gSt.isSpecialFruit then { gSt with specialFruits := gSt.specialFruits + 1 }
    else { gSt with fruits := gSt.fruits + 1 }
  { gSt with score := gSt.score + scoreDelta,
             tickerDelay := .mul gSt.tickerDelay gEnv.tickerFactor,
             isFruit := false,
             isSpecialFruit := false }

/-- Lines 330-333: remove snakes tail if no fruit eaten. -/
def dropTail (gSt : gameState) : gameState :=
  if gSt.snakeCoords.length > 1 then { gSt with snakeCoords := gSt.snakeCoords.drop 1 }
  else gSt

/-- Lines 310-326: eating the fruit.  The division at line 310 panics on a zero divisor, and
`time.NewTicker` at line 324 panics when the shortened delay, divided by `ratio`, is below
one millisecond, because the conversion to `time.Duration` discards the fraction. -/
def eatFruit (gEnv : gameEnvironment) (gSt : gameState) : Except fault gameState :=
  if gSt.stepsToFruit = 0 then .error .divideByZero
  else
    match NewTicker (tickerInterval (.mul gSt.tickerDelay gEnv.tickerFactor)
        gSt.isSpecialFruit) with
    | .error e => .error e
    | .ok _ => .ok (eatenState gEnv gSt)

/-- Lines 309-334: when the head went over the fruit, eat it; otherwise remove the tail of
the snake. -/
def tickEatOrDrop (gEnv : gameEnvironment) (gSt : gameState) : Except fault gameState :=
  if headOnFruit gSt then eatFruit gEnv gSt else .ok (dropTail gSt)

/-- The condition at line 338: the head is outside of the board. -/
def headOutsideBoard (gEnv : gameEnvironment) (gSt : gameState) : Bool :=
  decide (gSt.snakeHeadCoords.x < 0) || decide (gSt.snakeHeadCoords.x ≥ gEnv.boardWidth) ||
    decide (gSt.snakeHeadCoords.y < 0) || decide (gSt.snakeHeadCoords.y ≥ gEnv.boardHeight)

/-- The guard of the boundary check (lines 337-338): not in Eli mode and the head is outside. -/
def boundaryViolation (gEnv : gameEnvironment) (gSt : gameState) : Bool :=
  !gSt.eliMode && headOutsideBoard gEnv gSt

/-- Lines 336-341: the boundary check. -/
def tickBoundaryCheck (gEnv : gameEnvironment) (gSt : gameState) (w : world) :
    Except fault (gameEnvironment × gameState × world) :=
  if boundaryViolation gEnv gSt then handleGameOver gEnv gSt w else .ok (gEnv, gSt, w)

/-- The condition at line 344: the head is on another segment of the snake. -/
def selfCollision (gSt : gameState) : Bool :=
  decide (gSt.snakeCoords.length > 1) &&
    areCoordsInSlice gSt.snakeHeadCoords gSt.snakeCoords.dropLast

/-- Lines 343-346: the check of the head against the snakes body. -/
def tickSelfCheck (gEnv : gameEnvironment) (gSt : gameState) (w : world) :
    Except fault (gameEnvironment × gameState × world) :=
  if selfCollision gSt then handleGameOver gEnv gSt w else .ok (gEnv, gSt, w)

/-- The Manhattan distance computed at line 364 (there through `math.Abs` on `float64`,
which is exact on board coordinates). -/
def manhattan (a b : coords) : Int :=
  |a.x - b.x| + |a.y - b.y|

/-- Lines 362-365: record the new fruit, its distance from the head and a zero age. -/
@[simps]
def placeFruit (gSt : gameState) (fruitCoords : coords) (special : Bool) : gameState :=
  { gSt with fruitCoords := fruitCoords,
             isFruit := true,
             isSpecialFruit := special,
             fruitDistance := manhattan gSt.snakeHeadCoords fruitCoords,
             stepsToFruit := 0 }

/-- Lines 348-368: when the game goes on and there is no fruit, place a new one on a cell
drawn until it is not on the snake; it is special when the draw out of 100 exceeds 84. -/
def tickSpawnFruit (gEnv : gameEnvironment) (gSt : gameState) (w : world) :
    Except fault (gameState × world) :=
  if !gSt.gameOver && gSt.gameStarted then
    if !gSt.isFruit then
      if gEnv.boardWidth ≤ 0 ∨ gEnv.boardHeight ≤ 0 then .error .invalidIntn
      else
        match drawFruitCoords gEnv.boardWidth gEnv.boardHeight gSt.snakeCoords w.draws with
        | .error e => .error e
        | .ok (fruitCoords, draws) =>
          match Intn 100 { w with draws := draws } with
          | .error e => .error e
          | .ok (special, w) => .ok (placeFruit gSt fruitCoords (decide (special > 84)), w)
    else .ok (gSt, w)
  else .ok (gSt, w)

/-- Lines 278-334 in sequence: the part of the tick that reads nothing from outside. -/
def tickMove (gEnv : gameEnvironment) (gSt : gameState) : Except fault gameState :=
  tickEatOrDrop gEnv (tickExpireFruit (tickAppendHead (tickAdvanceHead gEnv gSt)))

/-- The `case <-redraw.C` branch of the loop in `main`: one timer tick. -/
def mainTick (gEnv : gameEnvironment) (gSt : gameState) (w : world) :
    Except fault (gameEnvironment × gameState × world) :=
  if isRunning gSt then
    match tickMove gEnv gSt with
    | .error e => .error e
    | .ok gSt =>
      match tickBoundaryCheck gEnv gSt w with
      | .error e => .error e
      | .ok (gEnv, gSt, w) =>
        match tickSelfCheck gEnv gSt w with
        | .error e => .error e
        | .ok (gEnv, gSt, w) =>
          match tickSpawnFruit gEnv gSt w with
          | .error e => .error e
          | .ok (gSt, w) => .ok (gEnv, gSt, w)
  else .ok (gEnv, gSt, w)

/-! ## The loop as a transition system -/

/-- What the `select` of the main loop receives: a terminal event or a timer tick. -/
inductive loopEvent where
  | terminal (ev : Event)
  | redraw
  deriving DecidableEq, Repr

/-- One iteration of the loop in `main`. -/
def mainStep (gEnv : gameEnvironment) (gSt : gameState) (e : loopEvent) (w : world) :
    Except fault (gameEnvironment × gameState × world) :=
  match e with
  | .terminal ev => mainKeyEvent gEnv gSt ev w
  | .redraw => mainTick gEnv gSt w

/-- The state with which `main` enters its loop: `initFreshGameState(false)`, then either the
server messages are shown (`printServerMessages` returned true) or the intro is printed.  The
ticker of line 214 is created with the interval of the fresh state, 100 ms. -/
def mainInit (consoleWidth consoleHeight : Int) (serverMessages : Bool) (w : world) :
    Except fault (gameEnvironment × gameState × world) :=
  let gEnv := initGameEnvironment consoleWidth consoleHeight
  match initFreshGameState gEnv false w with
  | .error e => .error e
  | .ok (gSt, w) =>
    if serverMessages then .ok (gEnv, { gSt with serverContentShown := true }, w)
    else .ok (gEnv, printGameIntro gSt, w)

/-- States the loop can be in after some iterations, starting from `(gEnv0, gSt0)`. -/
inductive Reaches (gEnv0 : gameEnvironment) (gSt0 : gameState) :
    gameEnvironment → gameState → Prop where
  | start : Reaches gEnv0 gSt0 gEnv0 gSt0
  | next {gEnv gSt gEnv1 gSt1} (e : loopEvent) (w w1 : world) :
      Reaches gEnv0 gSt0 gEnv gSt → mainStep gEnv gSt e w = .ok (gEnv1, gSt1, w1) →
      Reaches gEnv0 gSt0 gEnv1 gSt1

/-- A freshly started round: the state `startNewGame` leaves. -/
def isFreshRound (gEnv : gameEnvironment) (gSt : gameState) : Prop :=
  ∃ eliMode w w1, startNewGame gEnv eliMode w = .ok (gSt, w1)

/-- The state `main` enters its loop with. -/
def isInitial (gEnv : gameEnvironment) (gSt : gameState) : Prop :=
  ∃ cw ch msgs w w1, mainInit cw ch msgs w = .ok (gEnv, gSt, w1)

/-- The loop of `main` run on a finite sequence of events, each paired with the world its
iteration reads. -/
def mainRun (gEnv : gameEnvironment) (gSt : gameState) :
    List (loopEvent × world) → Except fault (gameEnvironment × gameState)
  | [] => .ok (gEnv, gSt)
  | (e, w) :: rest =>
    match mainStep gEnv gSt e w with
    | .error err => .error err
    | .ok (gEnv, gSt, _) => mainRun gEnv gSt rest

/-! ## Auxiliary definitions used to state the properties -/

/-- The state the game-over handler leaves when it leaves the given score. -/
@[simps]
def overState (gSt : gameState) (score : Int) (now : Int) : gameState :=
  { gSt with score := score, gameStarted := false, gameOver := decide (0 < score),
             endTimestamp := now }

/-- The fields of the environment that are set by `initGameEnvironment` alone. -/
def envFrame (a b : gameEnvironment) : Prop :=
  b.consoleWidth = a.consoleWidth ∧ b.consoleHeight = a.consoleHeight ∧
  b.boardWidth = a.boardWidth ∧ b.boardHeight = a.boardHeight ∧
  b.tickerFactor = a.tickerFactor

/-- The head after lines 278-296: advanced by the queued direction and, in Eli mode, wrapped. -/
def movedHead (gEnv : gameEnvironment) (gSt : gameState) : coords :=
  (tickAdvanceHead gEnv gSt).snakeHeadCoords

/-- Whether a special fruit is removed by lines 302-306 of this tick. -/
def expires (gSt : gameState) : Bool :=
  gSt.isFruit && gSt.isSpecialFruit && decide (gSt.stepsToFruit + 1 > gSt.fruitDistance + 10)

/-- The state in which the fruit check of line 309 is made. -/
def arrived (gEnv : gameEnvironment) (gSt : gameState) : gameState :=
  tickExpireFruit (tickAppendHead (tickAdvanceHead gEnv gSt))

/-- Whether the moved head goes over the fruit that is still active (line 309 holds). -/
def eats (gEnv : gameEnvironment) (gSt : gameState) : Bool :=
  headOnFruit (arrived gEnv gSt)

/-- The interval, in nanoseconds, of the ticker that line 324 creates when the fruit is eaten
on this tick. -/
def eatInterval (gEnv : gameEnvironment) (gSt : gameState) : Int :=
  tickerInterval (.mul gSt.tickerDelay gEnv.tickerFactor) gSt.isSpecialFruit

/-- The amount added to the score at line 317 (the variable `scoreDelta`). -/
def scoreDelta (gSt : gameState) : Int :=
  if gSt.isSpecialFruit then Int.tdiv (10 * gSt.fruitDistance) gSt.stepsToFruit * 10
  else Int.tdiv (10 * gSt.fruitDistance) gSt.stepsToFruit

/-- Some of the events is the `Esc` key. -/
def escPressed (evs : List Event) : Prop :=
  ∃ ev ∈ evs, ev.EvType = .EventKey ∧ ev.Key = .KeyEsc

/-- The fields of the state that neither the game-over handler nor the fruit spawn writes. -/
def sameBody (a b : gameState) : Prop :=
  b.snakeDirX = a.snakeDirX ∧ b.snakeDirY = a.snakeDirY ∧
  b.inputDirX = a.inputDirX ∧ b.inputDirY = a.inputDirY ∧
  b.snakeHeadCoords = a.snakeHeadCoords ∧ b.snakeCoords = a.snakeCoords ∧
  b.eliMode = a.eliMode ∧ b.gamePaused = a.gamePaused ∧
  b.serverContentShown = a.serverContentShown ∧ b.tickerDelay = a.tickerDelay ∧
  b.fruits = a.fruits ∧ b.specialFruits = a.specialFruits ∧
  b.startTimestamp = a.startTimestamp

/-- A cardinal unit vector: one of (0,-1), (1,0), (0,1), (-1,0). -/
def isCardinal (dx dy : Int) : Prop :=
  (dx = 0 ∧ (dy = 1 ∨ dy = -1)) ∨ (dy = 0 ∧ (dx = 1 ∨ dx = -1))

/-- The cell lies on the board. -/
def onBoard (gEnv : gameEnvironment) (c : coords) : Prop :=
  0 ≤ c.x ∧ c.x < gEnv.boardWidth ∧ 0 ≤ c.y ∧ c.y < gEnv.boardHeight

/-- Invariant of the main loop: it holds when `main` enters the loop and when a round is
started, and every iteration of the loop keeps it. -/
structure Inv (gEnv : gameEnvironment) (gSt : gameState) : Prop where
  score_nonneg : 0 ≤ gSt.score
  distance_nonneg : 0 ≤ gSt.fruitDistance
  steps_nonneg : 0 ≤ gSt.stepsToFruit
  snake_ne : gSt.gameStarted = true → gSt.snakeCoords ≠ []
  snake_last : gSt.gameStarted = true → gSt.snakeCoords.getLast? = some gSt.snakeHeadCoords
  snake_nodup : gSt.gameStarted = true → gSt.snakeCoords.Nodup
  fruit_free : gSt.gameStarted = true → gSt.isFruit = true → gSt.fruitCoords ∉ gSt.snakeCoords
  fruit_onBoard : gSt.gameStarted = true → gSt.isFruit = true → onBoard gEnv gSt.fruitCoords
  not_over_started : ¬ (gSt.gameOver = true ∧ gSt.gameStarted = true)
  paused_started : gSt.gamePaused = true → gSt.gameStarted = true
  dir_cardinal : isCardinal gSt.snakeDirX gSt.snakeDirY
  input_cardinal : isCardinal gSt.inputDirX gSt.inputDirY
  input_not_reverse : ¬ (gSt.inputDirX = -gSt.snakeDirX ∧ gSt.inputDirY = -gSt.snakeDirY)

/-- The event termbox reports for a key without a character. -/
def keyPress (k : Key) : Event :=
  { EvType := .EventKey, Key := k, Ch := Char.ofNat 0 }

/-- The event termbox reports for a typed character. -/
def charPress (c : Char) : Event :=
  { EvType := .EventKey, Key := .KeyNone, Ch := c }

/-- A world that lets a tick return: draws that hit the cell `c`, and `Esc` for each name
entry the tick may open. -/
def worldFor (c : coords) : world :=
  { draws := [c.x.toNat, c.y.toNat, 0],
    events := [keyPress .KeyEsc, keyPress .KeyEsc],
    responses := [],
    now := 0 }

/-! ### Concrete boards, states and worlds used in the examples -/

/-- The environment of a terminal of 20 by 11 characters: a board of 10 by 10 cells. -/
def boardEnv : gameEnvironment :=
  initGameEnvironment 20 11

/-- A world that holds only the given raw draws. -/
def drawsWorld (ds : List Nat) : world :=
  { draws := ds, events := [], responses := [], now := 0 }

/-- A timer tick that reads the given raw draws. -/
def tickWith (ds : List Nat) : loopEvent × world :=
  (.redraw, drawsWorld ds)

/-- A key press of the main loop. -/
def pressed (k : Key) : loopEvent × world :=
  (.terminal (keyPress k), drawsWorld [])

/-- The round `startNewGame` starts on the 10 by 10 board when the direction draw is 0:
a single segment at (5,5) heading up. -/
def freshUp (eliMode : Bool) : gameState :=
  { snakeDirX := 0, snakeDirY := -1, inputDirX := 0, inputDirY := -1,
    snakeHeadCoords := { x := 5, y := 5 }, snakeCoords := [{ x := 5, y := 5 }],
    fruitCoords := { x := 0, y := 0 }, fruitDistance := 0, stepsToFruit := 0, score := 0,
    isFruit := false, isSpecialFruit := false, eliMode := eliMode, gameStarted := true,
    gamePaused := false, gameOver := false, serverContentShown := false,
    tickerDelay := .lit 100 0, fruits := 0, specialFruits := 0, startTimestamp := 0,
    endTimestamp := 0 }

/-- The round started as `freshUp false` after five ticks without a key press, the first of
which placed a fruit at (0,0): the head is at the top row, still heading up, the score is 0. -/
def wallState : gameState :=
  { freshUp false with
    snakeHeadCoords := { x := 5, y := 0 }, snakeCoords := [{ x := 5, y := 0 }],
    fruitCoords := { x := 0, y := 0 }, isFruit := true, fruitDistance := 9, stepsToFruit := 4 }

/-- The state one more tick leaves `wallState` in. -/
def wallStateEnd : gameState :=
  { wallState with
    snakeHeadCoords := { x := 5, y := -1 }, snakeCoords := [{ x := 5, y := -1 }],
    stepsToFruit := 5, gameStarted := false, gameOver := false }

/-- A state like `wallState` with a score of 10. -/
def wallRich : gameState :=
  { wallState with score := 10 }

/-- A world in which the player types the name Bob, confirms it, and the post succeeds. -/
def nameWorld : world :=
  { draws := [],
    events := [charPress 'B', charPress 'o', charPress 'b', keyPress .KeyEnter],
    responses := [some 201],
    now := 0 }

/-- The state of the scoring scenario: on the 10 by 10 board a single segment at (5,5) heading
up, and a fruit just placed at (5,3), at distance 2. -/
def scenarioState (special : Bool) : gameState :=
  { freshUp false with
    fruitCoords := { x := 5, y := 3 }, isFruit := true, isSpecialFruit := special,
    fruitDistance := 2, stepsToFruit := 0 }

/-- The scenario after its first tick: the head is at (5,4), one step was counted. -/
def scenarioMid (special : Bool) : gameState :=
  { scenarioState special with
    snakeHeadCoords := { x := 5, y := 4 }, snakeCoords := [{ x := 5, y := 4 }],
    stepsToFruit := 1 }

/-- The scenario after its second tick, which read the draws 1, 1, 0: the fruit is eaten and
a new one is placed at (1,1). -/
def scenarioEnd (special : Bool) : gameState :=
  { scenarioState special with
    snakeHeadCoords := { x := 5, y := 3 },
    snakeCoords := [{ x := 5, y := 4 }, { x := 5, y := 3 }],
    fruitCoords := { x := 1, y := 1 }, isSpecialFruit := false, fruitDistance := 6,
    stepsToFruit := 0,
    score := if special then 100 else 10,
    fruits := if special then 0 else 1,
    specialFruits := if special then 1 else 0,
    tickerDelay := .mul (.lit 100 0) (.lit 995 3) }

/-- A run of the loop from `freshUp false`: the first tick places a special fruit at (3,4),
at distance 2, and twelve more ticks lead around it to (5,6), heading up. -/
def toExpiry : List (loopEvent × world) :=
  [tickWith [3, 4, 85], pressed .KeyArrowRight, tickWith [], tickWith [], tickWith [],
   pressed .KeyArrowDown, tickWith [], tickWith [], tickWith [], tickWith [],
   pressed .KeyArrowLeft, tickWith [], tickWith [], tickWith [],
   pressed .KeyArrowUp, tickWith [], tickWith []]

/-- The state the run `toExpiry` ends in: the special fruit is 12 steps old. -/
def expiryState : gameState :=
  { freshUp false with
    snakeHeadCoords := { x := 5, y := 6 }, snakeCoords := [{ x := 5, y := 6 }],
    fruitCoords := { x := 3, y := 4 }, isFruit := true, isSpecialFruit := true,
    fruitDistance := 2, stepsToFruit := 12 }

/-- A run of the loop that leads from `freshUp false` to the state of the scoring scenario:
after `toExpiry`, one more tick brings the head back to (5,5), lets the special fruit expire
and places the fruit at (5,3), special when `sp` exceeds 84. -/
def toScenario (sp : Nat) : List (loopEvent × world) :=
  toExpiry ++ [tickWith [5, 3, sp]]

/-- The round started as `freshUp false` after five ticks without a key press, the first of
which placed a fruit at (5,3), eaten on the second tick for 10 points: the head is at the top
row, still heading up. -/
def wallScored : gameState :=
  { freshUp false with
    snakeHeadCoords := { x := 5, y := 0 },
    snakeCoords := [{ x := 5, y := 1 }, { x := 5, y := 0 }],
    fruitCoords := { x := 0, y := 0 }, isFruit := true, fruitDistance := 8, stepsToFruit := 3,
    score := 10, fruits := 1, tickerDelay := .mul (.lit 100 0) (.lit 995 3) }

/-- The state one more tick leaves `wallScored` in when the name entry is cancelled. -/
def wallScoredEnd : gameState :=
  { wallScored with
    snakeHeadCoords := { x := 5, y := -1 },
    snakeCoords := [{ x := 5, y := 0 }, { x := 5, y := -1 }],
    stepsToFruit := 4, score := 0, gameStarted := false, gameOver := false }

/-- A world in which the player presses `Esc`. -/
def escWorld : world :=
  { draws := [], events := [keyPress .KeyEsc], responses := [], now := 0 }

/-- The state `wallState` of a round played in Eli mode. -/
def wrapState : gameState :=
  { wallState with eliMode := true }

/-- One of the four arrow keys. -/
def isArrowKey (k : Key) : Prop :=
  k = .KeyArrowLeft ∨ k = .KeyArrowRight ∨ k = .KeyArrowUp ∨ k = .KeyArrowDown

/-- An event of the loop that is the press of an arrow key. -/
def isArrowEvent (e : loopEvent) : Prop :=
  ∃ ev, e = .terminal ev ∧ ev.EvType = .EventKey ∧ isArrowKey ev.Key

/-- The fresh round after the Left key: (-1,0) is queued, (0,-1) is still active. -/
def queuedLeft : gameState :=
  { freshUp false with inputDirX := -1, inputDirY := 0 }

/-- The state one tick leaves `queuedLeft` in when it reads the draws 0, 0, 0. -/
def committedLeft : gameState :=
  { queuedLeft with
    snakeDirX := -1, snakeDirY := 0,
    snakeHeadCoords := { x := 4, y := 5 }, snakeCoords := [{ x := 4, y := 5 }],
    fruitCoords := { x := 0, y := 0 }, isFruit := true, fruitDistance := 9, stepsToFruit := 0 }

/-- A player name the high-score record accepts: at most 20 characters, all of them letters,
digits, `_` or `-`. -/
def isAllowedName (name : List Char) : Prop :=
  name.length ≤ 20 ∧ ∀ c ∈ name, isNameChar c = true

/-- The key sequence of the name-entry scenario: `a`, Backspace, `B`, `o`, `b`, `-`, `1`,
Enter. -/
def bobKeys : List Event :=
  [charPress 'a', keyPress .KeyBackspace2, charPress 'B', charPress 'o', charPress 'b',
   charPress '-', charPress '1', keyPress .KeyEnter]

/-- A run of the loop from `freshUp false`: four fruits placed right ahead are eaten on the
way up to (5,0), then the snake, five segments long, turns left and down, and the Right key
is pressed. -/
def toCoil : List (loopEvent × world) :=
  [tickWith [5, 3, 0], tickWith [5, 2, 0], tickWith [5, 1, 0], tickWith [5, 0, 0],
   tickWith [0, 9, 0], pressed .KeyArrowLeft, tickWith [], pressed .KeyArrowDown, tickWith [],
   pressed .KeyArrowRight]

/-- The state the run `toCoil` ends in: the head at (4,1) is about to move right, onto the
segment at (5,1). -/
def coiledState : gameState :=
  { freshUp false with
    snakeDirX := 0, snakeDirY := 1, inputDirX := 1, inputDirY := 0,
    snakeHeadCoords := { x := 4, y := 1 },
    snakeCoords := [{ x := 5, y := 2 }, { x := 5, y := 1 }, { x := 5, y := 0 },
                    { x := 4, y := 0 }, { x := 4, y := 1 }],
    fruitCoords := { x := 0, y := 9 }, isFruit := true, fruitDistance := 14, stepsToFruit := 2,
    score := 40, fruits := 4,
    tickerDelay := .mul (.mul (.mul (.mul (.lit 100 0) (.lit 995 3)) (.lit 995 3))
      (.lit 995 3)) (.lit 995 3) }

/-- The state one more tick leaves `coiledState` in when the name entry is cancelled. -/
def coiledEnd : gameState :=
  { coiledState with
    snakeDirX := 1, snakeDirY := 0,
    snakeHeadCoords := { x := 5, y := 1 },
    snakeCoords := [{ x := 5, y := 1 }, { x := 5, y := 0 }, { x := 4, y := 0 },
                    { x := 4, y := 1 }, { x := 5, y := 1 }],
    stepsToFruit := 3, score := 0, gameStarted := false, gameOver := false }

/-- The state one tick leaves `wrapState` in: the head left through the top row and came
back in at the bottom row. -/
def wrapStateEnd : gameState :=
  { wrapState with
    snakeHeadCoords := { x := 5, y := 9 }, snakeCoords := [{ x := 5, y := 9 }],
    stepsToFruit := 5 }

/-- The fields of the state that a key event of the main loop leaves alone, unless it starts
a new round. -/
def keyFrame (a b : gameState) : Prop :=
  b.snakeDirX = a.snakeDirX ∧ b.snakeDirY = a.snakeDirY ∧
  b.snakeHeadCoords = a.snakeHeadCoords ∧ b.snakeCoords = a.snakeCoords ∧
  b.fruitCoords = a.fruitCoords ∧ b.fruitDistance = a.fruitDistance ∧
  b.stepsToFruit = a.stepsToFruit ∧ b.score = a.score ∧
  b.isFruit = a.isFruit ∧ b.isSpecialFruit = a.isSpecialFruit ∧
  b.eliMode = a.eliMode ∧ b.gameStarted = a.gameStarted ∧
  b.tickerDelay = a.tickerDelay ∧ b.fruits = a.fruits ∧ b.specialFruits = a.specialFruits

/-- Invariant of the main loop about the reward: a fruit in the slot was placed off the head,
and in normal mode the head cannot have come closer to it than one cell per step. -/
structure rewardInv (gSt : gameState) : Prop where
  distance_pos : gSt.isFruit = true → 1 ≤ gSt.fruitDistance
  distance_le : gSt.eliMode = false → gSt.isFruit = true →
    gSt.fruitDistance ≤ gSt.stepsToFruit + manhattan gSt.snakeHeadCoords gSt.fruitCoords

/-- A run of the loop from `freshUp true`, a round in Eli mode: a fruit placed at (5,0) is
eaten on the fifth tick, four steps after it was placed at distance 4, and that tick places
the next fruit at (5,9), at distance 9 from the head at (5,0). -/
def toEdge : List (loopEvent × world) :=
  [tickWith [5, 0, 0], tickWith [], tickWith [], tickWith [], tickWith [5, 9, 0]]

/-- The state the run `toEdge` ends in: the head at the top row heads up, and the fruit is one
step away through the wall. -/
def edgeState : gameState :=
  { freshUp true with
    snakeHeadCoords := { x := 5, y := 0 },
    snakeCoords := [{ x := 5, y := 1 }, { x := 5, y := 0 }],
    fruitCoords := { x := 5, y := 9 }, isFruit := true, fruitDistance := 9, stepsToFruit := 0,
    score := 10, fruits := 1, tickerDelay := .mul (.lit 100 0) (.lit 995 3) }

/-- The state one tick leaves `edgeState` in when it reads the draws 0, 0, 0: the head came
back in at (5,9) and ate the fruit. -/
def edgeEnd : gameState :=
  { edgeState with
    snakeHeadCoords := { x := 5, y := 9 },
    snakeCoords := [{ x := 5, y := 1 }, { x := 5, y := 0 }, { x := 5, y := 9 }],
    fruitCoords := { x := 0, y := 0 }, fruitDistance := 14, stepsToFruit := 0,
    score := 100, fruits := 2,
    tickerDelay := .mul (.mul (.lit 100 0) (.lit 995 3)) (.lit 995 3) }

/-- The state `main` enters its loop with on a terminal of 20 by 11 characters when the server
has no messages and the direction draw is 0. -/
def introState : gameState :=
  { freshUp false with gameStarted := false }

/-- A run of the loop from `introState`: a round is started with `Ctrl+R`, one tick places a
fruit at (0,0), and the game is paused with `Ctrl+P`. -/
def toPause : List (loopEvent × world) :=
  [(.terminal (keyPress .KeyCtrlR), drawsWorld [0]), tickWith [0, 0, 0], pressed .KeyCtrlP]

/-- The state the run `toPause` ends in. -/
def pausedState : gameState :=
  { freshUp false with
    snakeHeadCoords := { x := 5, y := 4 }, snakeCoords := [{ x := 5, y := 4 }],
    fruitCoords := { x := 0, y := 0 }, isFruit := true, fruitDistance := 9, stepsToFruit := 0,
    gamePaused := true }

/-- The value `a` multiplied `n` times by `f`, one product after the other, as the eating
block does to the ticker delay. -/
def mulTimes (a f : float32) : Nat → float32
  | 0 => a
  | n + 1 => mulTimes (a.mul f) f n

/-- The ticker delay of a round in which `n` fruits have been eaten: 100, multiplied `n` times
by 0.995. -/
def delayAfter (n : Nat) : float32 :=
  mulTimes (.lit 100 0) (.lit 995 3) n

/-- A positive `float32` with a mantissa of exactly 24 bits. -/
def normal24 (a : float32) : Bool :=
  !a.neg && decide (2 ^ 23 ≤ a.mant) && decide (a.mant < 2 ^ 24)

/-- Whether `b` is a positive value with a 24-bit mantissa that is at least 1 when `normal`
is set and below 1 otherwise, and whose half is at least 1 when `special` is set and below 1
otherwise. -/
def sweepOk (normal special : Bool) (b : float32) : Bool :=
  normal24 b &&
    (decide (0 < float32.trunc { neg := false, mant := b.mant, exp := b.exp }) == normal) &&
    (decide (0 < float32.trunc { neg := false, mant := b.mant, exp := b.exp - 1 }) == special)

/-- The value `a` multiplied `n` times by `f`, when each of the products passes `sweepOk`. -/
def sweep (normal special : Bool) (f : float32) : Nat → float32 → Option float32
  | 0, a => some a
  | n + 1, a =>
    if sweepOk normal special (a.mul f) then sweep normal special f n (a.mul f) else none

/-- Invariant of the main loop about the ticker delay, for the ticker factor 0.995 of the
program: the delay is determined by the number of fruits eaten in the round. -/
structure delayInv (gSt : gameState) : Prop where
  fruits_nonneg : 0 ≤ gSt.fruits
  specialFruits_nonneg : 0 ≤ gSt.specialFruits
  delay : gSt.tickerDelay = delayAfter (gSt.fruits + gSt.specialFruits).toNat

/-! ## Basic facts about the pieces of the loop -/

theorem areCoordsInSlice_eq_true_iff (c : coords) (s : List coords) :
    areCoordsInSlice c s = true ↔ c ∈ s := by
  induction s with
  | nil => simp [areCoordsInSlice]
  | cons a rest ih =>
    by_cases h : c = a
    · simp [areCoordsInSlice, h]
    · simp [areCoordsInSlice, h, ih]

theorem areCoordsInSlice_eq_false_iff (c : coords) (s : List coords) :
    areCoordsInSlice c s = false ↔ c ∉ s := by
  rw [← areCoordsInSlice_eq_true_iff]; simp

theorem coords_eq_iff (a b : coords) : a = b ↔ a.x = b.x ∧ a.y = b.y := by
  cases a; cases b; simp

theorem envFrame_refl (a : gameEnvironment) : envFrame a a :=
  ⟨rfl, rfl, rfl, rfl, rfl⟩

theorem envFrame_trans {a b c : gameEnvironment} (h1 : envFrame a b) (h2 : envFrame b c) :
    envFrame a c := by
  obtain ⟨a1, a2, a3, a4, a5⟩ := h1
  obtain ⟨b1, b2, b3, b4, b5⟩ := h2
  exact ⟨b1.trans a1, b2.trans a2, b3.trans a3, b4.trans a4, b5.trans a5⟩

theorem readPlayerNameStep_false {name : List Char} {ev : Event} {n : List Char}
    (h : readPlayerNameStep name ev = (n, some false)) :
    ev.EvType = .EventKey ∧ ev.Key = .KeyEsc := by
  unfold readPlayerNameStep at h
  split_ifs at h <;> simp_all

theorem readPlayerName_suffix :
    ∀ (evs : List Event) (name : List Char) (v : Bool) (n : List Char) (rest : List Event),
      readPlayerName name evs = .ok (v, n, rest) → rest <:+ evs
  | [], _, _, _, _, h => by simp [readPlayerName] at h
  | ev :: evs, name, v, n, rest, h => by
    unfold readPlayerName at h
    split at h
    · cases h; exact List.suffix_cons _ _
    · exact (readPlayerName_suffix evs _ v n rest h).trans (List.suffix_cons _ _)

theorem readPlayerName_false :
    ∀ (evs : List Event) (name : List Char) (n : List Char) (rest : List Event),
      readPlayerName name evs = .ok (false, n, rest) → escPressed evs
  | [], _, _, _, h => by simp [readPlayerName] at h
  | ev :: evs, name, n, rest, h => by
    unfold readPlayerName at h
    split at h
    · rename_i n1 v1 heq
      cases h
      exact ⟨ev, List.mem_cons_self _ _, readPlayerNameStep_false heq⟩
    · obtain ⟨e, he, h2⟩ := readPlayerName_false evs _ n rest h
      exact ⟨e, List.mem_cons_of_mem _ he, h2⟩

theorem escPressed_suffix {evs evs1 : List Event} (hs : evs1 <:+ evs) (h : escPressed evs1) :
    escPressed evs := by
  obtain ⟨e, he, h2⟩ := h
  exact ⟨e, hs.subset he, h2⟩

theorem printGameSummary_ok {gEnv gSt w gEnv1 gSt1 w1}
    (h : printGameSummary gEnv gSt w = .ok (gEnv1, gSt1, w1)) :
    (gSt1 = gSt ∨ (0 < gSt.score ∧ escPressed w.events ∧ gSt1 = { gSt with score := 0 })) ∧
    envFrame gEnv gEnv1 ∧ w1.now = w.now ∧ w1.events <:+ w.events := by
  unfold printGameSummary at h
  split at h
  · rename_i hs
    split at h
    · cases h
    · rename_i v n rest heq
      have hsuf := readPlayerName_suffix _ _ _ _ _ heq
      split at h
      · cases h; exact ⟨Or.inl rfl, envFrame_refl _, rfl, hsuf⟩
      · rename_i hv
        have hv2 : v = false := by simpa using hv
        subst hv2
        cases h
        exact ⟨Or.inr ⟨hs, readPlayerName_false _ _ _ _ heq, rfl⟩, envFrame_refl _, rfl, hsuf⟩
  · cases h; exact ⟨Or.inl rfl, envFrame_refl _, rfl, List.suffix_refl _⟩

theorem postHighScore_ok {gEnv w gEnv1 w1}
    (h : postHighScore gEnv w = .ok (gEnv1, w1)) :
    envFrame gEnv gEnv1 ∧ gEnv1.playerName = gEnv.playerName ∧ w1.now = w.now ∧
      w1.events = w.events := by
  unfold postHighScore at h
  split at h
  · cases h
  · cases h; exact ⟨envFrame_refl _, rfl, rfl, rfl⟩

theorem handleGameOver_ok {gEnv gSt w gEnv1 gSt1 w1}
    (h : handleGameOver gEnv gSt w = .ok (gEnv1, gSt1, w1)) :
    (gSt1.score = gSt.score ∨ (0 < gSt.score ∧ escPressed w.events ∧ gSt1.score = 0)) ∧
    gSt1 = overState gSt gSt1.score w.now ∧ envFrame gEnv gEnv1 ∧ w1.now = w.now ∧
    w1.events <:+ w.events := by
  unfold handleGameOver at h
  simp only at h
  split at h
  · cases h
  · rename_i e2 s2 w2 heq
    obtain ⟨hs, he, hw, hsuf⟩ := printGameSummary_ok heq
    split at h
    · rename_i hpos
      split at h
      · cases h
      · rename_i e3 w3 heq3
        cases h
        obtain ⟨he3, -, hw3, hev3⟩ := postHighScore_ok heq3
        rcases hs with rfl | ⟨h0, -, rfl⟩
        · refine ⟨Or.inl rfl, ?_, envFrame_trans he he3, hw3.trans hw, hev3 ▸ hsuf⟩
          have : decide (0 < gSt.score) = true := by simpa using hpos
          simp [overState, this]
        · simp at hpos
    · rename_i hpos
      cases h
      rcases hs with rfl | ⟨h0, hesc, rfl⟩
      · refine ⟨Or.inl rfl, ?_, he, hw, hsuf⟩
        have : decide (0 < gSt.score) = false := by simpa using hpos
        simp [overState, printGameIntro, this]
      · refine ⟨Or.inr ⟨h0, hesc, rfl⟩, ?_, he, hw, hsuf⟩
        simp [overState, printGameIntro]

/-- The handler returns as soon as the world holds an `Esc` for the name entry. -/
theorem handleGameOver_esc (gEnv : gameEnvironment) (gSt : gameState) (w : world)
    (evs : List Event) (h : w.events = keyPress .KeyEsc :: evs) :
    ∃ gEnv1 gSt1, handleGameOver gEnv gSt w =
      .ok (gEnv1, gSt1, { w with events := if 0 < gSt.score then evs else w.events }) := by
  have hch : isNameChar (Char.ofNat 0) = false := by decide
  unfold handleGameOver printGameSummary
  by_cases hs : 0 < gSt.score
  · simp [hs, h, readPlayerName, readPlayerNameStep, keyPress, hch]
  · simp [hs]

/-! ## The tick, block by block -/

theorem movedHead_x (gEnv : gameEnvironment) (gSt : gameState) :
    (movedHead gEnv gSt).x =
      if gSt.eliMode then
        if gSt.snakeHeadCoords.x + gSt.inputDirX < 0 then gEnv.boardWidth - 1
        else if gSt.snakeHeadCoords.x + gSt.inputDirX ≥ gEnv.boardWidth then 0
        else gSt.snakeHeadCoords.x + gSt.inputDirX
      else gSt.snakeHeadCoords.x + gSt.inputDirX := by
  unfold movedHead tickAdvanceHead
  simp only
  split_ifs <;> rfl

theorem movedHead_y (gEnv : gameEnvironment) (gSt : gameState) :
    (movedHead gEnv gSt).y =
      if gSt.eliMode then
        if gSt.snakeHeadCoords.y + gSt.inputDirY < 0 then gEnv.boardHeight - 1
        else if gSt.snakeHeadCoords.y + gSt.inputDirY ≥ gEnv.boardHeight then 0
        else gSt.snakeHeadCoords.y + gSt.inputDirY
      else gSt.snakeHeadCoords.y + gSt.inputDirY := by
  unfold movedHead tickAdvanceHead
  simp only
  split_ifs <;> rfl

theorem tickAdvanceHead_eq (gEnv : gameEnvironment) (gSt : gameState) :
    tickAdvanceHead gEnv gSt =
      { gSt with snakeDirX := gSt.inputDirX, snakeDirY := gSt.inputDirY,
                 snakeHeadCoords := movedHead gEnv gSt } := by
  unfold movedHead tickAdvanceHead
  simp only
  split_ifs <;> rfl

theorem arrived_eq (gEnv : gameEnvironment) (gSt : gameState) :
    arrived gEnv gSt =
      { gSt with snakeDirX := gSt.inputDirX, snakeDirY := gSt.inputDirY,
                 snakeHeadCoords := movedHead gEnv gSt,
                 snakeCoords := gSt.snakeCoords ++ [movedHead gEnv gSt],
                 stepsToFruit := gSt.stepsToFruit + 1,
                 isFruit := gSt.isFruit && !expires gSt,
                 isSpecialFruit := gSt.isSpecialFruit && !expires gSt } := by
  unfold arrived
  rw [tickAdvanceHead_eq]
  unfold tickExpireFruit tickAppendHead expires
  simp only
  split
  · rename_i h
    simp only [h]
    simp
  · rename_i h
    have h2 : (gSt.isFruit && gSt.isSpecialFruit &&
      decide (gSt.stepsToFruit + 1 > gSt.fruitDistance + 10)) = false := by simpa using h
    simp only [h2]
    simp

@[simp] theorem arrived_snakeDirX (gEnv : gameEnvironment) (gSt : gameState) :
    (arrived gEnv gSt).snakeDirX = gSt.inputDirX := by
  rw [arrived_eq]

@[simp] theorem arrived_snakeDirY (gEnv : gameEnvironment) (gSt : gameState) :
    (arrived gEnv gSt).snakeDirY = gSt.inputDirY := by
  rw [arrived_eq]

@[simp] theorem arrived_inputDirX (gEnv : gameEnvironment) (gSt : gameState) :
    (arrived gEnv gSt).inputDirX = gSt.inputDirX := by
  rw [arrived_eq]

@[simp] theorem arrived_inputDirY (gEnv : gameEnvironment) (gSt : gameState) :
    (arrived gEnv gSt).inputDirY = gSt.inputDirY := by
  rw [arrived_eq]

@[simp] theorem arrived_snakeHeadCoords (gEnv : gameEnvironment) (gSt : gameState) :
    (arrived gEnv gSt).snakeHeadCoords = movedHead gEnv gSt := by
  rw [arrived_eq]

@[simp] theorem arrived_snakeCoords (gEnv : gameEnvironment) (gSt : gameState) :
    (arrived gEnv gSt).snakeCoords = gSt.snakeCoords ++ [movedHead gEnv gSt] := by
  rw [arrived_eq]

@[simp] theorem arrived_fruitCoords (gEnv : gameEnvironment) (gSt : gameState) :
    (arrived gEnv gSt).fruitCoords = gSt.fruitCoords := by
  rw [arrived_eq]

@[simp] theorem arrived_fruitDistance (gEnv : gameEnvironment) (gSt : gameState) :
    (arrived gEnv gSt).fruitDistance = gSt.fruitDistance := by
  rw [arrived_eq]

@[simp] theorem arrived_stepsToFruit (gEnv : gameEnvironment) (gSt : gameState) :
    (arrived gEnv gSt).stepsToFruit = gSt.stepsToFruit + 1 := by
  rw [arrived_eq]

@[simp] theorem arrived_score (gEnv : gameEnvironment) (gSt : gameState) :
    (arrived gEnv gSt).score = gSt.score := by
  rw [arrived_eq]

@[simp] theorem arrived_isFruit (gEnv : gameEnvironment) (gSt : gameState) :
    (arrived gEnv gSt).isFruit = (gSt.isFruit && !expires gSt) := by
  rw [arrived_eq]

@[simp] theorem arrived_isSpecialFruit (gEnv : gameEnvironment) (gSt : gameState) :
    (arrived gEnv gSt).isSpecialFruit = (gSt.isSpecialFruit && !expires gSt) := by
  rw [arrived_eq]

@[simp] theorem arrived_eliMode (gEnv : gameEnvironment) (gSt : gameState) :
    (arrived gEnv gSt).eliMode = gSt.eliMode := by
  rw [arrived_eq]

@[simp] theorem arrived_gameStarted (gEnv : gameEnvironment) (gSt : gameState) :
    (arrived gEnv gSt).gameStarted = gSt.gameStarted := by
  rw [arrived_eq]

@[simp] theorem arrived_gamePaused (gEnv : gameEnvironment) (gSt : gameState) :
    (arrived gEnv gSt).gamePaused = gSt.gamePaused := by
  rw [arrived_eq]

@[simp] theorem arrived_gameOver (gEnv : gameEnvironment) (gSt : gameState) :
    (arrived gEnv gSt).gameOver = gSt.gameOver := by
  rw [arrived_eq]

@[simp] theorem arrived_serverContentShown (gEnv : gameEnvironment) (gSt : gameState) :
    (arrived gEnv gSt).serverContentShown = gSt.serverContentShown := by
  rw [arrived_eq]

@[simp] theorem arrived_tickerDelay (gEnv : gameEnvironment) (gSt : gameState) :
    (arrived gEnv gSt).tickerDelay = gSt.tickerDelay := by
  rw [arrived_eq]

@[simp] theorem arrived_fruits (gEnv : gameEnvironment) (gSt : gameState) :
    (arrived gEnv gSt).fruits = gSt.fruits := by
  rw [arrived_eq]

@[simp] theorem arrived_specialFruits (gEnv : gameEnvironment) (gSt : gameState) :
    (arrived gEnv gSt).specialFruits = gSt.specialFruits := by
  rw [arrived_eq]

@[simp] theorem arrived_startTimestamp (gEnv : gameEnvironment) (gSt : gameState) :
    (arrived gEnv gSt).startTimestamp = gSt.startTimestamp := by
  rw [arrived_eq]

@[simp] theorem arrived_endTimestamp (gEnv : gameEnvironment) (gSt : gameState) :
    (arrived gEnv gSt).endTimestamp = gSt.endTimestamp := by
  rw [arrived_eq]

theorem eatenState_eq (gEnv : gameEnvironment) (gSt : gameState) :
    eatenState gEnv gSt =
      { gSt with score := gSt.score + scoreDelta gSt,
                 tickerDelay := .mul gSt.tickerDelay gEnv.tickerFactor,
                 isFruit := false, isSpecialFruit := false,
                 fruits := if gSt.isSpecialFruit then gSt.fruits else gSt.fruits + 1,
                 specialFruits :=
                   if gSt.isSpecialFruit then gSt.specialFruits + 1 else gSt.specialFruits } := by
  unfold eatenState scoreDelta
  simp only
  split_ifs <;> rfl

theorem dropTail_eq (gSt : gameState) :
    dropTail gSt =
      { gSt with snakeCoords :=
          if gSt.snakeCoords.length > 1 then gSt.snakeCoords.drop 1 else gSt.snakeCoords } := by
  unfold dropTail
  split_ifs <;> rfl

@[simp] theorem eatenState_snakeDirX (gEnv : gameEnvironment) (gSt : gameState) :
    (eatenState gEnv gSt).snakeDirX = gSt.snakeDirX := by
  rw [eatenState_eq]

@[simp] theorem eatenState_snakeDirY (gEnv : gameEnvironment) (gSt : gameState) :
    (eatenState gEnv gSt).snakeDirY = gSt.snakeDirY := by
  rw [eatenState_eq]

@[simp] theorem eatenState_inputDirX (gEnv : gameEnvironment) (gSt : gameState) :
    (eatenState gEnv gSt).inputDirX = gSt.inputDirX := by
  rw [eatenState_eq]

@[simp] theorem eatenState_inputDirY (gEnv : gameEnvironment) (gSt : gameState) :
    (eatenState gEnv gSt).inputDirY = gSt.inputDirY := by
  rw [eatenState_eq]

@[simp] theorem eatenState_snakeHeadCoords (gEnv : gameEnvironment) (gSt : gameState) :
    (eatenState gEnv gSt).snakeHeadCoords = gSt.snakeHeadCoords := by
  rw [eatenState_eq]

@[simp] theorem eatenState_snakeCoords (gEnv : gameEnvironment) (gSt : gameState) :
    (eatenState gEnv gSt).snakeCoords = gSt.snakeCoords := by
  rw [eatenState_eq]

@[simp] theorem eatenState_fruitCoords (gEnv : gameEnvironment) (gSt : gameState) :
    (eatenState gEnv gSt).fruitCoords = gSt.fruitCoords := by
  rw [eatenState_eq]

@[simp] theorem eatenState_fruitDistance (gEnv : gameEnvironment) (gSt : gameState) :
    (eatenState gEnv gSt).fruitDistance = gSt.fruitDistance := by
  rw [eatenState_eq]

@[simp] theorem eatenState_stepsToFruit (gEnv : gameEnvironment) (gSt : gameState) :
    (eatenState gEnv gSt).stepsToFruit = gSt.stepsToFruit := by
  rw [eatenState_eq]

@[simp] theorem eatenState_score (gEnv : gameEnvironment) (gSt : gameState) :
    (eatenState gEnv gSt).score = gSt.score + scoreDelta gSt := by
  rw [eatenState_eq]

@[simp] theorem eatenState_isFruit (gEnv : gameEnvironment) (gSt : gameState) :
    (eatenState gEnv gSt).isFruit = false := by
  rw [eatenState_eq]

@[simp] theorem eatenState_isSpecialFruit (gEnv : gameEnvironment) (gSt : gameState) :
    (eatenState gEnv gSt).isSpecialFruit = false := by
  rw [eatenState_eq]

@[simp] theorem eatenState_eliMode (gEnv : gameEnvironment) (gSt : gameState) :
    (eatenState gEnv gSt).eliMode = gSt.eliMode := by
  rw [eatenState_eq]

@[simp] theorem eatenState_gameStarted (gEnv : gameEnvironment) (gSt : gameState) :
    (eatenState gEnv gSt).gameStarted = gSt.gameStarted := by
  rw [eatenState_eq]

@[simp] theorem eatenState_gamePaused (gEnv : gameEnvironment) (gSt : gameState) :
    (eatenState gEnv gSt).gamePaused = gSt.gamePaused := by
  rw [eatenState_eq]

@[simp] theorem eatenState_gameOver (gEnv : gameEnvironment) (gSt : gameState) :
    (eatenState gEnv gSt).gameOver = gSt.gameOver := by
  rw [eatenState_eq]

@[simp] theorem eatenState_serverContentShown (gEnv : gameEnvironment) (gSt : gameState) :
    (eatenState gEnv gSt).serverContentShown = gSt.serverContentShown := by
  rw [eatenState_eq]

@[simp] theorem eatenState_tickerDelay (gEnv : gameEnvironment) (gSt : gameState) :
    (eatenState gEnv gSt).tickerDelay = .mul gSt.tickerDelay gEnv.tickerFactor := by
  rw [eatenState_eq]

@[simp] theorem eatenState_fruits (gEnv : gameEnvironment) (gSt : gameState) :
    (eatenState gEnv gSt).fruits = (if gSt.isSpecialFruit then gSt.fruits else gSt.fruits + 1) := by
  rw [eatenState_eq]

@[simp] theorem eatenState_specialFruits (gEnv : gameEnvironment) (gSt : gameState) :
    (eatenState gEnv gSt).specialFruits = (if gSt.isSpecialFruit then gSt.specialFruits + 1 else gSt.specialFruits) := by
  rw [eatenState_eq]

@[simp] theorem eatenState_startTimestamp (gEnv : gameEnvironment) (gSt : gameState) :
    (eatenState gEnv gSt).startTimestamp = gSt.startTimestamp := by
  rw [eatenState_eq]

@[simp] theorem eatenState_endTimestamp (gEnv : gameEnvironment) (gSt : gameState) :
    (eatenState gEnv gSt).endTimestamp = gSt.endTimestamp := by
  rw [eatenState_eq]

@[simp] theorem dropTail_snakeDirX (gSt : gameState) :
    (dropTail gSt).snakeDirX = gSt.snakeDirX := by
  rw [dropTail_eq]

@[simp] theorem dropTail_snakeDirY (gSt : gameState) :
    (dropTail gSt).snakeDirY = gSt.snakeDirY := by
  rw [dropTail_eq]

@[simp] theorem dropTail_inputDirX (gSt : gameState) :
    (dropTail gSt).inputDirX = gSt.inputDirX := by
  rw [dropTail_eq]

@[simp] theorem dropTail_inputDirY (gSt : gameState) :
    (dropTail gSt).inputDirY = gSt.inputDirY := by
  rw [dropTail_eq]

@[simp] theorem dropTail_snakeHeadCoords (gSt : gameState) :
    (dropTail gSt).snakeHeadCoords = gSt.snakeHeadCoords := by
  rw [dropTail_eq]

@[simp] theorem dropTail_snakeCoords (gSt : gameState) :
    (dropTail gSt).snakeCoords = (if gSt.snakeCoords.length > 1 then gSt.snakeCoords.drop 1 else gSt.snakeCoords) := by
  rw [dropTail_eq]

@[simp] theorem dropTail_fruitCoords (gSt : gameState) :
    (dropTail gSt).fruitCoords = gSt.fruitCoords := by
  rw [dropTail_eq]

@[simp] theorem dropTail_fruitDistance (gSt : gameState) :
    (dropTail gSt).fruitDistance = gSt.fruitDistance := by
  rw [dropTail_eq]

@[simp] theorem dropTail_stepsToFruit (gSt : gameState) :
    (dropTail gSt).stepsToFruit = gSt.stepsToFruit := by
  rw [dropTail_eq]

@[simp] theorem dropTail_score (gSt : gameState) :
    (dropTail gSt).score = gSt.score := by
  rw [dropTail_eq]

@[simp] theorem dropTail_isFruit (gSt : gameState) :
    (dropTail gSt).isFruit = gSt.isFruit := by
  rw [dropTail_eq]

@[simp] theorem dropTail_isSpecialFruit (gSt : gameState) :
    (dropTail gSt).isSpecialFruit = gSt.isSpecialFruit := by
  rw [dropTail_eq]

@[simp] theorem dropTail_eliMode (gSt : gameState) :
    (dropTail gSt).eliMode = gSt.eliMode := by
  rw [dropTail_eq]

@[simp] theorem dropTail_gameStarted (gSt : gameState) :
    (dropTail gSt).gameStarted = gSt.gameStarted := by
  rw [dropTail_eq]

@[simp] theorem dropTail_gamePaused (gSt : gameState) :
    (dropTail gSt).gamePaused = gSt.gamePaused := by
  rw [dropTail_eq]

@[simp] theorem dropTail_gameOver (gSt : gameState) :
    (dropTail gSt).gameOver = gSt.gameOver := by
  rw [dropTail_eq]

@[simp] theorem dropTail_serverContentShown (gSt : gameState) :
    (dropTail gSt).serverContentShown = gSt.serverContentShown := by
  rw [dropTail_eq]

@[simp] theorem dropTail_tickerDelay (gSt : gameState) :
    (dropTail gSt).tickerDelay = gSt.tickerDelay := by
  rw [dropTail_eq]

@[simp] theorem dropTail_fruits (gSt : gameState) :
    (dropTail gSt).fruits = gSt.fruits := by
  rw [dropTail_eq]

@[simp] theorem dropTail_specialFruits (gSt : gameState) :
    (dropTail gSt).specialFruits = gSt.specialFruits := by
  rw [dropTail_eq]

@[simp] theorem dropTail_startTimestamp (gSt : gameState) :
    (dropTail gSt).startTimestamp = gSt.startTimestamp := by
  rw [dropTail_eq]

@[simp] theorem dropTail_endTimestamp (gSt : gameState) :
    (dropTail gSt).endTimestamp = gSt.endTimestamp := by
  rw [dropTail_eq]


theorem eats_isSpecialFruit {gEnv : gameEnvironment} {gSt : gameState}
    (h : eats gEnv gSt = true) : (arrived gEnv gSt).isSpecialFruit = gSt.isSpecialFruit := by
  have hf : (arrived gEnv gSt).isFruit = true := by
    unfold eats headOnFruit at h
    simp only [Bool.and_eq_true] at h
    exact h.1.1
  rw [arrived_isFruit] at hf
  rw [arrived_isSpecialFruit]
  simp only [Bool.and_eq_true, Bool.not_eq_true'] at hf
  rw [hf.2]
  simp

theorem eatFruit_arrived {gEnv : gameEnvironment} {gSt : gameState}
    (h : eats gEnv gSt = true) :
    eatFruit gEnv (arrived gEnv gSt) =
      if gSt.stepsToFruit + 1 = 0 then .error .divideByZero
      else if eatInterval gEnv gSt ≤ 0 then .error .nonPositiveInterval
      else .ok (eatenState gEnv (arrived gEnv gSt)) := by
  unfold eatFruit NewTicker eatInterval
  rw [arrived_stepsToFruit, arrived_tickerDelay, eats_isSpecialFruit h]
  split_ifs <;> rfl

theorem tickMove_eq (gEnv : gameEnvironment) (gSt : gameState) :
    tickMove gEnv gSt =
      if eats gEnv gSt then
        if gSt.stepsToFruit + 1 = 0 then .error .divideByZero
        else if eatInterval gEnv gSt ≤ 0 then .error .nonPositiveInterval
        else .ok (eatenState gEnv (arrived gEnv gSt))
      else .ok (dropTail (arrived gEnv gSt)) := by
  by_cases h : eats gEnv gSt = true
  · rw [if_pos h, ← eatFruit_arrived h]
    unfold tickMove tickEatOrDrop
    rw [← arrived]
    unfold eats at h
    rw [if_pos h]
  · rw [if_neg h]
    unfold tickMove tickEatOrDrop
    rw [← arrived]
    unfold eats at h
    rw [if_neg h]

theorem boundaryViolation_overState (gEnv : gameEnvironment) (gSt : gameState) (sc now : Int) :
    boundaryViolation gEnv (overState gSt sc now) = boundaryViolation gEnv gSt := rfl

theorem selfCollision_overState (gSt : gameState) (sc now : Int) :
    selfCollision (overState gSt sc now) = selfCollision gSt := rfl

theorem overState_overState (gSt : gameState) (sc sc1 now now1 : Int) :
    overState (overState gSt sc now) sc1 now1 = overState gSt sc1 now1 := rfl

theorem tickSpawnFruit_overState (gEnv : gameEnvironment) (gSt : gameState) (sc now : Int)
    (w : world) : tickSpawnFruit gEnv (overState gSt sc now) w = .ok (overState gSt sc now, w) := by
  simp [tickSpawnFruit]

theorem drawFruitCoords_ok (W H : Int) (hW : 0 < W) (hH : 0 < H) (snake : List coords) :
    ∀ (ds : List Nat) (c : coords) (rest : List Nat),
      drawFruitCoords W H snake ds = .ok (c, rest) →
      c ∉ snake ∧ 0 ≤ c.x ∧ c.x < W ∧ 0 ≤ c.y ∧ c.y < H
  | [], c, rest, h => by simp [drawFruitCoords] at h
  | [_], c, rest, h => by simp [drawFruitCoords] at h
  | rx :: ry :: ds, c, rest, h => by
    unfold drawFruitCoords at h
    simp only at h
    split at h
    · rename_i hfree
      cases h
      refine ⟨?_, ?_, ?_, ?_, ?_⟩
      · rw [← areCoordsInSlice_eq_false_iff]; simpa using hfree
      · exact Int.emod_nonneg _ (by omega)
      · exact Int.emod_lt_of_pos _ hW
      · exact Int.emod_nonneg _ (by omega)
      · exact Int.emod_lt_of_pos _ hH
    · exact drawFruitCoords_ok W H hW hH snake ds c rest h

theorem tickSpawnFruit_ok {gEnv gSt w gSt1 w1} (hs : gSt.gameStarted = true)
    (ho : gSt.gameOver = false) (h : tickSpawnFruit gEnv gSt w = .ok (gSt1, w1)) :
    (gSt.isFruit = true ∧ gSt1 = gSt) ∨
    (gSt.isFruit = false ∧ 0 < gEnv.boardWidth ∧ 0 < gEnv.boardHeight ∧
      ∃ c sp, c ∉ gSt.snakeCoords ∧ 0 ≤ c.x ∧ c.x < gEnv.boardWidth ∧ 0 ≤ c.y ∧
        c.y < gEnv.boardHeight ∧ gSt1 = placeFruit gSt c sp) := by
  unfold tickSpawnFruit at h
  simp only [hs, ho] at h
  by_cases hf : gSt.isFruit = true
  · simp [hf] at h
    exact Or.inl ⟨hf, h.1.symm⟩
  · have hf2 : gSt.isFruit = false := by simpa using hf
    simp only [hf2] at h
    simp only [Bool.not_false, Bool.and_self, if_true] at h
    split at h
    · cases h
    · rename_i hb
      have hW : 0 < gEnv.boardWidth := by omega
      have hH : 0 < gEnv.boardHeight := by omega
      split at h
      · cases h
      · rename_i c ds heq
        split at h
        · cases h
        · cases h
          obtain ⟨h1, h2, h3, h4, h5⟩ := drawFruitCoords_ok _ _ hW hH _ _ _ _ heq
          exact Or.inr ⟨hf2, hW, hH, c, _, h1, h2, h3, h4, h5, rfl⟩

theorem mainTick_not_running {gEnv gSt} (w : world) (hr : isRunning gSt = false) :
    mainTick gEnv gSt w = .ok (gEnv, gSt, w) := by
  simp [mainTick, hr]

theorem handleGameOver_overState {gEnv gSt w gEnv1 gSt1 w1}
    (h : handleGameOver gEnv gSt w = .ok (gEnv1, gSt1, w1)) :
    ∃ sc, (sc = gSt.score ∨ (0 < gSt.score ∧ escPressed w.events ∧ sc = 0)) ∧
      gSt1 = overState gSt sc w.now ∧ envFrame gEnv gEnv1 ∧ w1.now = w.now ∧
      w1.events <:+ w.events := by
  obtain ⟨h1, h2, h3, h4, h5⟩ := handleGameOver_ok h
  exact ⟨gSt1.score, h1, h2, h3, h4, h5⟩

/-- A tick of a running game: either no check fires and the spawn block runs on the moved
state, or the game-over handler ran and left the moved state with the flags of a finished
round and a score that is kept or, when the name entry was cancelled, zeroed. -/
theorem mainTick_running {gEnv gSt w gEnv1 gSt1 w1} (hr : isRunning gSt = true)
    (h : mainTick gEnv gSt w = .ok (gEnv1, gSt1, w1)) :
    ∃ m, tickMove gEnv gSt = .ok m ∧
      ((boundaryViolation gEnv m = false ∧ selfCollision m = false ∧ gEnv1 = gEnv ∧
          tickSpawnFruit gEnv m w = .ok (gSt1, w1)) ∨
       ((boundaryViolation gEnv m = true ∨ selfCollision m = true) ∧
          (gSt1.score = m.score ∨ (0 < m.score ∧ escPressed w.events ∧ gSt1.score = 0)) ∧
          gSt1 = overState m gSt1.score w.now ∧ envFrame gEnv gEnv1)) := by
  unfold mainTick at h
  simp only [hr, if_true] at h
  split at h
  · cases h
  · rename_i m hm
    refine ⟨m, hm, ?_⟩
    unfold tickBoundaryCheck at h
    by_cases hb : boundaryViolation gEnv m = true
    · simp only [hb, if_true] at h
      split at h
      · cases h
      · rename_i e2 s2 w2 hgo
        obtain ⟨sc, hsc, rfl, hen, hnow, hsuf⟩ := handleGameOver_overState hgo
        right
        unfold tickSelfCheck at h
        by_cases hc : selfCollision (overState m sc w.now) = true
        · simp only [hc, if_true] at h
          split at h
          · cases h
          · rename_i e3 s3 w3 hgo3
            obtain ⟨sc3, hsc3, rfl, hen3, hnow3, hsuf3⟩ := handleGameOver_overState hgo3
            rw [tickSpawnFruit_overState] at h
            cases h
            rw [overState_score, overState_overState, hnow]
            refine ⟨Or.inl hb, ?_, rfl, envFrame_trans hen hen3⟩
            rw [overState_score] at hsc3
            rcases hsc3 with h3 | ⟨h3, hesc, h4⟩
            · rw [h3]; exact hsc
            · have hesc2 := escPressed_suffix hsuf hesc
              rcases hsc with h5 | ⟨h5, -, h6⟩
              · right; exact ⟨h5 ▸ h3, hesc2, h4⟩
              · right; exact ⟨h5, hesc2, h4⟩
        · have hc2 : selfCollision (overState m sc w.now) = false := by simpa using hc
          simp only [hc2] at h
          simp only [Bool.false_eq_true, if_false] at h
          rw [tickSpawnFruit_overState] at h
          cases h
          rw [overState_score]
          exact ⟨Or.inl hb, hsc, rfl, hen⟩
    · have hb2 : boundaryViolation gEnv m = false := by simpa using hb
      simp only [hb2] at h
      simp only [Bool.false_eq_true, if_false] at h
      unfold tickSelfCheck at h
      by_cases hc : selfCollision m = true
      · simp only [hc, if_true] at h
        split at h
        · cases h
        · rename_i e3 s3 w3 hgo3
          obtain ⟨sc3, hsc3, rfl, hen3, hnow3, hsuf3⟩ := handleGameOver_overState hgo3
          right
          rw [tickSpawnFruit_overState] at h
          cases h
          rw [overState_score]
          exact ⟨Or.inr hc, hsc3, rfl, hen3⟩
      · have hc2 : selfCollision m = false := by simpa using hc
        simp only [hc2] at h
        simp only [Bool.false_eq_true, if_false] at h
        left
        split at h
        · cases h
        · rename_i g w4 hsp
          cases h
          exact ⟨hb2, hc2, rfl, hsp⟩

/-! ## The loop invariant -/

theorem tickMove_ok {gEnv gSt m} (h : tickMove gEnv gSt = .ok m) :
    (eats gEnv gSt = true ∧ gSt.stepsToFruit + 1 ≠ 0 ∧ m = eatenState gEnv (arrived gEnv gSt)) ∨
    (eats gEnv gSt = false ∧ m = dropTail (arrived gEnv gSt)) := by
  rw [tickMove_eq] at h
  split_ifs at h with h1 h2 h3
  · cases h
    exact Or.inl ⟨h1, h2, rfl⟩
  · cases h
    exact Or.inr ⟨by simpa using h1, rfl⟩

/-- A tick that eats and returns has created a ticker with a positive interval. -/
theorem tickMove_ok_interval {gEnv gSt m} (h : tickMove gEnv gSt = .ok m)
    (he : eats gEnv gSt = true) : 0 < eatInterval gEnv gSt := by
  rw [tickMove_eq, if_pos he] at h
  split_ifs at h with h2 h3
  omega

theorem sameBody_refl (a : gameState) : sameBody a a :=
  ⟨rfl, rfl, rfl, rfl, rfl, rfl, rfl, rfl, rfl, rfl, rfl, rfl, rfl⟩

theorem sameBody_overState (a : gameState) (sc now : Int) : sameBody a (overState a sc now) :=
  ⟨rfl, rfl, rfl, rfl, rfl, rfl, rfl, rfl, rfl, rfl, rfl, rfl, rfl⟩

theorem sameBody_placeFruit (a : gameState) (c : coords) (sp : Bool) :
    sameBody a (placeFruit a c sp) :=
  ⟨rfl, rfl, rfl, rfl, rfl, rfl, rfl, rfl, rfl, rfl, rfl, rfl, rfl⟩

/-- What the spawn block leaves: the state itself, or the state with a fruit placed on a free
cell of the board. -/
theorem tickSpawnFruit_cases {gEnv gSt w gSt1 w1}
    (h : tickSpawnFruit gEnv gSt w = .ok (gSt1, w1)) :
    gSt1 = gSt ∨
    (gSt.gameStarted = true ∧ gSt.gameOver = false ∧ gSt.isFruit = false ∧
      ∃ c sp, c ∉ gSt.snakeCoords ∧ onBoard gEnv c ∧ gSt1 = placeFruit gSt c sp) := by
  by_cases hs : gSt.gameStarted = true
  · by_cases ho : gSt.gameOver = false
    · rcases tickSpawnFruit_ok hs ho h with ⟨-, h1⟩ | ⟨hf, -, -, c, sp, h1, h2, h3, h4, h5, h6⟩
      · exact Or.inl h1
      · exact Or.inr ⟨hs, ho, hf, c, sp, h1, ⟨h2, h3, h4, h5⟩, h6⟩
    · left
      have ho2 : gSt.gameOver = true := by simpa using ho
      simp [tickSpawnFruit, ho2] at h
      exact h.1.symm
  · left
    have hs2 : gSt.gameStarted = false := by simpa using hs
    simp [tickSpawnFruit, hs2] at h
    exact h.1.symm

theorem mainTick_body {gEnv gSt w gEnv1 gSt1 w1} (hr : isRunning gSt = true)
    (h : mainTick gEnv gSt w = .ok (gEnv1, gSt1, w1)) :
    ∃ m, tickMove gEnv gSt = .ok m ∧ sameBody m gSt1 ∧ envFrame gEnv gEnv1 := by
  obtain ⟨m, hm, hcase⟩ := mainTick_running hr h
  refine ⟨m, hm, ?_⟩
  rcases hcase with ⟨-, -, rfl, hsp⟩ | ⟨-, -, hst, hen⟩
  · refine ⟨?_, envFrame_refl _⟩
    rcases tickSpawnFruit_cases hsp with rfl | ⟨-, -, -, c, sp, -, -, rfl⟩
    · exact sameBody_refl _
    · exact sameBody_placeFruit _ _ _
  · rw [hst]
    exact ⟨sameBody_overState _ _ _, hen⟩

theorem isRunning_iff (gSt : gameState) :
    isRunning gSt = true ↔
      gSt.gameStarted = true ∧ gSt.gamePaused = false ∧ gSt.gameOver = false := by
  simp [isRunning, and_assoc]

theorem scoreDelta_nonneg {gSt : gameState} (hd : 0 ≤ gSt.fruitDistance)
    (hs : 0 ≤ gSt.stepsToFruit) : 0 ≤ scoreDelta gSt := by
  have h : 0 ≤ Int.tdiv (10 * gSt.fruitDistance) gSt.stepsToFruit :=
    Int.tdiv_nonneg (by omega) hs
  unfold scoreDelta
  split_ifs
  · omega
  · exact h
theorem eats_eq (gEnv : gameEnvironment) (gSt : gameState) :
    eats gEnv gSt = ((gSt.isFruit && !expires gSt) &&
      decide ((movedHead gEnv gSt).x = gSt.fruitCoords.x) &&
      decide ((movedHead gEnv gSt).y = gSt.fruitCoords.y)) := by
  simp [eats, headOnFruit]

theorem eats_head {gEnv : gameEnvironment} {gSt : gameState} (h : eats gEnv gSt = true) :
    gSt.isFruit = true ∧ expires gSt = false ∧ movedHead gEnv gSt = gSt.fruitCoords := by
  rw [eats_eq] at h
  simp only [Bool.and_eq_true, decide_eq_true_eq, Bool.not_eq_true'] at h
  obtain ⟨⟨⟨h1, h2⟩, h3⟩, h4⟩ := h
  exact ⟨h1, h2, (coords_eq_iff _ _).2 ⟨h3, h4⟩⟩

theorem not_eats_head {gEnv : gameEnvironment} {gSt : gameState} (h : eats gEnv gSt = false)
    (hf : gSt.isFruit = true) (he : expires gSt = false) :
    movedHead gEnv gSt ≠ gSt.fruitCoords := by
  intro hc
  rw [eats_eq, hf, he, hc] at h
  simp at h

/-- The snake after the move: the head is appended, and the oldest segment is removed unless
the fruit is eaten. -/
theorem tickMove_snakeCoords {gEnv gSt m} (h : tickMove gEnv gSt = .ok m)
    (hne : gSt.snakeCoords ≠ []) :
    m.snakeCoords =
      (if eats gEnv gSt then gSt.snakeCoords else gSt.snakeCoords.tail) ++
        [movedHead gEnv gSt] := by
  rcases tickMove_ok h with ⟨he, -, rfl⟩ | ⟨he, rfl⟩
  · simp [he]
  · have hl : 0 < gSt.snakeCoords.length := List.length_pos.2 hne
    simp only [dropTail_snakeCoords, arrived_snakeCoords, he]
    rw [if_pos (by simp; omega)]
    cases hs : gSt.snakeCoords with
    | nil => exact absurd hs hne
    | cons a t => simp

theorem tickMove_common {gEnv gSt m} (h : tickMove gEnv gSt = .ok m) :
    m.snakeDirX = gSt.inputDirX ∧ m.snakeDirY = gSt.inputDirY ∧
    m.inputDirX = gSt.inputDirX ∧ m.inputDirY = gSt.inputDirY ∧
    m.snakeHeadCoords = movedHead gEnv gSt ∧ m.eliMode = gSt.eliMode ∧
    m.gameStarted = gSt.gameStarted ∧ m.gamePaused = gSt.gamePaused ∧
    m.gameOver = gSt.gameOver ∧ m.serverContentShown = gSt.serverContentShown ∧
    m.fruitCoords = gSt.fruitCoords ∧ m.fruitDistance = gSt.fruitDistance ∧
    m.stepsToFruit = gSt.stepsToFruit + 1 ∧ m.startTimestamp = gSt.startTimestamp ∧
    m.endTimestamp = gSt.endTimestamp := by
  rcases tickMove_ok h with ⟨he, -, rfl⟩ | ⟨he, rfl⟩ <;> simp

theorem tickMove_score {gEnv gSt m} (h : tickMove gEnv gSt = .ok m) :
    m.score = if eats gEnv gSt then gSt.score + scoreDelta (arrived gEnv gSt) else gSt.score := by
  rcases tickMove_ok h with ⟨he, -, rfl⟩ | ⟨he, rfl⟩ <;> simp [he]

theorem tickMove_isFruit {gEnv gSt m} (h : tickMove gEnv gSt = .ok m) :
    m.isFruit = (gSt.isFruit && !expires gSt && !eats gEnv gSt) := by
  rcases tickMove_ok h with ⟨he, -, rfl⟩ | ⟨he, rfl⟩ <;> simp [he]

theorem selfCollision_append (gSt : gameState) (body : List coords)
    (hs : gSt.snakeCoords = body ++ [gSt.snakeHeadCoords]) :
    selfCollision gSt = true ↔ gSt.snakeHeadCoords ∈ body := by
  unfold selfCollision
  rw [hs, List.dropLast_concat]
  simp only [Bool.and_eq_true, decide_eq_true_eq, areCoordsInSlice_eq_true_iff,
    List.length_append, List.length_singleton]
  constructor
  · exact fun h => h.2
  · intro h
    refine ⟨?_, h⟩
    have := List.length_pos_of_mem h
    omega

theorem Inv_moved {gEnv gSt m} (hI : Inv gEnv gSt) (hr : isRunning gSt = true)
    (h : tickMove gEnv gSt = .ok m) :
    0 ≤ m.score ∧ gSt.score ≤ m.score ∧ 0 ≤ m.fruitDistance ∧ 0 ≤ m.stepsToFruit ∧
    m.snakeCoords ≠ [] ∧ m.snakeCoords.getLast? = some m.snakeHeadCoords ∧
    (selfCollision m = false → m.snakeCoords.Nodup) ∧
    (m.isFruit = true → m.fruitCoords ∉ m.snakeCoords ∧ onBoard gEnv m.fruitCoords) := by
  obtain ⟨hst, hpa, hov⟩ := (isRunning_iff gSt).1 hr
  have hne := hI.snake_ne hst
  have hsn := tickMove_snakeCoords h hne
  obtain ⟨-, -, -, -, hhead, -, -, -, -, -, hfc, hfd, hsteps, -, -⟩ := tickMove_common h
  have hscore := tickMove_score h
  have hdelta : 0 ≤ scoreDelta (arrived gEnv gSt) :=
    scoreDelta_nonneg (by simpa using hI.distance_nonneg)
      (by have := hI.steps_nonneg; simp; omega)
  have hsc : gSt.score ≤ m.score := by
    rw [hscore]; split_ifs <;> omega
  refine ⟨le_trans hI.score_nonneg hsc, hsc, hfd ▸ hI.distance_nonneg, ?_, ?_, ?_, ?_, ?_⟩
  · rw [hsteps]; have := hI.steps_nonneg; omega
  · rw [hsn]; simp
  · rw [hsn, hhead]; simp
  · intro hself
    have hbody : movedHead gEnv gSt ∉
        (if eats gEnv gSt then gSt.snakeCoords else gSt.snakeCoords.tail) := by
      intro hmem
      have := (selfCollision_append m _ (by rw [hhead]; exact hsn)).2 (by rw [hhead]; exact hmem)
      rw [hself] at this
      exact Bool.false_ne_true this
    rw [hsn]
    refine List.Nodup.append ?_ (List.nodup_singleton _) ?_
    · split_ifs
      · exact hI.snake_nodup hst
      · exact (hI.snake_nodup hst).sublist (List.tail_sublist _)
    · rw [List.disjoint_singleton]
      exact fun hx => hbody hx
  · intro hfruit
    rw [tickMove_isFruit h] at hfruit
    simp only [Bool.and_eq_true, Bool.not_eq_true'] at hfruit
    obtain ⟨⟨hf, hex⟩, he⟩ := hfruit
    rw [hfc]
    refine ⟨?_, hI.fruit_onBoard hst hf⟩
    rw [hsn, he]
    simp only [Bool.false_eq_true, if_false, List.mem_append, List.mem_singleton, not_or]
    refine ⟨fun hx => hI.fruit_free hst hf (List.mem_of_mem_tail hx), ?_⟩
    exact fun hx => not_eats_head he hf hex hx.symm
theorem onBoard_envFrame {a b : gameEnvironment} (h : envFrame a b) (c : coords) :
    onBoard b c ↔ onBoard a c := by
  obtain ⟨-, -, h3, h4, -⟩ := h
  simp [onBoard, h3, h4]

theorem Inv_envFrame {a b : gameEnvironment} {gSt : gameState} (h : envFrame a b)
    (hI : Inv a gSt) : Inv b gSt :=
  { hI with fruit_onBoard := fun h1 h2 => (onBoard_envFrame h _).2 (hI.fruit_onBoard h1 h2) }

theorem manhattan_nonneg (a b : coords) : 0 ≤ manhattan a b := by
  unfold manhattan
  positivity

/-- A timer tick keeps the invariant. -/
theorem Inv_mainTick {gEnv gSt w gEnv1 gSt1 w1} (hI : Inv gEnv gSt)
    (h : mainTick gEnv gSt w = .ok (gEnv1, gSt1, w1)) : Inv gEnv1 gSt1 := by
  by_cases hr : isRunning gSt = true
  swap
  · rw [mainTick_not_running w (by simpa using hr)] at h
    cases h
    exact hI
  obtain ⟨hst, hpa, hov⟩ := (isRunning_iff gSt).1 hr
  obtain ⟨m, hm, hcase⟩ := mainTick_running hr h
  obtain ⟨m1, m2, m3, m4, m5, m6, m7, m8⟩ := Inv_moved hI hr hm
  obtain ⟨c1, c2, c3, c4, c5, c6, c7, c8, c9, c10, c11, c12, c13, c14, c15⟩ := tickMove_common hm
  have hdir : isCardinal m.snakeDirX m.snakeDirY := by rw [c1, c2]; exact hI.input_cardinal
  have hinp : isCardinal m.inputDirX m.inputDirY := by rw [c3, c4]; exact hI.input_cardinal
  have hrev : ¬ (m.inputDirX = -m.snakeDirX ∧ m.inputDirY = -m.snakeDirY) := by
    rw [c1, c2, c3, c4]
    have := hI.input_cardinal
    unfold isCardinal at this
    omega
  rcases hcase with ⟨-, hself, rfl, hsp⟩ | ⟨-, hsc, hst1, hen⟩
  · rcases tickSpawnFruit_cases hsp with rfl | ⟨-, -, -, c, sp, hfree, hboard, rfl⟩
    · exact
        { score_nonneg := m1
          distance_nonneg := m3
          steps_nonneg := m4
          snake_ne := fun _ => m5
          snake_last := fun _ => m6
          snake_nodup := fun _ => m7 hself
          fruit_free := fun _ hf => (m8 hf).1
          fruit_onBoard := fun _ hf => (m8 hf).2
          not_over_started := by rw [c9, hov]; simp
          paused_started := by rw [c8, hpa]; simp
          dir_cardinal := hdir
          input_cardinal := hinp
          input_not_reverse := hrev }
    · exact
        { score_nonneg := m1
          distance_nonneg := manhattan_nonneg _ _
          steps_nonneg := le_refl _
          snake_ne := fun _ => m5
          snake_last := fun _ => m6
          snake_nodup := fun _ => m7 hself
          fruit_free := fun _ _ => hfree
          fruit_onBoard := fun _ _ => hboard
          not_over_started := by
            show ¬ (m.gameOver = true ∧ m.gameStarted = true)
            rw [c9, hov]; simp
          paused_started := by
            show m.gamePaused = true → m.gameStarted = true
            rw [c8, hpa]; simp
          dir_cardinal := hdir
          input_cardinal := hinp
          input_not_reverse := hrev }
  · rw [hst1]
    exact
      { score_nonneg := by
          show 0 ≤ gSt1.score
          rcases hsc with h1 | ⟨-, -, h1⟩ <;> omega
        distance_nonneg := m3
        steps_nonneg := m4
        snake_ne := fun hs => by simp at hs
        snake_last := fun hs => by simp at hs
        snake_nodup := fun hs => by simp at hs
        fruit_free := fun hs => by simp at hs
        fruit_onBoard := fun hs => by simp at hs
        not_over_started := by simp
        paused_started := by
          show m.gamePaused = true → _
          rw [c8, hpa]; simp
        dir_cardinal := hdir
        input_cardinal := hinp
        input_not_reverse := hrev }

theorem interruptPause_eq (gSt : gameState) :
    interruptPause gSt = { gSt with gamePaused := false } := by
  unfold interruptPause
  split_ifs with h
  · rfl
  · have : gSt.gamePaused = false := by simpa using h
    cases gSt
    simp_all

theorem Inv_interruptPause {gEnv gSt} (hI : Inv gEnv gSt) : Inv gEnv (interruptPause gSt) := by
  rw [interruptPause_eq]
  exact { hI with paused_started := fun h => by simp at h }

theorem Inv_setInput {gEnv gSt} (hI : Inv gEnv gSt) (dx dy : Int) (hc : isCardinal dx dy)
    (hn : ¬ (dx = -gSt.snakeDirX ∧ dy = -gSt.snakeDirY)) :
    Inv gEnv { gSt with inputDirX := dx, inputDirY := dy } :=
  { hI with input_cardinal := hc, input_not_reverse := hn }

theorem generateRandomSnakeDirection_cardinal {w dx dy w1}
    (h : generateRandomSnakeDirection w = .ok (dx, dy, w1)) : isCardinal dx dy := by
  unfold generateRandomSnakeDirection at h
  split at h
  · cases h
  · split_ifs at h <;> cases h <;> simp [isCardinal]

/-- The state left by `startNewGame` satisfies the invariant. -/
theorem Inv_startNewGame {gEnv eliMode w gSt w1}
    (h : startNewGame gEnv eliMode w = .ok (gSt, w1)) : Inv gEnv gSt := by
  unfold startNewGame initFreshGameState at h
  split at h
  · cases h
  · rename_i g w2 heq
    split at heq
    · cases heq
    · rename_i dx dy w3 hdir
      have hc := generateRandomSnakeDirection_cardinal hdir
      cases heq
      cases h
      exact
        { score_nonneg := le_refl _
          distance_nonneg := le_refl _
          steps_nonneg := le_refl _
          snake_ne := fun _ => by simp
          snake_last := fun _ => by simp
          snake_nodup := fun _ => by simp
          fruit_free := fun _ hf => by simp at hf
          fruit_onBoard := fun _ hf => by simp at hf
          not_over_started := by simp
          paused_started := by simp
          dir_cardinal := hc
          input_cardinal := hc
          input_not_reverse := by
            unfold isCardinal at hc
            show ¬ (dx = -dx ∧ dy = -dy)
            omega }
/-- A key event keeps the invariant. -/
theorem Inv_mainKeyEvent {gEnv gSt ev w gEnv1 gSt1 w1} (hI : Inv gEnv gSt)
    (h : mainKeyEvent gEnv gSt ev w = .ok (gEnv1, gSt1, w1)) : Inv gEnv1 gSt1 := by
  have hcard := hI.dir_cardinal
  unfold isCardinal at hcard
  unfold mainKeyEvent at h
  by_cases hk : ev.EvType = .EventKey
  swap
  · rw [if_neg hk] at h; cases h; exact hI
  rw [if_pos hk] at h
  split at h
  · -- left
    have hP := Inv_interruptPause hI
    have hd : (interruptPause gSt).snakeDirX = gSt.snakeDirX := by rw [interruptPause_eq]
    have hd2 : (interruptPause gSt).snakeDirY = gSt.snakeDirY := by rw [interruptPause_eq]
    simp only at h
    split_ifs at h with h0
    · cases h
      exact Inv_setInput hP _ _ (by simp [isCardinal]) (by rw [hd, hd2]; rw [hd] at h0; omega)
    · cases h; exact hP
  · have hP := Inv_interruptPause hI
    have hd : (interruptPause gSt).snakeDirX = gSt.snakeDirX := by rw [interruptPause_eq]
    have hd2 : (interruptPause gSt).snakeDirY = gSt.snakeDirY := by rw [interruptPause_eq]
    simp only at h
    split_ifs at h with h0
    · cases h
      exact Inv_setInput hP _ _ (by simp [isCardinal]) (by rw [hd, hd2]; rw [hd] at h0; omega)
    · cases h; exact hP
  · have hP := Inv_interruptPause hI
    have hd : (interruptPause gSt).snakeDirX = gSt.snakeDirX := by rw [interruptPause_eq]
    have hd2 : (interruptPause gSt).snakeDirY = gSt.snakeDirY := by rw [interruptPause_eq]
    simp only at h
    split_ifs at h with h0
    · cases h
      exact Inv_setInput hP _ _ (by simp [isCardinal]) (by rw [hd, hd2]; rw [hd2] at h0; omega)
    · cases h; exact hP
  · have hP := Inv_interruptPause hI
    have hd : (interruptPause gSt).snakeDirX = gSt.snakeDirX := by rw [interruptPause_eq]
    have hd2 : (interruptPause gSt).snakeDirY = gSt.snakeDirY := by rw [interruptPause_eq]
    simp only at h
    split_ifs at h with h0
    · cases h
      exact Inv_setInput hP _ _ (by simp [isCardinal]) (by rw [hd, hd2]; rw [hd2] at h0; omega)
    · cases h; exact hP
  · -- pause
    split_ifs at h with h0
    · cases h
      simp only [Bool.and_eq_true, Bool.not_eq_true'] at h0
      exact { hI with paused_started := fun _ => h0.2 }
    · cases h; exact hI
  · -- sound
    cases h
    exact @Inv_envFrame gEnv _ _ ⟨rfl, rfl, rfl, rfl, rfl⟩ hI
  · -- space
    split_ifs at h with h0
    · cases h
      exact { hI with not_over_started := by simp [printGameIntro] }
    · cases h; exact hI
  · -- new round
    split_ifs at h with h0
    · split at h
      · cases h
      · rename_i g w2 hs
        cases h
        exact Inv_startNewGame hs
    · cases h; exact hI
  · split_ifs at h with h0
    · split at h
      · cases h
      · rename_i g w2 hs
        cases h
        exact Inv_startNewGame hs
    · cases h; exact hI
  · -- high scores
    split_ifs at h with h0
    · unfold showHighScores fetchHighScores at h
      split at h
      · cases h
      · rename_i e2 w2 heq
        split at heq
        · cases heq
        · cases heq
          cases h
          exact @Inv_envFrame gEnv _ _ ⟨rfl, rfl, rfl, rfl, rfl⟩ { hI with }
    · cases h; exact hI
  · cases h; exact hI

/-- Every iteration of the loop keeps the invariant. -/
theorem Inv_mainStep {gEnv gSt e w gEnv1 gSt1 w1} (hI : Inv gEnv gSt)
    (h : mainStep gEnv gSt e w = .ok (gEnv1, gSt1, w1)) : Inv gEnv1 gSt1 := by
  cases e with
  | terminal ev => exact Inv_mainKeyEvent hI h
  | redraw => exact Inv_mainTick hI h

theorem Inv_of_Reaches {gEnv0 gSt0 gEnv gSt} (h0 : Inv gEnv0 gSt0)
    (h : Reaches gEnv0 gSt0 gEnv gSt) : Inv gEnv gSt := by
  induction h with
  | start => exact h0
  | next e w w1 _ hstep ih => exact Inv_mainStep ih hstep

theorem Inv_of_isFreshRound {gEnv gSt} (h : isFreshRound gEnv gSt) : Inv gEnv gSt := by
  obtain ⟨eliMode, w, w1, h⟩ := h
  exact Inv_startNewGame h

theorem Inv_of_isInitial {gEnv gSt} (h : isInitial gEnv gSt) : Inv gEnv gSt := by
  obtain ⟨cw, ch, msgs, w, w1, h⟩ := h
  unfold mainInit at h
  simp only at h
  split at h
  · cases h
  · rename_i g w2 heq
    have hI : Inv (initGameEnvironment cw ch) { g with gameStarted := true } :=
      @Inv_startNewGame _ false w _ w2 (by simp [startNewGame, heq])
    have hg : g.gameStarted = false ∧ g.gamePaused = false := by
      unfold initFreshGameState at heq
      split at heq
      · cases heq
      · cases heq; simp
    have base : Inv (initGameEnvironment cw ch) g :=
      { score_nonneg := hI.score_nonneg
        distance_nonneg := hI.distance_nonneg
        steps_nonneg := hI.steps_nonneg
        snake_ne := fun hs => by simp [hg.1] at hs
        snake_last := fun hs => by simp [hg.1] at hs
        snake_nodup := fun hs => by simp [hg.1] at hs
        fruit_free := fun hs => by simp [hg.1] at hs
        fruit_onBoard := fun hs => by simp [hg.1] at hs
        not_over_started := by simp [hg.1]
        paused_started := by simp [hg.2]
        dir_cardinal := hI.dir_cardinal
        input_cardinal := hI.input_cardinal
        input_not_reverse := hI.input_not_reverse }
    split_ifs at h
    · cases h
      exact { base with }
    · cases h
      exact { base with not_over_started := by simp [printGameIntro] }

theorem Reaches_trans {gEnv0 gSt0 gEnv1 gSt1 gEnv2 gSt2}
    (h1 : Reaches gEnv0 gSt0 gEnv1 gSt1) (h2 : Reaches gEnv1 gSt1 gEnv2 gSt2) :
    Reaches gEnv0 gSt0 gEnv2 gSt2 := by
  induction h2 with
  | start => exact h1
  | next e w w1 _ hstep ih => exact Reaches.next e w w1 ih hstep

/-- A run of the loop on a finite sequence of events ends in a reachable state. -/
theorem Reaches_of_mainRun :
    ∀ (evs : List (loopEvent × world)) (gEnv : gameEnvironment) (gSt : gameState)
      (gEnv1 : gameEnvironment) (gSt1 : gameState),
      mainRun gEnv gSt evs = .ok (gEnv1, gSt1) → Reaches gEnv gSt gEnv1 gSt1
  | [], gEnv, gSt, gEnv1, gSt1, h => by
    simp only [mainRun] at h
    cases h
    exact Reaches.start
  | (e, w) :: rest, gEnv, gSt, gEnv1, gSt1, h => by
    unfold mainRun at h
    split at h
    · cases h
    · rename_i g s w2 heq
      exact Reaches_trans (Reaches.next e w w2 Reaches.start heq)
        (Reaches_of_mainRun rest g s gEnv1 gSt1 h)

/-! ## Ticks return -/

theorem handleGameOver_returns (gEnv : gameEnvironment) (gSt : gameState) (w : world)
    (evs : List Event) (h : w.events = keyPress .KeyEsc :: evs) :
    ∃ gEnv1 sc, handleGameOver gEnv gSt w =
      .ok (gEnv1, overState gSt sc w.now,
        { w with events := if 0 < gSt.score then evs else w.events }) := by
  obtain ⟨gEnv1, gSt1, hgo⟩ := handleGameOver_esc gEnv gSt w evs h
  obtain ⟨sc, -, rfl, -, -, -⟩ := handleGameOver_overState hgo
  exact ⟨gEnv1, sc, hgo⟩

theorem tickSpawnFruit_returns (gEnv : gameEnvironment) (gSt : gameState) (c : coords)
    (hc : onBoard gEnv c) (hfree : c ∉ gSt.snakeCoords) (w : world)
    (hw : w.draws = [c.x.toNat, c.y.toNat, 0]) :
    ∃ gSt1 w1, tickSpawnFruit gEnv gSt w = .ok (gSt1, w1) := by
  obtain ⟨h1, h2, h3, h4⟩ := hc
  unfold tickSpawnFruit
  split_ifs with ha hb hd
  · omega
  · have hx : ((c.x.toNat : Int) % gEnv.boardWidth) = c.x := by
      rw [Int.toNat_of_nonneg h1]; exact Int.emod_eq_of_lt h1 h2
    have hy : ((c.y.toNat : Int) % gEnv.boardHeight) = c.y := by
      rw [Int.toNat_of_nonneg h3]; exact Int.emod_eq_of_lt h3 h4
    have hno : areCoordsInSlice c gSt.snakeCoords = false :=
      (areCoordsInSlice_eq_false_iff _ _).2 hfree
    simp only [hw, drawFruitCoords, hx, hy, hno, Intn]
    simp
  · exact ⟨_, _, rfl⟩
  · exact ⟨_, _, rfl⟩

/-- The part of the tick that moves the snake returns when, in case it eats, the division
of the score is defined and the new ticker has a positive interval. -/
theorem tickMove_returns (gEnv : gameEnvironment) (gSt : gameState)
    (hdiv : eats gEnv gSt = true → gSt.stepsToFruit + 1 ≠ 0)
    (hint : eats gEnv gSt = true → 0 < eatInterval gEnv gSt) :
    ∃ m, tickMove gEnv gSt = .ok m := by
  rw [tickMove_eq]
  by_cases he : eats gEnv gSt = true
  · rw [if_pos he, if_neg (hdiv he), if_neg (not_le.2 (hint he))]
    exact ⟨_, rfl⟩
  · rw [if_neg he]
    exact ⟨_, rfl⟩

/-- A tick of the running game that eats the fruit panics in `time.NewTicker` when the
interval of the new ticker is not positive, whatever the world holds. -/
theorem mainTick_interval_panic (gEnv : gameEnvironment) (gSt : gameState)
    (hr : isRunning gSt = true) (he : eats gEnv gSt = true)
    (hdiv : gSt.stepsToFruit + 1 ≠ 0) (hint : eatInterval gEnv gSt ≤ 0) (w : world) :
    mainTick gEnv gSt w = .error .nonPositiveInterval := by
  unfold mainTick
  rw [if_pos hr, tickMove_eq, if_pos he, if_neg hdiv, if_pos hint]

/-- A tick of a running game returns on the world `worldFor c` when, in case it eats, the
division of the score is defined and the new ticker has a positive interval and, in case the
tick has to place a fruit, `c` is a cell of the board that is free of the snake. -/
theorem mainTick_returns_of (gEnv : gameEnvironment) (gSt : gameState)
    (hr : isRunning gSt = true) (hdiv : eats gEnv gSt = true → gSt.stepsToFruit + 1 ≠ 0)
    (hint : eats gEnv gSt = true → 0 < eatInterval gEnv gSt)
    (c : coords)
    (hc : ∀ m, tickMove gEnv gSt = .ok m → boundaryViolation gEnv m = false →
      selfCollision m = false → onBoard gEnv c ∧ c ∉ m.snakeCoords) :
    ∃ gEnv1 gSt1 w1, mainTick gEnv gSt (worldFor c) = .ok (gEnv1, gSt1, w1) := by
  obtain ⟨m, hm⟩ := tickMove_returns gEnv gSt hdiv hint
  have hcm := hc m hm
  unfold mainTick
  rw [if_pos hr, hm]
  simp only
  unfold tickBoundaryCheck
  by_cases hb : boundaryViolation gEnv m = true
  · rw [if_pos hb]
    obtain ⟨e2, sc, hgo⟩ := handleGameOver_returns gEnv m (worldFor c) [keyPress .KeyEsc] rfl
    rw [hgo]
    simp only
    unfold tickSelfCheck
    by_cases hs : selfCollision (overState m sc (worldFor c).now) = true
    · rw [if_pos hs]
      obtain ⟨e3, sc3, hgo3⟩ := handleGameOver_returns e2 (overState m sc (worldFor c).now)
        { worldFor c with events := if 0 < m.score then [keyPress .KeyEsc]
                                    else (worldFor c).events }
        (if 0 < m.score then [] else [keyPress .KeyEsc]) (by split_ifs <;> rfl)
      rw [hgo3]
      simp only [overState_overState, tickSpawnFruit_overState]
      exact ⟨_, _, _, rfl⟩
    · rw [if_neg hs]
      simp only [tickSpawnFruit_overState]
      exact ⟨_, _, _, rfl⟩
  · rw [if_neg hb]
    simp only
    unfold tickSelfCheck
    by_cases hs : selfCollision m = true
    · rw [if_pos hs]
      obtain ⟨e3, sc3, hgo3⟩ := handleGameOver_returns gEnv m (worldFor c) [keyPress .KeyEsc] rfl
      rw [hgo3]
      simp only [tickSpawnFruit_overState]
      exact ⟨_, _, _, rfl⟩
    · rw [if_neg hs]
      simp only
      obtain ⟨hon, hfree⟩ := hcm (by simpa using hb) (by simpa using hs)
      obtain ⟨g, w1, hsp⟩ := tickSpawnFruit_returns gEnv m c hon hfree (worldFor c) rfl
      rw [hsp]
      exact ⟨_, _, _, rfl⟩

/-- A tick of a running game returns when, in case it eats, the division of the score is
defined and the new ticker has a positive interval, and the board has a cell free of the
snake: the world `worldFor c` suffices. -/
theorem mainTick_returns (gEnv : gameEnvironment) (gSt : gameState)
    (hr : isRunning gSt = true) (hdiv : eats gEnv gSt = true → gSt.stepsToFruit + 1 ≠ 0)
    (hint : eats gEnv gSt = true → 0 < eatInterval gEnv gSt)
    (c : coords) (hc : onBoard gEnv c)
    (hfree : c ∉ gSt.snakeCoords ++ [movedHead gEnv gSt]) :
    ∃ gEnv1 gSt1 w1, mainTick gEnv gSt (worldFor c) = .ok (gEnv1, gSt1, w1) := by
  refine mainTick_returns_of gEnv gSt hr hdiv hint c ?_
  intro m hm _ _
  refine ⟨hc, ?_⟩
  rcases tickMove_ok hm with ⟨-, -, rfl⟩ | ⟨-, rfl⟩
  · simpa using hfree
  · simp only [dropTail_snakeCoords, arrived_snakeCoords]
    split_ifs
    · exact fun hx => hfree (List.mem_of_mem_drop hx)
    · exact hfree

theorem Inv_of_start {gEnv0 gSt0} (h0 : isFreshRound gEnv0 gSt0 ∨ isInitial gEnv0 gSt0) :
    Inv gEnv0 gSt0 :=
  h0.elim Inv_of_isFreshRound Inv_of_isInitial

theorem eats_of_head {gEnv : gameEnvironment} {gSt : gameState} (hf : gSt.isFruit = true)
    (ha : expires gSt = false) (hh : movedHead gEnv gSt = gSt.fruitCoords) :
    eats gEnv gSt = true := by
  rw [eats_eq, hf, ha, hh]
  simp

/-- When the invariant holds, the tick on which the fruit is eaten fires neither check. -/
theorem eat_tick_goes_on {gEnv gSt m} (hI : Inv gEnv gSt) (hr : isRunning gSt = true)
    (he : eats gEnv gSt = true) (hm : tickMove gEnv gSt = .ok m) :
    boundaryViolation gEnv m = false ∧ selfCollision m = false := by
  obtain ⟨hst, -, -⟩ := (isRunning_iff gSt).1 hr
  obtain ⟨hf, -, hh⟩ := eats_head he
  obtain ⟨-, -, -, -, hhead, heli, -⟩ := tickMove_common hm
  have hsn := tickMove_snakeCoords hm (hI.snake_ne hst)
  rw [he, if_pos rfl] at hsn
  constructor
  · obtain ⟨b1, b2, b3, b4⟩ := hI.fruit_onBoard hst hf
    unfold boundaryViolation headOutsideBoard
    rw [hhead, hh]
    simp only [Bool.and_eq_false_imp, Bool.not_eq_true', Bool.or_eq_false_iff,
      decide_eq_false_iff_not]
    intro _
    omega
  · by_contra hc
    have hc2 : selfCollision m = true := by simpa using hc
    have := (selfCollision_append m gSt.snakeCoords (by rw [hhead]; exact hsn)).1 hc2
    rw [hhead, hh] at this
    exact hI.fruit_free hst hf this
theorem envFrame_mainKeyEvent {gEnv gSt ev w gEnv1 gSt1 w1}
    (h : mainKeyEvent gEnv gSt ev w = .ok (gEnv1, gSt1, w1)) : envFrame gEnv gEnv1 := by
  unfold mainKeyEvent at h
  by_cases hk : ev.EvType = .EventKey
  swap
  · rw [if_neg hk] at h; cases h; exact envFrame_refl _
  rw [if_pos hk] at h
  split at h
  · simp only at h
    split_ifs at h <;> cases h <;> exact envFrame_refl _
  · simp only at h
    split_ifs at h <;> cases h <;> exact envFrame_refl _
  · simp only at h
    split_ifs at h <;> cases h <;> exact envFrame_refl _
  · simp only at h
    split_ifs at h <;> cases h <;> exact envFrame_refl _
  · split_ifs at h <;> cases h <;> exact envFrame_refl _
  · cases h; exact ⟨rfl, rfl, rfl, rfl, rfl⟩
  · split_ifs at h <;> cases h <;> exact envFrame_refl _
  · split_ifs at h
    · split at h
      · cases h
      · cases h; exact envFrame_refl _
    · cases h; exact envFrame_refl _
  · split_ifs at h
    · split at h
      · cases h
      · cases h; exact envFrame_refl _
    · cases h; exact envFrame_refl _
  · split_ifs at h
    · unfold showHighScores fetchHighScores at h
      split at h
      · cases h
      · rename_i e2 w2 heq
        split at heq
        · cases heq
        · cases heq
          cases h
          exact ⟨rfl, rfl, rfl, rfl, rfl⟩
    · cases h; exact envFrame_refl _
  · cases h; exact envFrame_refl _

theorem envFrame_mainTick {gEnv gSt w gEnv1 gSt1 w1}
    (h : mainTick gEnv gSt w = .ok (gEnv1, gSt1, w1)) : envFrame gEnv gEnv1 := by
  by_cases hr : isRunning gSt = true
  · obtain ⟨m, -, -, hen⟩ := mainTick_body hr h
    exact hen
  · rw [mainTick_not_running w (by simpa using hr)] at h
    cases h
    exact envFrame_refl _

theorem envFrame_of_Reaches {gEnv0 gSt0 gEnv gSt} (h : Reaches gEnv0 gSt0 gEnv gSt) :
    envFrame gEnv0 gEnv := by
  induction h with
  | start => exact envFrame_refl _
  | next e w w1 _ hstep ih =>
    cases e with
    | terminal ev => exact envFrame_trans ih (envFrame_mainKeyEvent hstep)
    | redraw => exact envFrame_trans ih (envFrame_mainTick hstep)

theorem isInitial_tickerFactor {gEnv gSt} (h : isInitial gEnv gSt) :
    gEnv.tickerFactor = .lit 995 3 := by
  obtain ⟨cw, ch, msgs, w, w1, h⟩ := h
  unfold mainInit at h
  simp only at h
  split at h
  · cases h
  · split_ifs at h <;> cases h <;> rfl

theorem wrap_emod (W v : Int) (hW : 1 ≤ W) (h1 : -1 ≤ v) (h2 : v ≤ W) :
    (if v < 0 then W - 1 else if v ≥ W then 0 else v) = v % W := by
  split_ifs with ha hb
  · have hv : v = -1 := by omega
    subst hv
    have : (-1 : Int) % W = (W - 1) % W := by
      rw [show (W - 1 : Int) = -1 + W * 1 by ring, Int.add_mul_emod_self_left]
    rw [this, Int.emod_eq_of_lt (by omega) (by omega)]
  · have hv : v = W := by omega
    subst hv
    simp
  · rw [Int.emod_eq_of_lt (by omega) (by omega)]


theorem interruptPause_fields (gSt : gameState) :
    (interruptPause gSt).inputDirX = gSt.inputDirX ∧
    (interruptPause gSt).inputDirY = gSt.inputDirY ∧
    (interruptPause gSt).snakeDirX = gSt.snakeDirX ∧
    (interruptPause gSt).snakeDirY = gSt.snakeDirY ∧
    (interruptPause gSt).gamePaused = false := by
  rw [interruptPause_eq]
  exact ⟨rfl, rfl, rfl, rfl, rfl⟩

/-- An arrow key is always handled, and leaves the active direction alone. -/
theorem mainStep_arrow {gEnv : gameEnvironment} {gSt : gameState} {e : loopEvent}
    (he : isArrowEvent e) (w : world) :
    ∃ gSt1, mainStep gEnv gSt e w = .ok (gEnv, gSt1, w) ∧
      gSt1.snakeDirX = gSt.snakeDirX ∧ gSt1.snakeDirY = gSt.snakeDirY := by
  obtain ⟨ev, rfl, hk, hkey⟩ := he
  obtain ⟨-, -, h3, h4, -⟩ := interruptPause_fields gSt
  unfold mainStep mainKeyEvent
  simp only [hk, if_true]
  rcases hkey with h | h | h | h <;> rw [h] <;> simp only <;> split_ifs <;>
    exact ⟨_, rfl, h3, h4⟩

theorem mainRun_arrows :
    ∀ (keys : List (loopEvent × world)) (gEnv : gameEnvironment) (gSt : gameState),
      (∀ p ∈ keys, isArrowEvent p.1) →
      ∃ gSt1, mainRun gEnv gSt keys = .ok (gEnv, gSt1) ∧
        gSt1.snakeDirX = gSt.snakeDirX ∧ gSt1.snakeDirY = gSt.snakeDirY
  | [], gEnv, gSt, _ => ⟨gSt, rfl, rfl, rfl⟩
  | (e, w) :: rest, gEnv, gSt, h => by
    obtain ⟨g, hg, h1, h2⟩ := @mainStep_arrow gEnv gSt e (h (e, w) (List.mem_cons_self _ _)) w
    obtain ⟨g2, hg2, h3, h4⟩ := mainRun_arrows rest gEnv g
      (fun p hp => h p (List.mem_cons_of_mem _ hp))
    refine ⟨g2, ?_, h3.trans h1, h4.trans h2⟩
    unfold mainRun
    rw [hg]
    exact hg2


theorem isAllowedName_dropLast {name : List Char} (h : isAllowedName name) :
    isAllowedName name.dropLast := by
  obtain ⟨h1, h2⟩ := h
  refine ⟨?_, fun c hc => h2 c (List.dropLast_subset _ hc)⟩
  rw [List.length_dropLast]
  omega

/-- One iteration of the name entry keeps the name allowed, and returns true only with a
name of 1 to 20 characters. -/
theorem readPlayerNameStep_allowed {name : List Char} (ev : Event) (h : isAllowedName name) :
    isAllowedName (readPlayerNameStep name ev).1 ∧
    ((readPlayerNameStep name ev).2 = some true →
      1 ≤ (readPlayerNameStep name ev).1.length ∧ (readPlayerNameStep name ev).1.length ≤ 20) := by
  unfold readPlayerNameStep
  by_cases h1 : ev.EvType = .EventKey
  swap
  · rw [if_neg h1]; exact ⟨h, fun hx => by cases hx⟩
  rw [if_pos h1]
  by_cases h2 : isNameChar ev.Ch = true
  · rw [if_pos h2]
    by_cases h3 : name.length < 20
    · rw [if_pos h3]
      refine ⟨?_, fun hx => by cases hx⟩
      obtain ⟨a1, a2⟩ := h
      refine ⟨by rw [List.length_append, List.length_singleton]; omega, ?_⟩
      intro c hc
      rcases List.mem_append.1 hc with hc | hc
      · exact a2 c hc
      · rw [List.mem_singleton.1 hc]; exact h2
    · rw [if_neg h3]; exact ⟨h, fun hx => by cases hx⟩
  rw [if_neg h2]
  by_cases h3 : ev.Key = Key.KeyBackspace ∨ ev.Key = .KeyBackspace2
  · rw [if_pos h3]
    by_cases h4 : name.length > 0
    · rw [if_pos h4]; exact ⟨isAllowedName_dropLast h, fun hx => by cases hx⟩
    · rw [if_neg h4]; exact ⟨h, fun hx => by cases hx⟩
  rw [if_neg h3]
  by_cases h4 : ev.Key = .KeyEnter
  · rw [if_pos h4]
    by_cases h5 : name.length > 0 ∧ name.length ≤ 20
    · rw [if_pos h5]; exact ⟨h, fun _ => ⟨h5.1, h5.2⟩⟩
    · rw [if_neg h5]; exact ⟨h, fun hx => by cases hx⟩
  rw [if_neg h4]
  by_cases h5 : ev.Key = .KeyEsc
  · rw [if_pos h5]; exact ⟨h, fun hx => by cases hx⟩
  · rw [if_neg h5]; exact ⟨h, fun hx => by cases hx⟩

theorem readPlayerName_allowed :
    ∀ (evs : List Event) (name : List Char) (name1 : List Char) (rest : List Event),
      isAllowedName name → readPlayerName name evs = .ok (true, name1, rest) →
      isAllowedName name1 ∧ 1 ≤ name1.length ∧ name1.length ≤ 20
  | [], _, _, _, _, h => by simp [readPlayerName] at h
  | ev :: evs, name, name1, rest, ha, h => by
    obtain ⟨s1, s2⟩ := readPlayerNameStep_allowed ev ha
    unfold readPlayerName at h
    split at h
    · rename_i n v heq
      cases h
      rw [heq] at s1 s2
      exact ⟨s1, s2 rfl⟩
    · rename_i n heq
      rw [heq] at s1
      exact readPlayerName_allowed evs n name1 rest s1 h

/-! ## Further facts about key events and the reward -/

theorem keyFrame_refl (a : gameState) : keyFrame a a :=
  ⟨rfl, rfl, rfl, rfl, rfl, rfl, rfl, rfl, rfl, rfl, rfl, rfl, rfl, rfl, rfl⟩

theorem keyFrame_interruptPause (a : gameState) : keyFrame a (interruptPause a) := by
  rw [interruptPause_eq]
  exact ⟨rfl, rfl, rfl, rfl, rfl, rfl, rfl, rfl, rfl, rfl, rfl, rfl, rfl, rfl, rfl⟩

theorem keyFrame_setInput (a : gameState) (dx dy : Int) :
    keyFrame a { interruptPause a with inputDirX := dx, inputDirY := dy } := by
  rw [interruptPause_eq]
  exact ⟨rfl, rfl, rfl, rfl, rfl, rfl, rfl, rfl, rfl, rfl, rfl, rfl, rfl, rfl, rfl⟩

/-- A key event of the main loop either starts a new round or leaves the snake, the fruit,
the score and the counters alone. -/
theorem mainKeyEvent_cases {gEnv gSt ev w gEnv1 gSt1 w1}
    (h : mainKeyEvent gEnv gSt ev w = .ok (gEnv1, gSt1, w1)) :
    (gSt.gameStarted = false ∧ ∃ eliMode, startNewGame gEnv eliMode w = .ok (gSt1, w1)) ∨
    keyFrame gSt gSt1 := by
  unfold mainKeyEvent at h
  by_cases hk : ev.EvType = .EventKey
  swap
  · rw [if_neg hk] at h; cases h; exact Or.inr (keyFrame_refl _)
  rw [if_pos hk] at h
  split at h
  · simp only at h
    split_ifs at h <;> cases h
    · exact Or.inr (keyFrame_setInput _ _ _)
    · exact Or.inr (keyFrame_interruptPause _)
  · simp only at h
    split_ifs at h <;> cases h
    · exact Or.inr (keyFrame_setInput _ _ _)
    · exact Or.inr (keyFrame_interruptPause _)
  · simp only at h
    split_ifs at h <;> cases h
    · exact Or.inr (keyFrame_setInput _ _ _)
    · exact Or.inr (keyFrame_interruptPause _)
  · simp only at h
    split_ifs at h <;> cases h
    · exact Or.inr (keyFrame_setInput _ _ _)
    · exact Or.inr (keyFrame_interruptPause _)
  · split_ifs at h <;> cases h
    · exact Or.inr ⟨rfl, rfl, rfl, rfl, rfl, rfl, rfl, rfl, rfl, rfl, rfl, rfl, rfl, rfl, rfl⟩
    · exact Or.inr (keyFrame_refl _)
  · cases h; exact Or.inr (keyFrame_refl _)
  · split_ifs at h <;> cases h
    · exact Or.inr ⟨rfl, rfl, rfl, rfl, rfl, rfl, rfl, rfl, rfl, rfl, rfl, rfl, rfl, rfl, rfl⟩
    · exact Or.inr (keyFrame_refl _)
  · split_ifs at h with h0
    · simp only [Bool.and_eq_true, Bool.not_eq_true'] at h0
      split at h
      · cases h
      · rename_i g w2 hs
        cases h
        exact Or.inl ⟨h0.1.1, false, hs⟩
    · cases h; exact Or.inr (keyFrame_refl _)
  · split_ifs at h with h0
    · simp only [Bool.and_eq_true, Bool.not_eq_true'] at h0
      split at h
      · cases h
      · rename_i g w2 hs
        cases h
        exact Or.inl ⟨h0.1.1, true, hs⟩
    · cases h; exact Or.inr (keyFrame_refl _)
  · split_ifs at h
    · unfold showHighScores fetchHighScores at h
      split at h
      · cases h
      · rename_i e2 w2 heq
        split at heq
        · cases heq
        · cases heq
          cases h
          exact Or.inr ⟨rfl, rfl, rfl, rfl, rfl, rfl, rfl, rfl, rfl, rfl, rfl, rfl, rfl, rfl, rfl⟩
    · cases h; exact Or.inr (keyFrame_refl _)
  · cases h; exact Or.inr (keyFrame_refl _)

theorem startNewGame_fields {gEnv eliMode w gSt w1}
    (h : startNewGame gEnv eliMode w = .ok (gSt, w1)) :
    gSt.isFruit = false ∧ gSt.stepsToFruit = 0 ∧ gSt.fruitDistance = 0 ∧ gSt.score = 0 ∧
    gSt.eliMode = eliMode ∧ gSt.gameStarted = true ∧ gSt.gamePaused = false ∧
    gSt.gameOver = false ∧
    gSt.snakeCoords = [gSt.snakeHeadCoords] ∧
    gSt.snakeHeadCoords =
      { x := Int.tdiv gEnv.boardWidth 2, y := Int.tdiv gEnv.boardHeight 2 } := by
  unfold startNewGame initFreshGameState at h
  split at h
  · cases h
  · rename_i g w2 heq
    split at heq
    · cases heq
    · cases heq
      cases h
      exact ⟨rfl, rfl, rfl, rfl, rfl, rfl, rfl, rfl, rfl, rfl⟩

theorem manhattan_pos {a b : coords} (h : a ≠ b) : 1 ≤ manhattan a b := by
  unfold manhattan
  have hne : a.x ≠ b.x ∨ a.y ≠ b.y := by
    by_contra hc
    push_neg at hc
    exact h ((coords_eq_iff a b).2 hc)
  rcases abs_cases (a.x - b.x) with ⟨h1, _⟩ | ⟨h1, _⟩ <;>
    rcases abs_cases (a.y - b.y) with ⟨h2, _⟩ | ⟨h2, _⟩ <;> omega

theorem manhattan_self_iff {a b : coords} : manhattan a b = 0 ↔ a = b := by
  constructor
  · intro h
    by_contra hne
    have := manhattan_pos hne
    omega
  · rintro rfl
    simp [manhattan]

/-- A step by a cardinal unit vector brings the head at most one cell closer to a cell. -/
theorem manhattan_step {dx dy : Int} (hc : isCardinal dx dy) (a b : coords) :
    manhattan a b ≤ 1 + manhattan { x := a.x + dx, y := a.y + dy } b := by
  unfold manhattan
  unfold isCardinal at hc
  simp only
  rcases abs_cases (a.x - b.x) with ⟨h1, _⟩ | ⟨h1, _⟩ <;>
    rcases abs_cases (a.y - b.y) with ⟨h2, _⟩ | ⟨h2, _⟩ <;>
    rcases abs_cases (a.x + dx - b.x) with ⟨h3, _⟩ | ⟨h3, _⟩ <;>
    rcases abs_cases (a.y + dy - b.y) with ⟨h4, _⟩ | ⟨h4, _⟩ <;> omega
theorem movedHead_normal {gEnv : gameEnvironment} {gSt : gameState}
    (hmode : gSt.eliMode = false) :
    movedHead gEnv gSt =
      { x := gSt.snakeHeadCoords.x + gSt.inputDirX,
        y := gSt.snakeHeadCoords.y + gSt.inputDirY } := by
  rw [coords_eq_iff, movedHead_x, movedHead_y, hmode]
  simp

theorem rewardInv_moved {gEnv gSt m} (hI : Inv gEnv gSt) (hR : rewardInv gSt)
    (h : tickMove gEnv gSt = .ok m) (hf : m.isFruit = true) :
    1 ≤ m.fruitDistance ∧
    (m.eliMode = false →
      m.fruitDistance ≤ m.stepsToFruit + manhattan m.snakeHeadCoords m.fruitCoords) := by
  rw [tickMove_isFruit h] at hf
  simp only [Bool.and_eq_true, Bool.not_eq_true'] at hf
  obtain ⟨⟨hfr, -⟩, -⟩ := hf
  obtain ⟨-, -, -, -, c5, c6, -, -, -, -, c11, c12, c13, -, -⟩ := tickMove_common h
  rw [c12, c13, c5, c6, c11]
  refine ⟨hR.distance_pos hfr, fun hmode => ?_⟩
  have h1 := hR.distance_le hmode hfr
  have h2 := manhattan_step hI.input_cardinal gSt.snakeHeadCoords gSt.fruitCoords
  rw [movedHead_normal hmode]
  omega

/-- A timer tick keeps the invariant of the reward. -/
theorem rewardInv_mainTick {gEnv gSt w gEnv1 gSt1 w1} (hI : Inv gEnv gSt)
    (hR : rewardInv gSt) (h : mainTick gEnv gSt w = .ok (gEnv1, gSt1, w1)) :
    rewardInv gSt1 := by
  by_cases hr : isRunning gSt = true
  swap
  · rw [mainTick_not_running w (by simpa using hr)] at h
    cases h
    exact hR
  obtain ⟨m, hm, hcase⟩ := mainTick_running hr h
  have hmv := rewardInv_moved hI hR hm
  obtain ⟨-, -, -, -, m5, m6, -, -⟩ := Inv_moved hI hr hm
  rcases hcase with ⟨-, -, -, hsp⟩ | ⟨-, -, hst, -⟩
  · rcases tickSpawnFruit_cases hsp with rfl | ⟨-, -, -, c, sp, hfree, -, rfl⟩
    · exact ⟨fun hf => (hmv hf).1, fun hmode hf => (hmv hf).2 hmode⟩
    · refine ⟨fun _ => ?_, fun _ _ => ?_⟩
      · have hmem : m.snakeHeadCoords ∈ m.snakeCoords := List.mem_of_getLast?_eq_some m6
        have hne : m.snakeHeadCoords ≠ c := fun hc => hfree (hc ▸ hmem)
        exact manhattan_pos hne
      · show manhattan m.snakeHeadCoords c ≤ 0 + manhattan m.snakeHeadCoords c
        omega
  · rw [hst]
    exact ⟨fun hf => (hmv hf).1, fun hmode hf => (hmv hf).2 hmode⟩

theorem rewardInv_startNewGame {gEnv eliMode w gSt w1}
    (h : startNewGame gEnv eliMode w = .ok (gSt, w1)) : rewardInv gSt := by
  obtain ⟨hf, -⟩ := startNewGame_fields h
  exact ⟨fun h1 => by rw [hf] at h1; exact absurd h1 (by decide),
    fun _ h1 => by rw [hf] at h1; exact absurd h1 (by decide)⟩

/-- A key event keeps the invariant of the reward. -/
theorem rewardInv_mainKeyEvent {gEnv gSt ev w gEnv1 gSt1 w1} (hR : rewardInv gSt)
    (h : mainKeyEvent gEnv gSt ev w = .ok (gEnv1, gSt1, w1)) : rewardInv gSt1 := by
  rcases mainKeyEvent_cases h with ⟨-, eliMode, hs⟩ | hk
  · exact rewardInv_startNewGame hs
  · obtain ⟨-, -, k3, -, k5, k6, k7, -, k9, -, k11, -⟩ := hk
    refine ⟨fun hf => ?_, fun hmode hf => ?_⟩
    · rw [k6]; exact hR.distance_pos (k9 ▸ hf)
    · rw [k6, k7, k3, k5]; exact hR.distance_le (k11 ▸ hmode) (k9 ▸ hf)

theorem rewardInv_of_isInitial {gEnv gSt} (h : isInitial gEnv gSt) : rewardInv gSt := by
  obtain ⟨cw, ch, msgs, w, w1, h⟩ := h
  unfold mainInit at h
  simp only at h
  split at h
  · cases h
  · rename_i g w2 heq
    have hR : rewardInv { g with gameStarted := true } :=
      @rewardInv_startNewGame (initGameEnvironment cw ch) false w _ w2
        (by simp [startNewGame, heq])
    split_ifs at h
    · cases h
      exact ⟨hR.distance_pos, hR.distance_le⟩
    · cases h
      exact ⟨hR.distance_pos, hR.distance_le⟩

theorem rewardInv_of_start {gEnv0 gSt0} (h0 : isFreshRound gEnv0 gSt0 ∨ isInitial gEnv0 gSt0) :
    rewardInv gSt0 := by
  rcases h0 with ⟨eliMode, w, w1, h⟩ | h
  · exact rewardInv_startNewGame h
  · exact rewardInv_of_isInitial h

theorem rewardInv_of_Reaches {gEnv0 gSt0 gEnv gSt} (hI0 : Inv gEnv0 gSt0)
    (hR0 : rewardInv gSt0) (h : Reaches gEnv0 gSt0 gEnv gSt) : rewardInv gSt := by
  induction h with
  | start => exact hR0
  | next e w w1 hprev hstep ih =>
    have hI := Inv_of_Reaches hI0 hprev
    cases e with
    | terminal ev => exact rewardInv_mainKeyEvent ih hstep
    | redraw => exact rewardInv_mainTick hI ih hstep
theorem readPlayerName_error :
    ∀ (evs : List Event) (name : List Char) (e : fault),
      readPlayerName name evs = .error e → e = .starved
  | [], _, e, h => by
    simp only [readPlayerName] at h
    cases h
    rfl
  | ev :: evs, name, e, h => by
    unfold readPlayerName at h
    split at h
    · cases h
    · exact readPlayerName_error evs _ e h

/-- The game-over handler does not panic: it can only be left waiting for input. -/
theorem handleGameOver_error {gEnv gSt w e} (h : handleGameOver gEnv gSt w = .error e) :
    e = .starved := by
  unfold handleGameOver at h
  simp only at h
  split at h
  · rename_i e2 heq
    cases h
    unfold printGameSummary at heq
    split at heq
    · split at heq
      · rename_i e3 hrd
        cases heq
        exact readPlayerName_error _ _ _ hrd
      · split at heq <;> cases heq
    · cases heq
  · split at h
    · split at h
      · rename_i e3 hp
        cases h
        unfold postHighScore at hp
        split at hp
        · cases hp; rfl
        · cases hp
      · cases h
    · cases h

theorem drawFruitCoords_error (W H : Int) (snake : List coords) :
    ∀ (ds : List Nat) (e : fault), drawFruitCoords W H snake ds = .error e → e = .starved
  | [], e, h => by
    simp only [drawFruitCoords] at h
    cases h
    rfl
  | [_], e, h => by
    simp only [drawFruitCoords] at h
    cases h
    rfl
  | rx :: ry :: ds, e, h => by
    unfold drawFruitCoords at h
    simp only at h
    split at h
    · cases h
    · exact drawFruitCoords_error W H snake ds e h

/-- The spawn block fails only for lack of draws, or in `Intn` when the board has no column
or no row. -/
theorem tickSpawnFruit_error_cases {gEnv gSt w e} (h : tickSpawnFruit gEnv gSt w = .error e) :
    e = .starved ∨ (e = .invalidIntn ∧ (gEnv.boardWidth ≤ 0 ∨ gEnv.boardHeight ≤ 0)) := by
  unfold tickSpawnFruit at h
  split_ifs at h with h1 h2 h3
  · cases h
    exact Or.inr ⟨rfl, h3⟩
  · split at h
    · rename_i e2 hd
      cases h
      exact Or.inl (drawFruitCoords_error _ _ _ _ _ hd)
    · rename_i c ds hd
      unfold Intn at h
      simp only at h
      split at h
      · rename_i e3 hi
        cases h
        split_ifs at hi with h4
        · omega
        · split at hi
          · cases hi; exact Or.inl rfl
          · cases hi
      · cases h

/-- On a board with a positive width and height the spawn block does not panic. -/
theorem tickSpawnFruit_error {gEnv gSt w e} (hW : 0 < gEnv.boardWidth)
    (hH : 0 < gEnv.boardHeight) (h : tickSpawnFruit gEnv gSt w = .error e) :
    e = .starved := by
  rcases tickSpawnFruit_error_cases h with h1 | ⟨-, h2⟩
  · exact h1
  · omega

/-- The ways in which a tick fails: for lack of input; in `Intn`, when the board has no
column or no row; in the score division, when the tick eats with a zero divisor; and in
`time.NewTicker`, when the tick eats and the new interval is not positive. -/
theorem mainTick_error_cases {gEnv gSt w e} (h : mainTick gEnv gSt w = .error e) :
    e = .starved ∨
    (e = .invalidIntn ∧ (gEnv.boardWidth ≤ 0 ∨ gEnv.boardHeight ≤ 0)) ∨
    (e = .divideByZero ∧ eats gEnv gSt = true ∧ gSt.stepsToFruit + 1 = 0) ∨
    (e = .nonPositiveInterval ∧ eats gEnv gSt = true ∧ gSt.stepsToFruit + 1 ≠ 0 ∧
      eatInterval gEnv gSt ≤ 0) := by
  unfold mainTick at h
  split_ifs at h with hr
  by_cases hm : ∃ m, tickMove gEnv gSt = .ok m
  swap
  · have he : eats gEnv gSt = true := by
      by_contra hne
      exact hm (by rw [tickMove_eq, if_neg hne]; exact ⟨_, rfl⟩)
    rw [tickMove_eq, if_pos he] at h
    by_cases hd : gSt.stepsToFruit + 1 = 0
    · rw [if_pos hd] at h
      cases h
      exact Or.inr (Or.inr (Or.inl ⟨rfl, he, hd⟩))
    · rw [if_neg hd] at h
      by_cases hi : eatInterval gEnv gSt ≤ 0
      · rw [if_pos hi] at h
        cases h
        exact Or.inr (Or.inr (Or.inr ⟨rfl, he, hd, hi⟩))
      · exact absurd (by rw [tickMove_eq, if_pos he, if_neg hd, if_neg hi]; exact ⟨_, rfl⟩) hm
  obtain ⟨m, hm⟩ := hm
  rw [hm] at h
  simp only at h
  split at h
  · rename_i e2 hb
    cases h
    unfold tickBoundaryCheck at hb
    split_ifs at hb
    exact Or.inl (handleGameOver_error hb)
  · rename_i e2 s2 w2 hb
    have hen : envFrame gEnv e2 := by
      unfold tickBoundaryCheck at hb
      split_ifs at hb
      · exact (handleGameOver_ok hb).2.2.1
      · cases hb; exact envFrame_refl _
    split at h
    · rename_i e3 hs
      cases h
      unfold tickSelfCheck at hs
      split_ifs at hs
      exact Or.inl (handleGameOver_error hs)
    · rename_i e3 s3 w3 hs
      have hen3 : envFrame e2 e3 := by
        unfold tickSelfCheck at hs
        split_ifs at hs
        · exact (handleGameOver_ok hs).2.2.1
        · cases hs; exact envFrame_refl _
      obtain ⟨-, -, f3, f4, -⟩ := envFrame_trans hen hen3
      split at h
      · rename_i e4 hsp
        cases h
        rcases tickSpawnFruit_error_cases hsp with h1 | ⟨h1, h2⟩
        · exact Or.inl h1
        · exact Or.inr (Or.inl ⟨h1, by rw [← f3, ← f4]; exact h2⟩)
      · cases h

/-- A tick on a board with a positive width and height, whose score division is defined and
whose new ticker has a positive interval in case it eats, does not panic. -/
theorem mainTick_error {gEnv gSt w e} (hW : 0 < gEnv.boardWidth) (hH : 0 < gEnv.boardHeight)
    (hdiv : eats gEnv gSt = true → gSt.stepsToFruit + 1 ≠ 0)
    (hint : eats gEnv gSt = true → 0 < eatInterval gEnv gSt)
    (h : mainTick gEnv gSt w = .error e) : e = .starved := by
  rcases mainTick_error_cases h with h1 | ⟨-, h2⟩ | ⟨-, he, h3⟩ | ⟨-, he, -, h4⟩
  · exact h1
  · omega
  · exact absurd h3 (hdiv he)
  · have := hint he
    omega

/-- When the invariant holds, a tick on which the fruit is eaten goes on with the score grown
by `scoreDelta`. -/
theorem eat_tick_score {gEnv gSt w gEnv1 gSt1 w1} (hI : Inv gEnv gSt)
    (hr : isRunning gSt = true) (he : eats gEnv gSt = true)
    (h : mainTick gEnv gSt w = .ok (gEnv1, gSt1, w1)) :
    gSt1.score = gSt.score + scoreDelta (arrived gEnv gSt) := by
  obtain ⟨m, hm, hcase⟩ := mainTick_running hr h
  obtain ⟨hb, hs⟩ := eat_tick_goes_on hI hr he hm
  have hsc := tickMove_score hm
  rw [he, if_pos rfl] at hsc
  rcases hcase with ⟨-, -, -, hspawn⟩ | ⟨hgo, -⟩
  · rcases tickSpawnFruit_cases hspawn with rfl | ⟨-, -, -, c, sp, -, -, rfl⟩
    · exact hsc
    · exact hsc
  · rw [hb, hs] at hgo
    rcases hgo with hgo | hgo <;> exact absurd hgo (by decide)

/-- Bounds on Go's quotient `10 * d / s` for a distance `d` of at least 0 and a positive
number of steps `s`. -/
theorem reward_quotient {d s : Int} (hd : 0 ≤ d) (hs : 1 ≤ s) :
    0 ≤ Int.tdiv (10 * d) s ∧ Int.tdiv (10 * d) s ≤ 10 * d ∧
    (d ≤ s → Int.tdiv (10 * d) s ≤ 10 ∧ (Int.tdiv (10 * d) s = 10 ↔ s = d)) := by
  rw [Int.tdiv_eq_ediv (by omega) (by omega)]
  have hpos : 0 < s := by omega
  refine ⟨Int.ediv_nonneg (by omega) (by omega), Int.ediv_le_self _ (by omega), ?_⟩
  intro hle
  have h1 : 10 * d / s < 11 := (Int.ediv_lt_iff_lt_mul hpos).2 (by omega)
  refine ⟨by omega, ?_⟩
  constructor
  · intro h10
    have h2 : (10 : Int) ≤ 10 * d / s := by omega
    have h3 := (Int.le_ediv_iff_mul_le hpos).1 h2
    omega
  · intro hsd
    have h2 : (10 : Int) ≤ 10 * d / s := (Int.le_ediv_iff_mul_le hpos).2 (by omega)
    omega

/-! ## The ticker delay and the interval of the ticker -/

theorem mulTimes_add (a f : float32) (n m : Nat) :
    mulTimes a f (n + m) = mulTimes (mulTimes a f n) f m := by
  induction n generalizing a with
  | zero => simp [mulTimes]
  | succ n ih => rw [Nat.succ_add]; exact ih _

theorem mulTimes_succ (a f : float32) (n : Nat) :
    mulTimes a f (n + 1) = (mulTimes a f n).mul f :=
  mulTimes_add a f n 1

theorem delayAfter_zero : delayAfter 0 = .lit 100 0 := rfl

theorem delayAfter_succ (n : Nat) : delayAfter (n + 1) = (delayAfter n).mul (.lit 995 3) :=
  mulTimes_succ _ _ n

theorem delayAfter_add (n m : Nat) :
    delayAfter (n + m) = mulTimes (delayAfter n) (.lit 995 3) m :=
  mulTimes_add _ _ n m

/-- The constants of the program as `float32` values: 100 is exact, and 0.995 is stored as
16693330 / 2^24, which is 80 / (1000 * 2^24) above 0.995, less than half a unit of the last
binary digit. -/
theorem float32_constants :
    float32.lit 100 0 = { neg := false, mant := 13107200, exp := -17 } ∧
    float32.lit 995 3 = { neg := false, mant := 16693330, exp := -24 } ∧
    (float32.lit 100 0).trunc = 100 ∧
    (float32.lit 995 3).mant * 1000 = 995 * 2 ^ 24 + 80 ∧
    (float32.lit 1 0) = { neg := false, mant := 8388608, exp := -23 } ∧
    (float32.lit 2 0) = { neg := false, mant := 8388608, exp := -22 } := by
  refine ⟨by rfl, by rfl, by rfl, by rfl, by rfl, by rfl⟩

/-- The tickers of lines 214 and 380 are created with the delay of a fresh state, 100 ms, so
`time.NewTicker` returns there. -/
theorem fresh_ticker_returns :
    NewTicker ((float32.lit 100 0).trunc * Millisecond) = .ok () := by rfl

/-- The number of binary digits of a number between `2^k` and `2^(k+1)`. -/
theorem bitLengthAux_eq : ∀ (k fuel n : Nat), 2 ^ k ≤ n → n < 2 ^ (k + 1) → n ≤ fuel →
    bitLengthAux fuel n = k + 1
  | 0, fuel, n, h1, h2, h3 => by
    have hn : n = 1 := by simp at h1 h2; omega
    subst hn
    obtain ⟨f, rfl⟩ : ∃ f, fuel = f + 1 := ⟨fuel - 1, by omega⟩
    cases f <;> simp [bitLengthAux]
  | k + 1, fuel, n, h1, h2, h3 => by
    have hpos : 0 < 2 ^ k := Nat.two_pow_pos k
    have hn : n ≠ 0 := by
      rw [pow_succ] at h1; omega
    obtain ⟨f, rfl⟩ : ∃ f, fuel = f + 1 := ⟨fuel - 1, by omega⟩
    have ih := bitLengthAux_eq k f (n / 2) (by rw [pow_succ] at h1; omega)
      (by rw [pow_succ] at h2; omega) (by omega)
    simp [bitLengthAux, hn, ih]

theorem bitLength_eq (k n : Nat) (h1 : 2 ^ k ≤ n) (h2 : n < 2 ^ (k + 1)) :
    bitLength n = k + 1 :=
  bitLengthAux_eq k n n h1 h2 (Nat.le_refl n)

/-- Dividing a positive value with a 24-bit mantissa by a power of two is exact: the mantissa
is kept. -/
theorem div_pow2 (a : float32) (h : normal24 a = true) (j : Int) :
    float32.div a { neg := false, mant := 8388608, exp := j } =
      { neg := false, mant := a.mant, exp := a.exp - j - 23 } := by
  obtain ⟨s, m, e⟩ := a
  simp only [normal24, Bool.and_eq_true, Bool.not_eq_true', decide_eq_true_eq] at h
  obtain ⟨⟨hs, h1⟩, h2⟩ := h
  subst hs
  have hb : bitLength m = 24 := bitLength_eq 23 m h1 h2
  have hb2 : bitLength 8388608 = 24 := bitLength_eq 23 _ (by norm_num) (by norm_num)
  have hm0 : m ≠ 0 := by norm_num at h1; omega
  have hq : m * 2 ^ 26 / 8388608 = m * 8 := by
    rw [show (2:Nat) ^ 26 = 8 * 8388608 by norm_num, ← Nat.mul_assoc]
    exact Nat.mul_div_cancel _ (by norm_num)
  have hr : m * 2 ^ 26 % 8388608 = 0 := by
    rw [show (2:Nat) ^ 26 = 8 * 8388608 by norm_num, ← Nat.mul_assoc]
    exact Nat.mul_mod_left _ _
  have hb3 : bitLength (16 * m) = 28 :=
    bitLength_eq 27 _ (by norm_num at h1 ⊢; omega) (by norm_num at h2 ⊢; omega)
  have h16 : 16 * m / 16 = m := Nat.mul_div_cancel_left m (by norm_num)
  have h16r : 16 * m % 16 = 0 := Nat.mul_mod_right 16 m
  have hne : m ≠ 16777216 := by norm_num at h2; omega
  unfold float32.div float32.roundQuot
  simp only [hb, hb2]
  have ht : (26 : Int) + ((24 : Nat) : Int) - ((24 : Nat) : Int) = 26 := by norm_num
  simp only [ht, hm0, if_false, ge_iff_le, show (0 : Int) ≤ 26 by norm_num, if_true,
    show Int.toNat 26 = 26 from rfl, hq, hr]
  simp only [show (8388608 : Nat) = 0 ↔ False by norm_num, if_false,
    show 2 * (m * 8) + 0 = 16 * m by omega]
  unfold float32.round
  have h16z : 16 * m ≠ 0 := by omega
  have hodd : ¬ ((0 : Nat) > 8 ∨ (0 : Nat) = 8 ∧ m % 2 = 1) := by omega
  have hne2 : ¬ (m = 2 ^ 24) := by norm_num; exact hne
  simp only [hb3, show ¬ (28 ≤ 24) by norm_num, show 28 - 24 = 4 from rfl,
    show (2 : Nat) ^ 4 = 16 from rfl, h16, h16r, show (2 : Nat) ^ (4 - 1) = 8 from rfl]
  rw [if_neg h16z, if_neg hodd, if_neg hne2]
  simp only [if_false, bne_self_eq_false, float32.mk.injEq, true_and]
  push_cast
  omega

/-- The interval of the ticker for a positive delay with a 24-bit mantissa: the division by
`float32(ratio)` keeps the mantissa and, for the ratio 2, lowers the exponent by one. -/
theorem tickerInterval_normal (a : float32) (h : normal24 a = true) (sp : Bool) :
    tickerInterval a sp =
      float32.trunc { neg := false, mant := a.mant, exp := a.exp - (if sp then 1 else 0) } *
        Millisecond := by
  have h1 : float32.lit 1 0 = { neg := false, mant := 8388608, exp := -23 } := by rfl
  have h2 : float32.lit 2 0 = { neg := false, mant := 8388608, exp := -22 } := by rfl
  unfold tickerInterval
  cases sp
  · simp only [Bool.false_eq_true, if_false, h1, div_pow2 a h]
    rw [show a.exp - -23 - 23 = a.exp - 0 by omega]
  · simp only [if_true, h2, div_pow2 a h]
    rw [show a.exp - -22 - 23 = a.exp - 1 by omega]

theorem sweepOk_spec {normal special : Bool} {b : float32}
    (h : sweepOk normal special b = true) :
    decide (0 < tickerInterval b false) = normal ∧
    decide (0 < tickerInterval b true) = special := by
  simp only [sweepOk, Bool.and_eq_true, beq_iff_eq] at h
  obtain ⟨⟨hn, h1⟩, h2⟩ := h
  have hms : ∀ x : Int, (0 < x * Millisecond) = (0 < x) := by
    intro x
    unfold Millisecond
    exact propext ⟨fun hx => by omega, fun hx => by omega⟩
  rw [tickerInterval_normal b hn, tickerInterval_normal b hn]
  simp only [Bool.false_eq_true, if_false, if_true, sub_zero, hms]
  exact ⟨h1, h2⟩

theorem sweep_spec (normal special : Bool) (f : float32) :
    ∀ (n : Nat) (a b : float32), sweep normal special f n a = some b →
      b = mulTimes a f n ∧
      ∀ k, k < n →
        decide (0 < tickerInterval (mulTimes a f (k + 1)) false) = normal ∧
        decide (0 < tickerInterval (mulTimes a f (k + 1)) true) = special
  | 0, a, b, h => by
    simp only [sweep, Option.some.injEq] at h
    exact ⟨h.symm, fun k hk => absurd hk (Nat.not_lt_zero k)⟩
  | n + 1, a, b, h => by
    unfold sweep at h
    split_ifs at h with hok
    obtain ⟨h1, h2⟩ := sweep_spec normal special f n (a.mul f) b h
    refine ⟨h1, ?_⟩
    intro k hk
    cases k with
    | zero => exact sweepOk_spec hok
    | succ k => exact h2 k (by omega)

/-- The sweep started at the delay after `n` fruits: its result is the delay after `n + m`
fruits, and the intervals of the tickers created in between are as it has checked. -/
theorem sweep_delayAfter {normal special : Bool} {n m : Nat} {v : float32}
    (h : sweep normal special (.lit 995 3) m (delayAfter n) = some v) :
    delayAfter (n + m) = v ∧
    ∀ k, n < k → k ≤ n + m →
      decide (0 < tickerInterval (delayAfter k) false) = normal ∧
      decide (0 < tickerInterval (delayAfter k) true) = special := by
  obtain ⟨h1, h2⟩ := sweep_spec normal special _ m _ v h
  refine ⟨by rw [delayAfter_add, h1], ?_⟩
  intro k hk1 hk2
  have := h2 (k - n - 1) (by omega)
  rw [← delayAfter_add, show n + (k - n - 1 + 1) = k by omega] at this
  exact this

set_option maxRecDepth 20000 in
theorem sweep_0 : sweep true true (.lit 995 3) 100 (delayAfter 0) =
    some { neg := false, mant := 15879913, exp := -18 } := by
  rfl

theorem delayAfter_100 : delayAfter 100 = { neg := false, mant := 15879913, exp := -18 } :=
  (sweep_delayAfter sweep_0).1

set_option maxRecDepth 20000 in
theorem sweep_100 : sweep true true (.lit 995 3) 100 (delayAfter 100) =
    some { neg := false, mant := 9619588, exp := -18 } := by
  rw [delayAfter_100]
  rfl

theorem delayAfter_200 : delayAfter 200 = { neg := false, mant := 9619588, exp := -18 } :=
  (sweep_delayAfter sweep_100).1

set_option maxRecDepth 20000 in
theorem sweep_200 : sweep true true (.lit 995 3) 100 (delayAfter 200) =
    some { neg := false, mant := 11654531, exp := -19 } := by
  rw [delayAfter_200]
  rfl

theorem delayAfter_300 : delayAfter 300 = { neg := false, mant := 11654531, exp := -19 } :=
  (sweep_delayAfter sweep_200).1

set_option maxRecDepth 20000 in
theorem sweep_300 : sweep true true (.lit 995 3) 100 (delayAfter 300) =
    some { neg := false, mant := 14119949, exp := -20 } := by
  rw [delayAfter_300]
  rfl

theorem delayAfter_400 : delayAfter 400 = { neg := false, mant := 14119949, exp := -20 } :=
  (sweep_delayAfter sweep_300).1

set_option maxRecDepth 20000 in
theorem sweep_400 : sweep true true (.lit 995 3) 100 (delayAfter 400) =
    some { neg := false, mant := 8553454, exp := -20 } := by
  rw [delayAfter_400]
  rfl

theorem delayAfter_500 : delayAfter 500 = { neg := false, mant := 8553454, exp := -20 } :=
  (sweep_delayAfter sweep_400).1

set_option maxRecDepth 20000 in
theorem sweep_500 : sweep true true (.lit 995 3) 100 (delayAfter 500) =
    some { neg := false, mant := 10362863, exp := -21 } := by
  rw [delayAfter_500]
  rfl

theorem delayAfter_600 : delayAfter 600 = { neg := false, mant := 10362863, exp := -21 } :=
  (sweep_delayAfter sweep_500).1

set_option maxRecDepth 20000 in
theorem sweep_600 : sweep true true (.lit 995 3) 100 (delayAfter 600) =
    some { neg := false, mant := 12555040, exp := -22 } := by
  rw [delayAfter_600]
  rfl

theorem delayAfter_700 : delayAfter 700 = { neg := false, mant := 12555040, exp := -22 } :=
  (sweep_delayAfter sweep_600).1

set_option maxRecDepth 20000 in
theorem sweep_700 : sweep true true (.lit 995 3) 80 (delayAfter 700) =
    some { neg := false, mant := 8407460, exp := -22 } := by
  rw [delayAfter_700]
  rfl

theorem delayAfter_780 : delayAfter 780 = { neg := false, mant := 8407460, exp := -22 } :=
  (sweep_delayAfter sweep_700).1

set_option maxRecDepth 20000 in
theorem sweep_780 : sweep true false (.lit 995 3) 1 (delayAfter 780) =
    some { neg := false, mant := 16730845, exp := -23 } := by
  rw [delayAfter_780]
  rfl

theorem delayAfter_781 : delayAfter 781 = { neg := false, mant := 16730845, exp := -23 } :=
  (sweep_delayAfter sweep_780).1

set_option maxRecDepth 20000 in
theorem sweep_781 : sweep true false (.lit 995 3) 19 (delayAfter 781) =
    some { neg := false, mant := 15210952, exp := -23 } := by
  rw [delayAfter_781]
  rfl

theorem delayAfter_800 : delayAfter 800 = { neg := false, mant := 15210952, exp := -23 } :=
  (sweep_delayAfter sweep_781).1

set_option maxRecDepth 20000 in
theorem sweep_800 : sweep true false (.lit 995 3) 100 (delayAfter 800) =
    some { neg := false, mant := 9214347, exp := -23 } := by
  rw [delayAfter_800]
  rfl

theorem delayAfter_900 : delayAfter 900 = { neg := false, mant := 9214347, exp := -23 } :=
  (sweep_delayAfter sweep_800).1

set_option maxRecDepth 20000 in
theorem sweep_900 : sweep true false (.lit 995 3) 18 (delayAfter 900) =
    some { neg := false, mant := 8419381, exp := -23 } := by
  rw [delayAfter_900]
  rfl

theorem delayAfter_918 : delayAfter 918 = { neg := false, mant := 8419381, exp := -23 } :=
  (sweep_delayAfter sweep_900).1

set_option maxRecDepth 20000 in
theorem sweep_918 : sweep false false (.lit 995 3) 1 (delayAfter 918) =
    some { neg := false, mant := 16754568, exp := -24 } := by
  rw [delayAfter_918]
  rfl

theorem delayAfter_919 : delayAfter 919 = { neg := false, mant := 16754568, exp := -24 } :=
  (sweep_delayAfter sweep_918).1

/-- The interval of the ticker that line 324 creates at the 781st and at the 919th fruit of a
round: after 780 fruits the delay is about 2.005 ms and after 918 fruits about 1.004 ms, so
the 781st fruit, when it is special, and the 919th fruit leave `time.NewTicker` with an
interval of 0, on which it panics; one fruit earlier the interval is still a millisecond. -/
theorem ticker_thresholds :
    tickerInterval (delayAfter 780) true = 1000000 ∧
    tickerInterval (delayAfter 781) true = 0 ∧
    tickerInterval (delayAfter 781) false = 1000000 ∧
    tickerInterval (delayAfter 918) false = 1000000 ∧
    tickerInterval (delayAfter 919) false = 0 ∧
    NewTicker (tickerInterval (delayAfter 781) true) = .error .nonPositiveInterval ∧
    NewTicker (tickerInterval (delayAfter 919) false) = .error .nonPositiveInterval := by
  rw [delayAfter_780, delayAfter_781, delayAfter_918, delayAfter_919]
  refine ⟨by rfl, by rfl, by rfl, by rfl, by rfl, by rfl, by rfl⟩

/-- Up to the 780th fruit of a round the ticker created for a special fruit has a positive
interval. -/
theorem special_interval_pos (k : Nat) (h1 : 0 < k) (h2 : k ≤ 780) :
    decide (0 < tickerInterval (delayAfter k) true) = true := by
  by_cases h100 : k ≤ 100
  · exact ((sweep_delayAfter sweep_0).2 k (by omega) (by omega)).2
  by_cases h200 : k ≤ 200
  · exact ((sweep_delayAfter sweep_100).2 k (by omega) (by omega)).2
  by_cases h300 : k ≤ 300
  · exact ((sweep_delayAfter sweep_200).2 k (by omega) (by omega)).2
  by_cases h400 : k ≤ 400
  · exact ((sweep_delayAfter sweep_300).2 k (by omega) (by omega)).2
  by_cases h500 : k ≤ 500
  · exact ((sweep_delayAfter sweep_400).2 k (by omega) (by omega)).2
  by_cases h600 : k ≤ 600
  · exact ((sweep_delayAfter sweep_500).2 k (by omega) (by omega)).2
  by_cases h700 : k ≤ 700
  · exact ((sweep_delayAfter sweep_600).2 k (by omega) (by omega)).2
  exact ((sweep_delayAfter sweep_700).2 k (by omega) (by omega)).2

/-- Up to the 918th fruit of a round the ticker created for a normal fruit has a positive
interval. -/
theorem normal_interval_pos (k : Nat) (h1 : 0 < k) (h2 : k ≤ 918) :
    decide (0 < tickerInterval (delayAfter k) false) = true := by
  by_cases h100 : k ≤ 100
  · exact ((sweep_delayAfter sweep_0).2 k (by omega) (by omega)).1
  by_cases h200 : k ≤ 200
  · exact ((sweep_delayAfter sweep_100).2 k (by omega) (by omega)).1
  by_cases h300 : k ≤ 300
  · exact ((sweep_delayAfter sweep_200).2 k (by omega) (by omega)).1
  by_cases h400 : k ≤ 400
  · exact ((sweep_delayAfter sweep_300).2 k (by omega) (by omega)).1
  by_cases h500 : k ≤ 500
  · exact ((sweep_delayAfter sweep_400).2 k (by omega) (by omega)).1
  by_cases h600 : k ≤ 600
  · exact ((sweep_delayAfter sweep_500).2 k (by omega) (by omega)).1
  by_cases h700 : k ≤ 700
  · exact ((sweep_delayAfter sweep_600).2 k (by omega) (by omega)).1
  by_cases h780 : k ≤ 780
  · exact ((sweep_delayAfter sweep_700).2 k (by omega) (by omega)).1
  by_cases h781 : k ≤ 781
  · exact ((sweep_delayAfter sweep_780).2 k (by omega) (by omega)).1
  by_cases h800 : k ≤ 800
  · exact ((sweep_delayAfter sweep_781).2 k (by omega) (by omega)).1
  by_cases h900 : k ≤ 900
  · exact ((sweep_delayAfter sweep_800).2 k (by omega) (by omega)).1
  exact ((sweep_delayAfter sweep_900).2 k (by omega) (by omega)).1

/-- From the 781st fruit of a round on, the ticker created for a special fruit has no positive
interval. -/
theorem special_interval_zero (k : Nat) (h1 : 780 < k) (h2 : k ≤ 919) :
    decide (0 < tickerInterval (delayAfter k) true) = false := by
  by_cases h781 : k ≤ 781
  · exact ((sweep_delayAfter sweep_780).2 k (by omega) (by omega)).2
  by_cases h800 : k ≤ 800
  · exact ((sweep_delayAfter sweep_781).2 k (by omega) (by omega)).2
  by_cases h900 : k ≤ 900
  · exact ((sweep_delayAfter sweep_800).2 k (by omega) (by omega)).2
  by_cases h918 : k ≤ 918
  · exact ((sweep_delayAfter sweep_900).2 k (by omega) (by omega)).2
  exact ((sweep_delayAfter sweep_918).2 k (by omega) (by omega)).2

theorem startNewGame_counts {gEnv eliMode w gSt w1}
    (h : startNewGame gEnv eliMode w = .ok (gSt, w1)) :
    gSt.fruits = 0 ∧ gSt.specialFruits = 0 ∧ gSt.tickerDelay = .lit 100 0 := by
  unfold startNewGame initFreshGameState at h
  split at h
  · cases h
  · rename_i g w2 heq
    split at heq
    · cases heq
    · cases heq
      cases h
      exact ⟨rfl, rfl, rfl⟩

theorem isInitial_counts {gEnv gSt} (h : isInitial gEnv gSt) :
    gSt.fruits = 0 ∧ gSt.specialFruits = 0 ∧ gSt.tickerDelay = .lit 100 0 := by
  obtain ⟨cw, ch, msgs, w, w1, h⟩ := h
  unfold mainInit initFreshGameState at h
  simp only at h
  split at h
  · cases h
  · rename_i g w2 heq
    split at heq
    · cases heq
    · cases heq
      split_ifs at h <;> cases h <;> exact ⟨rfl, rfl, rfl⟩

theorem delayInv_of_counts {gSt : gameState}
    (h : gSt.fruits = 0 ∧ gSt.specialFruits = 0 ∧ gSt.tickerDelay = .lit 100 0) :
    delayInv gSt := by
  obtain ⟨h1, h2, h3⟩ := h
  refine ⟨by omega, by omega, ?_⟩
  rw [h1, h2, h3]
  rfl

theorem delayInv_startNewGame {gEnv eliMode w gSt w1}
    (h : startNewGame gEnv eliMode w = .ok (gSt, w1)) : delayInv gSt :=
  delayInv_of_counts (startNewGame_counts h)

theorem delayInv_of_isInitial {gEnv gSt} (h : isInitial gEnv gSt) : delayInv gSt :=
  delayInv_of_counts (isInitial_counts h)

theorem delayInv_of_start {gEnv0 gSt0} (h0 : isFreshRound gEnv0 gSt0 ∨ isInitial gEnv0 gSt0) :
    delayInv gSt0 := by
  rcases h0 with ⟨eliMode, w, w1, h⟩ | h
  · exact delayInv_startNewGame h
  · exact delayInv_of_isInitial h

theorem delayInv_mainKeyEvent {gEnv gSt ev w gEnv1 gSt1 w1} (hD : delayInv gSt)
    (h : mainKeyEvent gEnv gSt ev w = .ok (gEnv1, gSt1, w1)) : delayInv gSt1 := by
  rcases mainKeyEvent_cases h with ⟨-, eliMode, hs⟩ | hk
  · exact delayInv_startNewGame hs
  · obtain ⟨-, -, -, -, -, -, -, -, -, -, -, -, k13, k14, k15⟩ := hk
    exact ⟨by rw [k14]; exact hD.fruits_nonneg, by rw [k15]; exact hD.specialFruits_nonneg,
      by rw [k13, k14, k15]; exact hD.delay⟩

/-- A timer tick keeps the relation between the ticker delay and the number of fruits eaten,
when the ticker factor is the 0.995 of the program. -/
theorem delayInv_mainTick {gEnv gSt w gEnv1 gSt1 w1} (hf : gEnv.tickerFactor = .lit 995 3)
    (hD : delayInv gSt) (h : mainTick gEnv gSt w = .ok (gEnv1, gSt1, w1)) : delayInv gSt1 := by
  by_cases hr : isRunning gSt = true
  swap
  · rw [mainTick_not_running w (by simpa using hr)] at h
    cases h
    exact hD
  obtain ⟨m, hm, hbody, -⟩ := mainTick_body hr h
  obtain ⟨-, -, -, -, -, -, -, -, -, b10, b11, b12, -⟩ := hbody
  have h1 := hD.fruits_nonneg
  have h2 := hD.specialFruits_nonneg
  have h3 := hD.delay
  have hmD : delayInv m := by
    rcases tickMove_ok hm with ⟨he, -, rfl⟩ | ⟨-, rfl⟩
    · have hsp := eats_isSpecialFruit he
      by_cases hs : gSt.isSpecialFruit = true
      · rw [hs] at hsp
        refine ⟨?_, ?_, ?_⟩
        · simp only [eatenState_fruits, hsp, if_true, arrived_fruits]; exact h1
        · simp only [eatenState_specialFruits, hsp, if_true, arrived_specialFruits]; omega
        · simp only [eatenState_fruits, eatenState_specialFruits, eatenState_tickerDelay, hsp,
            if_true, arrived_fruits, arrived_specialFruits, arrived_tickerDelay]
          rw [hf, h3, ← delayAfter_succ]
          congr 1
          omega
      · have hs2 : gSt.isSpecialFruit = false := by simpa using hs
        rw [hs2] at hsp
        refine ⟨?_, ?_, ?_⟩
        · simp only [eatenState_fruits, hsp, arrived_fruits]
          simp only [Bool.false_eq_true, if_false]
          omega
        · simp only [eatenState_specialFruits, hsp, arrived_specialFruits]
          simp only [Bool.false_eq_true, if_false]
          exact h2
        · simp only [eatenState_fruits, eatenState_specialFruits, eatenState_tickerDelay, hsp,
            arrived_fruits, arrived_specialFruits, arrived_tickerDelay]
          simp only [Bool.false_eq_true, if_false]
          rw [hf, h3, ← delayAfter_succ]
          congr 1
          omega
    · exact ⟨by simpa using h1, by simpa using h2, by simpa using h3⟩
  exact ⟨by rw [b11]; exact hmD.fruits_nonneg, by rw [b12]; exact hmD.specialFruits_nonneg,
    by rw [b10, b11, b12]; exact hmD.delay⟩

/-- In every state the loop reaches, from the start of the program or of a round, with the
ticker factor 0.995 of the program, the ticker delay is the one of the number of fruits eaten
in the round. -/
theorem delayInv_of_Reaches {gEnv0 gSt0 gEnv gSt}
    (h0 : isFreshRound gEnv0 gSt0 ∨ isInitial gEnv0 gSt0)
    (hf : gEnv0.tickerFactor = .lit 995 3)
    (h : Reaches gEnv0 gSt0 gEnv gSt) : delayInv gSt := by
  induction h with
  | start => exact delayInv_of_start h0
  | next e w w1 hprev hstep ih =>
    obtain ⟨-, -, -, -, hfr⟩ := envFrame_of_Reaches hprev
    cases e with
    | terminal ev => exact delayInv_mainKeyEvent ih hstep
    | redraw => exact delayInv_mainTick (by rw [hfr]; exact hf) ih hstep

/-- The interval of the ticker that an eating tick creates, in a state the loop reaches from
the start of the program: it is the one of the delay after one fruit more. -/
theorem eatInterval_of_Reaches {gEnv0 gSt0 gEnv gSt} (h0 : isInitial gEnv0 gSt0)
    (h : Reaches gEnv0 gSt0 gEnv gSt) :
    eatInterval gEnv gSt =
      tickerInterval (delayAfter ((gSt.fruits + gSt.specialFruits).toNat + 1))
        gSt.isSpecialFruit := by
  have hf := isInitial_tickerFactor h0
  have hD := delayInv_of_Reaches (Or.inr h0) hf h
  obtain ⟨-, -, -, -, hfr⟩ := envFrame_of_Reaches h
  unfold eatInterval
  rw [hfr, hf, hD.delay, ← delayAfter_succ]

/-- The 919th fruit of a round cannot be eaten, nor the 781st when it is special: in a state
the loop reaches from the start of the program with 918 fruits eaten, or with 780 and a
special fruit in the slot, the tick on which the head goes over the fruit panics in
`time.NewTicker`, whatever it reads. -/
theorem late_fruit_panics {gEnv0 gSt0 gEnv gSt} (h0 : isInitial gEnv0 gSt0)
    (h : Reaches gEnv0 gSt0 gEnv gSt) (hr : isRunning gSt = true)
    (he : eats gEnv gSt = true)
    (hn : gSt.fruits + gSt.specialFruits = 918 ∨
      (gSt.fruits + gSt.specialFruits = 780 ∧ gSt.isSpecialFruit = true)) (w : world) :
    mainTick gEnv gSt w = .error .nonPositiveInterval := by
  have hI : Inv gEnv gSt := Inv_of_Reaches (Inv_of_isInitial h0) h
  have hs := hI.steps_nonneg
  refine mainTick_interval_panic gEnv gSt hr he (by omega) ?_ w
  rw [eatInterval_of_Reaches h0 h]
  rcases hn with hn | ⟨hn, hsp⟩
  · rw [hn]
    rw [show (918 : Int).toNat + 1 = 919 from rfl, delayAfter_919]
    cases gSt.isSpecialFruit
    · exact le_of_eq (by rfl)
    · exact le_of_eq (by rfl)
  · rw [hn, hsp]
    rw [show (780 : Int).toNat + 1 = 781 from rfl, delayAfter_781]
    exact le_of_eq (by rfl)

/-- A round eats at most 918 fruits: in every state the loop reaches from the start of the
program, `fruits + specialFruits` is at most 918. -/
theorem fruit_count_bound {gEnv0 gSt0 gEnv gSt} (h0 : isInitial gEnv0 gSt0)
    (h : Reaches gEnv0 gSt0 gEnv gSt) : gSt.fruits + gSt.specialFruits ≤ 918 := by
  induction h with
  | start =>
    obtain ⟨c1, c2, -⟩ := isInitial_counts h0
    omega
  | next e w w1 hprev hstep ih =>
    rename_i gEnvA gStA gEnvB gStB
    cases e with
    | terminal ev =>
      rcases mainKeyEvent_cases hstep with ⟨-, eliMode, hs⟩ | hk
      · obtain ⟨c1, c2, -⟩ := startNewGame_counts hs
        omega
      · obtain ⟨-, -, -, -, -, -, -, -, -, -, -, -, -, k14, k15⟩ := hk
        rw [k14, k15]
        exact ih
    | redraw =>
      have hstep2 : mainTick gEnvA gStA w = .ok (gEnvB, gStB, w1) := hstep
      by_cases hr : isRunning gStA = true
      swap
      · rw [mainTick_not_running w (by simpa using hr)] at hstep2
        cases hstep2
        exact ih
      obtain ⟨m, hm, hbody, -⟩ := mainTick_body hr hstep2
      obtain ⟨-, -, -, -, -, -, -, -, -, -, b11, b12, -⟩ := hbody
      rw [b11, b12]
      have hD := delayInv_of_Reaches (Or.inr h0) (isInitial_tickerFactor h0) hprev
      have h1 := hD.fruits_nonneg
      have h2 := hD.specialFruits_nonneg
      rcases tickMove_ok hm with ⟨he, -, rfl⟩ | ⟨-, rfl⟩
      · have hpos := tickMove_ok_interval hm he
        rw [eatInterval_of_Reaches h0 hprev] at hpos
        have hne : gStA.fruits + gStA.specialFruits ≠ 918 := by
          intro h918
          rw [h918, show (918 : Int).toNat + 1 = 919 from rfl, delayAfter_919] at hpos
          revert hpos
          cases gStA.isSpecialFruit <;> decide
        simp only [eatenState_fruits, eatenState_specialFruits, arrived_fruits,
          arrived_specialFruits]
        split_ifs <;> omega
      · simpa using ih

/-- When the ticker of an eating tick has a positive interval, in terms of the fruits eaten
so far in the round: in a state the loop reaches from the start of the program, the interval
is positive exactly when fewer than 780 fruits have been eaten, or fewer than 918 and the
fruit in the slot is not special. -/
theorem eatInterval_pos_iff {gEnv0 gSt0 gEnv gSt} (h0 : isInitial gEnv0 gSt0)
    (h : Reaches gEnv0 gSt0 gEnv gSt) :
    0 < eatInterval gEnv gSt ↔
      (gSt.fruits + gSt.specialFruits < 780 ∨
        (gSt.isSpecialFruit = false ∧ gSt.fruits + gSt.specialFruits < 918)) := by
  have hD := delayInv_of_Reaches (Or.inr h0) (isInitial_tickerFactor h0) h
  have h1 := hD.fruits_nonneg
  have h2 := hD.specialFruits_nonneg
  have hb := fruit_count_bound h0 h
  rw [eatInterval_of_Reaches h0 h]
  generalize hk : (gSt.fruits + gSt.specialFruits).toNat + 1 = k
  have hk1 : 0 < k := by omega
  have hk2 : k ≤ 919 := by omega
  have hkn : (k : Int) = gSt.fruits + gSt.specialFruits + 1 := by omega
  cases hsp : gSt.isSpecialFruit
  · by_cases h918 : k ≤ 918
    · have := normal_interval_pos k hk1 h918
      simp only [decide_eq_true_eq] at this
      constructor
      · intro _
        exact Or.inr ⟨rfl, by omega⟩
      · intro _
        exact this
    · have hk919 : k = 919 := by omega
      rw [hk919, delayAfter_919]
      constructor
      · intro hpos
        exact absurd hpos (by decide)
      · rintro (hlt | ⟨-, hlt⟩) <;> omega
  · by_cases h780 : k ≤ 780
    · have := special_interval_pos k hk1 h780
      simp only [decide_eq_true_eq] at this
      constructor
      · intro _
        exact Or.inl (by omega)
      · intro _
        exact this
    · have := special_interval_zero k (by omega) hk2
      simp only [decide_eq_false_iff_not] at this
      constructor
      · intro hpos
        exact absurd hpos this
      · rintro (hlt | ⟨hf, -⟩)
        · omega
        · exact absurd hf (by decide)

/-! ## The properties of the specification -/

/-- C1: `areCoordsInSlice c s` is true exactly when some element of `s` has the same `x` and
the same `y` as `c`; it is false on the empty slice; and the four cases of
`TestAreCoordInSlice` evaluate as the test expects. -/
theorem areCoordsInSlice_contains :
    (∀ (c : coords) (s : List coords),
      areCoordsInSlice c s = true ↔ ∃ e ∈ s, e.x = c.x ∧ e.y = c.y) ∧
    (∀ c : coords, areCoordsInSlice c [] = false) ∧
    areCoordsInSlice ⟨5, 5⟩ [⟨5, 5⟩] = true ∧
    areCoordsInSlice ⟨5, 5⟩ [⟨3, 3⟩] = false ∧
    areCoordsInSlice ⟨5, 5⟩ [⟨3, 3⟩, ⟨3, 4⟩, ⟨3, 5⟩, ⟨4, 5⟩] = false ∧
    areCoordsInSlice ⟨4, 5⟩ [⟨3, 3⟩, ⟨3, 4⟩, ⟨3, 5⟩, ⟨4, 5⟩] = true := by
  refine ⟨?_, fun _ => rfl, by decide, by decide, by decide, by decide⟩
  intro c s
  rw [areCoordsInSlice_eq_true_iff]
  constructor
  · intro h; exact ⟨c, h, rfl, rfl⟩
  · rintro ⟨e, he, hx, hy⟩
    have : e = c := (coords_eq_iff e c).2 ⟨hx, hy⟩
    exact this ▸ he

/-- C2, failing input: a round started on the 10 by 10 board in normal mode and left alone
runs into the top wall on its sixth tick with score 0; the head is then at (5,-1), outside of
the board, and the tick ends with `gameOver` false (and `gameStarted` false), where the
property asks for `gameOver` true: `handleGameOver` has called `printGameIntro` right after
`printGameSummary`, so the state is NotStarted and not Over. -/
theorem boundary_tick_score_zero_not_over :
    isFreshRound boardEnv (freshUp false) ∧
    mainRun boardEnv (freshUp false)
      [tickWith [0, 0, 0], tickWith [], tickWith [], tickWith [], tickWith []] =
        .ok (boardEnv, wallState) ∧
    isRunning wallState = true ∧ wallState.eliMode = false ∧ wallState.score = 0 ∧
    movedHead boardEnv wallState = ⟨5, -1⟩ ∧
    mainTick boardEnv wallState (drawsWorld []) = .ok (boardEnv, wallStateEnd, drawsWorld []) ∧
    wallStateEnd.gameOver = false ∧ wallStateEnd.gameStarted = false := by
  refine ⟨⟨false, drawsWorld [0], drawsWorld [], by rfl⟩, by rfl, by rfl, by rfl, by rfl, by rfl,
    by rfl, by rfl, by rfl⟩

/-- What the code does on a tick into the wall: in normal mode, when the head of a running
game is outside of the board after advancing, a tick that returns ends with `gameStarted`
false, and with `gameOver` true exactly when the score it leaves is positive.  That score is
the score after the move unless the name entry was cancelled with `Esc`, which zeroes it.
The tick does return, on the world `worldFor c`, when, in case it eats, the score division is
defined and the new ticker has a positive interval. -/
theorem boundary_tick_ends_round {gEnv : gameEnvironment} {gSt : gameState}
    (hr : isRunning gSt = true) (hmode : gSt.eliMode = false)
    (hout : (movedHead gEnv gSt).x < 0 ∨ gEnv.boardWidth ≤ (movedHead gEnv gSt).x ∨
      (movedHead gEnv gSt).y < 0 ∨ gEnv.boardHeight ≤ (movedHead gEnv gSt).y) :
    (∀ (w : world) (gEnv1 : gameEnvironment) (gSt1 : gameState) (w1 : world),
      mainTick gEnv gSt w = .ok (gEnv1, gSt1, w1) →
      gSt1.gameStarted = false ∧ (gSt1.gameOver = true ↔ 0 < gSt1.score) ∧
      (gSt1.score =
          (if eats gEnv gSt then gSt.score + scoreDelta (arrived gEnv gSt) else gSt.score) ∨
        (gSt1.score = 0 ∧ escPressed w.events))) ∧
    ((eats gEnv gSt = true → gSt.stepsToFruit + 1 ≠ 0) →
      (eats gEnv gSt = true → 0 < eatInterval gEnv gSt) →
      ∀ c : coords, ∃ gEnv1 gSt1 w1, mainTick gEnv gSt (worldFor c) = .ok (gEnv1, gSt1, w1)) := by
  have hviol : ∀ m, tickMove gEnv gSt = .ok m → boundaryViolation gEnv m = true := by
    intro m hm
    obtain ⟨-, -, -, -, hhead, heli, -⟩ := tickMove_common hm
    unfold boundaryViolation headOutsideBoard
    rw [heli, hmode, hhead]
    simp only [Bool.not_false, Bool.true_and, Bool.or_eq_true, decide_eq_true_eq, ge_iff_le]
    omega
  constructor
  · intro w gEnv1 gSt1 w1 h
    obtain ⟨m, hm, hcase⟩ := mainTick_running hr h
    have hb := hviol m hm
    rcases hcase with ⟨hb2, -⟩ | ⟨-, hsc, hst, -⟩
    · rw [hb] at hb2
      exact absurd hb2 (by decide)
    · rw [← tickMove_score hm]
      refine ⟨by rw [hst]; rfl, ?_, ?_⟩
      · rw [hst]; simp
      · rcases hsc with h1 | ⟨-, h2, h3⟩
        · exact Or.inl h1
        · exact Or.inr ⟨h3, h2⟩
  · intro hdiv hint c
    refine mainTick_returns_of gEnv gSt hr hdiv hint c ?_
    intro m hm hb
    rw [hviol m hm] at hb
    exact absurd hb (by decide)

/-- The sibling path of the tick into the wall: with score 10 and the name Bob confirmed, the
tick ends in the state Over. -/
theorem boundary_tick_ends_round_witness :
    isRunning wallRich = true ∧ wallRich.eliMode = false ∧
    (movedHead boardEnv wallRich).y < 0 ∧
    mainTick boardEnv wallRich nameWorld =
      .ok ({ boardEnv with playerName := ['B', 'o', 'b'], highScoreRequestResult := true },
           { wallStateEnd with score := 10, gameOver := true },
           { nameWorld with events := [], responses := [] }) ∧
    ({ wallStateEnd with score := 10, gameOver := true } : gameState).gameStarted = false ∧
    (({ wallStateEnd with score := 10, gameOver := true } : gameState).gameOver = true ↔
      0 < ({ wallStateEnd with score := 10, gameOver := true } : gameState).score) :=
  have hstep : mainTick boardEnv wallRich nameWorld =
      .ok ({ boardEnv with playerName := ['B', 'o', 'b'], highScoreRequestResult := true },
           { wallStateEnd with score := 10, gameOver := true },
           { nameWorld with events := [], responses := [] }) := by rfl
  have hthm := (boundary_tick_ends_round (by rfl : isRunning wallRich = true) (by rfl)
    (Or.inr (Or.inr (Or.inl (by decide))))).1 _ _ _ _ hstep
  ⟨by rfl, by rfl, by decide, hstep, hthm.1, hthm.2.1⟩

/-- C3: on a tick of a running game, in any state the loop reaches from the start of the
program or of a round, on which the moved head is on the fruit and the fruit has not expired,
with `d = fruitDistance` and `s = stepsToFruit + 1` (positive): a tick that returns has grown
the score by exactly Go's integer quotient `10 * d / s` for a normal fruit and by ten times
that for a special one; `fruits` has grown by one and `specialFruits` is unchanged for a
normal fruit, and the reverse for a special one; `tickerDelay` is multiplied by
`tickerFactor`, which is 0.995 since the start of the program; and the game goes on.  These
are the writes of lines 310-318, made before the new ticker is created at line 324.  The tick
returns, on the world `worldFor c`, when the new ticker has a positive interval and the board
has a cell `c` free of the snake; when the interval is not positive, which is when the new
delay divided by `ratio` is below one millisecond, the tick panics in `time.NewTicker`.  Since
the start of the program the interval is positive exactly when fewer than 780 fruits have been
eaten in the round, or fewer than 918 and the fruit is not special. -/
theorem fruit_tick_scores {gEnv0 : gameEnvironment} {gSt0 : gameState}
    {gEnv : gameEnvironment} {gSt : gameState}
    (h0 : isFreshRound gEnv0 gSt0 ∨ isInitial gEnv0 gSt0)
    (hreach : Reaches gEnv0 gSt0 gEnv gSt)
    (hr : isRunning gSt = true)
    (hfruit : gSt.isFruit = true) (hactive : expires gSt = false)
    (hhead : movedHead gEnv gSt = gSt.fruitCoords) :
    0 < gSt.stepsToFruit + 1 ∧
    (isInitial gEnv0 gSt0 → gEnv.tickerFactor = float32.lit 995 3) ∧
    (∀ (w : world) (gEnv1 : gameEnvironment) (gSt1 : gameState) (w1 : world),
      mainTick gEnv gSt w = .ok (gEnv1, gSt1, w1) →
      gSt1.score = gSt.score +
        (if gSt.isSpecialFruit then
          Int.tdiv (10 * gSt.fruitDistance) (gSt.stepsToFruit + 1) * 10
         else Int.tdiv (10 * gSt.fruitDistance) (gSt.stepsToFruit + 1)) ∧
      gSt1.fruits = (if gSt.isSpecialFruit then gSt.fruits else gSt.fruits + 1) ∧
      gSt1.specialFruits =
        (if gSt.isSpecialFruit then gSt.specialFruits + 1 else gSt.specialFruits) ∧
      gSt1.tickerDelay = float32.mul gSt.tickerDelay gEnv.tickerFactor ∧
      isRunning gSt1 = true) ∧
    (eatenState gEnv (arrived gEnv gSt)).score = gSt.score +
        (if gSt.isSpecialFruit then
          Int.tdiv (10 * gSt.fruitDistance) (gSt.stepsToFruit + 1) * 10
         else Int.tdiv (10 * gSt.fruitDistance) (gSt.stepsToFruit + 1)) ∧
    (eatenState gEnv (arrived gEnv gSt)).fruits =
        (if gSt.isSpecialFruit then gSt.fruits else gSt.fruits + 1) ∧
    (eatenState gEnv (arrived gEnv gSt)).specialFruits =
        (if gSt.isSpecialFruit then gSt.specialFruits + 1 else gSt.specialFruits) ∧
    (eatenState gEnv (arrived gEnv gSt)).tickerDelay =
        float32.mul gSt.tickerDelay gEnv.tickerFactor ∧
    (0 < eatInterval gEnv gSt →
      tickMove gEnv gSt = .ok (eatenState gEnv (arrived gEnv gSt)) ∧
      ∀ c : coords, onBoard gEnv c → c ∉ gSt.snakeCoords ++ [movedHead gEnv gSt] →
        ∃ gEnv1 gSt1 w1, mainTick gEnv gSt (worldFor c) = .ok (gEnv1, gSt1, w1)) ∧
    (eatInterval gEnv gSt ≤ 0 →
      ∀ w : world, mainTick gEnv gSt w = .error .nonPositiveInterval) ∧
    (isInitial gEnv0 gSt0 →
      (0 < eatInterval gEnv gSt ↔
        (gSt.fruits + gSt.specialFruits < 780 ∨
          (gSt.isSpecialFruit = false ∧ gSt.fruits + gSt.specialFruits < 918)))) := by
  have hI : Inv gEnv gSt := Inv_of_Reaches (Inv_of_start h0) hreach
  have he : eats gEnv gSt = true := eats_of_head hfruit hactive hhead
  have hsteps := hI.steps_nonneg
  have hfactor : isInitial gEnv0 gSt0 → gEnv.tickerFactor = float32.lit 995 3 := by
    intro hin
    obtain ⟨-, -, -, -, hf⟩ := envFrame_of_Reaches hreach
    rw [hf]
    exact isInitial_tickerFactor hin
  have hwrites : (eatenState gEnv (arrived gEnv gSt)).score = gSt.score +
      (if gSt.isSpecialFruit then
        Int.tdiv (10 * gSt.fruitDistance) (gSt.stepsToFruit + 1) * 10
       else Int.tdiv (10 * gSt.fruitDistance) (gSt.stepsToFruit + 1)) ∧
      (eatenState gEnv (arrived gEnv gSt)).fruits =
        (if gSt.isSpecialFruit then gSt.fruits else gSt.fruits + 1) ∧
      (eatenState gEnv (arrived gEnv gSt)).specialFruits =
        (if gSt.isSpecialFruit then gSt.specialFruits + 1 else gSt.specialFruits) ∧
      (eatenState gEnv (arrived gEnv gSt)).tickerDelay =
        float32.mul gSt.tickerDelay gEnv.tickerFactor := by
    simp [scoreDelta, hactive]
  refine ⟨by omega, hfactor, ?_, hwrites.1, hwrites.2.1, hwrites.2.2.1, hwrites.2.2.2, ?_,
    fun hint w => mainTick_interval_panic gEnv gSt hr he (by omega) hint w,
    fun hin => eatInterval_pos_iff hin hreach⟩
  swap
  · intro hint
    refine ⟨?_, fun c hc hfree =>
      mainTick_returns gEnv gSt hr (fun _ => by omega) (fun _ => hint) c hc hfree⟩
    rw [tickMove_eq, if_pos he, if_neg (by omega), if_neg (not_le.2 hint)]
  intro w gEnv1 gSt1 w1 h
  obtain ⟨hst, hpa, hov⟩ := (isRunning_iff gSt).1 hr
  obtain ⟨m, hm, hcase⟩ := mainTick_running hr h
  obtain ⟨hb, hs⟩ := eat_tick_goes_on hI hr he hm
  obtain ⟨-, -, -, -, -, -, c7, c8, c9, -⟩ := tickMove_common hm
  have hmf : m.score = gSt.score +
      (if gSt.isSpecialFruit then
        Int.tdiv (10 * gSt.fruitDistance) (gSt.stepsToFruit + 1) * 10
       else Int.tdiv (10 * gSt.fruitDistance) (gSt.stepsToFruit + 1)) ∧
      m.fruits = (if gSt.isSpecialFruit then gSt.fruits else gSt.fruits + 1) ∧
      m.specialFruits =
        (if gSt.isSpecialFruit then gSt.specialFruits + 1 else gSt.specialFruits) ∧
      m.tickerDelay = float32.mul gSt.tickerDelay gEnv.tickerFactor := by
    rcases tickMove_ok hm with ⟨-, -, rfl⟩ | ⟨he2, -⟩
    · exact hwrites
    · rw [he] at he2
      exact absurd he2 (by decide)
  have hrun : isRunning m = true := by
    rw [isRunning_iff]
    exact ⟨c7.trans hst, c8.trans hpa, c9.trans hov⟩
  obtain ⟨f1, f2, f3, f4⟩ := hmf
  rcases hcase with ⟨-, -, -, hspawn⟩ | ⟨hgo, -⟩
  · rcases tickSpawnFruit_cases hspawn with rfl | ⟨-, -, -, c, sp, -, -, rfl⟩
    · exact ⟨f1, f2, f3, f4, hrun⟩
    · exact ⟨f1, f2, f3, f4, hrun⟩
  · rw [hb, hs] at hgo
    rcases hgo with hgo | hgo <;> exact absurd hgo (by decide)

/-- C3, witness: the scenario of the specification.  The state with a single segment at
(5,5) heading up and a fruit just placed at (5,3) is reached from a fresh round; two ticks
later the score is 10 and `fruits` is 1, or 100 and `specialFruits` 1 for a special fruit, and
the ticker delay is 100 times 0.995, that is 99.5 ms; the new ticker is created with an
interval of 99 ms, or of 49 ms for the special fruit. -/
theorem fruit_tick_scores_witness :
    isFreshRound boardEnv (freshUp false) ∧
    mainRun boardEnv (freshUp false) (toScenario 0) = .ok (boardEnv, scenarioState false) ∧
    mainRun boardEnv (freshUp false) (toScenario 85) = .ok (boardEnv, scenarioState true) ∧
    mainRun boardEnv (scenarioState false) [tickWith [], tickWith [1, 1, 0]] =
      .ok (boardEnv, scenarioEnd false) ∧
    mainRun boardEnv (scenarioState true) [tickWith [], tickWith [1, 1, 0]] =
      .ok (boardEnv, scenarioEnd true) ∧
    (scenarioEnd false).score = 10 ∧ (scenarioEnd false).fruits = 1 ∧
    (scenarioEnd false).specialFruits = 0 ∧
    (scenarioEnd true).score = 100 ∧ (scenarioEnd true).fruits = 0 ∧
    (scenarioEnd true).specialFruits = 1 ∧
    (scenarioEnd false).tickerDelay = float32.mul (float32.lit 100 0) (float32.lit 995 3) ∧
    (scenarioEnd true).tickerDelay = float32.mul (float32.lit 100 0) (float32.lit 995 3) ∧
    (scenarioEnd false).tickerDelay = { neg := false, mant := 13041664, exp := -17 } ∧
    eatInterval boardEnv (scenarioMid false) = 99 * Millisecond ∧
    eatInterval boardEnv (scenarioMid true) = 49 * Millisecond ∧
    (scenarioEnd false).score = (scenarioMid false).score +
      (if (scenarioMid false).isSpecialFruit then
        Int.tdiv (10 * (scenarioMid false).fruitDistance)
          ((scenarioMid false).stepsToFruit + 1) * 10
       else Int.tdiv (10 * (scenarioMid false).fruitDistance)
          ((scenarioMid false).stepsToFruit + 1)) ∧
    isRunning (scenarioEnd false) = true :=
  have hfresh : isFreshRound boardEnv (freshUp false) :=
    ⟨false, drawsWorld [0], drawsWorld [], by rfl⟩
  have hreach : Reaches boardEnv (freshUp false) boardEnv (scenarioMid false) :=
    Reaches_of_mainRun (toScenario 0 ++ [tickWith []]) _ _ _ _ (by rfl)
  have hstep : mainTick boardEnv (scenarioMid false) (drawsWorld [1, 1, 0]) =
      .ok (boardEnv, scenarioEnd false, drawsWorld []) := by rfl
  have hthm := (fruit_tick_scores (Or.inl hfresh) hreach (by rfl) (by rfl) (by rfl)
    (by rfl)).2.2.1 _ _ _ _ hstep
  ⟨hfresh, by rfl, by rfl, by rfl, by rfl, by rfl, by rfl, by rfl, by rfl, by rfl, by rfl,
    by rfl, by rfl, by rfl, by rfl, by rfl, hthm.1, hthm.2.2.2.2⟩

/-- C4, counterexample: a round started on the 10 by 10 board eats a fruit for 10 points on
its second tick and runs into the top wall on its sixth; the player cancels the name entry
with `Esc`, and the tick, through `printGameSummary`, leaves the score at 0, below the 10 it
had before the tick. -/
theorem cancelled_entry_lowers_score :
    isFreshRound boardEnv (freshUp false) ∧
    mainRun boardEnv (freshUp false)
      [tickWith [5, 3, 0], tickWith [0, 0, 0], tickWith [], tickWith [], tickWith []] =
        .ok (boardEnv, wallScored) ∧
    wallScored.score = 10 ∧
    mainTick boardEnv wallScored escWorld =
      .ok (boardEnv, wallScoredEnd, { escWorld with events := [] }) ∧
    wallScoredEnd.score = 0 ∧ wallScoredEnd.score < wallScored.score := by
  refine ⟨⟨false, drawsWorld [0], drawsWorld [], by rfl⟩, by rfl, by rfl, by rfl, by rfl,
    by decide⟩

/-- C4, amended: in every state the loop reaches from a freshly started round (or from the
start of the program) the score is not negative, and a tick leaves a score that is not
negative and not below the score before the tick, except that the tick which ends the round
leaves the score at 0 when the name entry of its game-over handling is cancelled with `Esc`.
In particular a tick during which `Esc` is not pressed never lowers the score. -/
theorem score_kept_unless_cancelled {gEnv0 : gameEnvironment} {gSt0 : gameState}
    {gEnv : gameEnvironment} {gSt : gameState}
    (h0 : isFreshRound gEnv0 gSt0 ∨ isInitial gEnv0 gSt0)
    (hreach : Reaches gEnv0 gSt0 gEnv gSt) :
    0 ≤ gSt.score ∧
    ∀ (w : world) (gEnv1 : gameEnvironment) (gSt1 : gameState) (w1 : world),
      mainTick gEnv gSt w = .ok (gEnv1, gSt1, w1) →
      0 ≤ gSt1.score ∧
      (gSt.score ≤ gSt1.score ∨
        (gSt1.score = 0 ∧ isRunning gSt = true ∧ gSt1.gameStarted = false ∧
          escPressed w.events)) ∧
      (¬ escPressed w.events → gSt.score ≤ gSt1.score) := by
  have hI : Inv gEnv gSt := Inv_of_Reaches (Inv_of_start h0) hreach
  refine ⟨hI.score_nonneg, ?_⟩
  intro w gEnv1 gSt1 w1 h
  have hI1 : Inv gEnv1 gSt1 := Inv_mainTick hI h
  have key : gSt.score ≤ gSt1.score ∨
      (gSt1.score = 0 ∧ isRunning gSt = true ∧ gSt1.gameStarted = false ∧
        escPressed w.events) := by
    by_cases hr : isRunning gSt = true
    · obtain ⟨m, hm, hcase⟩ := mainTick_running hr h
      obtain ⟨-, hle, -⟩ := Inv_moved hI hr hm
      rcases hcase with ⟨-, -, -, hspawn⟩ | ⟨-, hsc, hst, -⟩
      · left
        rcases tickSpawnFruit_cases hspawn with rfl | ⟨-, -, -, c, sp, -, -, rfl⟩
        · exact hle
        · exact hle
      · rcases hsc with h1 | ⟨-, hesc, h3⟩
        · left; rw [h1]; exact hle
        · right
          exact ⟨h3, hr, by rw [hst]; rfl, hesc⟩
    · rw [mainTick_not_running w (by simpa using hr)] at h
      cases h
      exact Or.inl (le_refl _)
  refine ⟨hI1.score_nonneg, key, ?_⟩
  intro hno
  rcases key with h1 | ⟨-, -, -, hesc⟩
  · exact h1
  · exact absurd hesc hno

/-- C4, witness: from the state with score 10 at the top row, the tick into the wall with the
name Bob confirmed keeps the score at 10. -/
theorem score_kept_unless_cancelled_witness :
    isFreshRound boardEnv (freshUp false) ∧
    mainRun boardEnv (freshUp false)
      [tickWith [5, 3, 0], tickWith [0, 0, 0], tickWith [], tickWith [], tickWith []] =
        .ok (boardEnv, wallScored) ∧
    mainTick boardEnv wallScored nameWorld =
      .ok ({ boardEnv with playerName := ['B', 'o', 'b'], highScoreRequestResult := true },
           { wallScoredEnd with score := 10, gameOver := true },
           { nameWorld with events := [], responses := [] }) ∧
    0 ≤ wallScored.score ∧
    wallScored.score ≤ ({ wallScoredEnd with score := 10, gameOver := true } : gameState).score :=
  have hfresh : isFreshRound boardEnv (freshUp false) :=
    ⟨false, drawsWorld [0], drawsWorld [], by rfl⟩
  have hrun : mainRun boardEnv (freshUp false)
      [tickWith [5, 3, 0], tickWith [0, 0, 0], tickWith [], tickWith [], tickWith []] =
        .ok (boardEnv, wallScored) := by rfl
  have hstep : mainTick boardEnv wallScored nameWorld =
      .ok ({ boardEnv with playerName := ['B', 'o', 'b'], highScoreRequestResult := true },
           { wallScoredEnd with score := 10, gameOver := true },
           { nameWorld with events := [], responses := [] }) := by rfl
  have hthm := score_kept_unless_cancelled (Or.inl hfresh) (Reaches_of_mainRun _ _ _ _ _ hrun)
  ⟨hfresh, hrun, hstep, hthm.1,
    (hthm.2 _ _ _ _ hstep).2.2 (by
      rintro ⟨ev, hev, -, hk⟩
      simp only [nameWorld, List.mem_cons, List.mem_singleton, List.not_mem_nil, or_false] at hev
      rcases hev with rfl | rfl | rfl | rfl <;> exact absurd hk (by decide))⟩
/-- C5: for a running game with a non-empty snake, a tick that returns leaves the snake with
the moved head appended: when the head does not eat the fruit the oldest segment is dropped,
the others keep their order and the length is unchanged; when it eats the fruit nothing is
dropped and the length grows by exactly one.  Such a tick does return, on the world
`worldFor c`, when the board has a cell `c` free of the snake and, in case the tick eats, the
score division is defined and the ticker created at line 324 has a positive interval; when
it eats and that interval is not positive, the tick panics in `time.NewTicker`, after the head
has been appended. -/
theorem snake_length_tick {gEnv : gameEnvironment} {gSt : gameState}
    (hr : isRunning gSt = true) (hne : gSt.snakeCoords ≠ []) :
    (∀ (w : world) (gEnv1 : gameEnvironment) (gSt1 : gameState) (w1 : world),
      mainTick gEnv gSt w = .ok (gEnv1, gSt1, w1) →
      (eats gEnv gSt = false →
        gSt1.snakeCoords = gSt.snakeCoords.tail ++ [movedHead gEnv gSt] ∧
        gSt1.snakeCoords.length = gSt.snakeCoords.length) ∧
      (eats gEnv gSt = true →
        gSt1.snakeCoords = gSt.snakeCoords ++ [movedHead gEnv gSt] ∧
        gSt1.snakeCoords.length = gSt.snakeCoords.length + 1)) ∧
    (∀ c : coords, onBoard gEnv c → c ∉ gSt.snakeCoords ++ [movedHead gEnv gSt] →
      (eats gEnv gSt = true → gSt.stepsToFruit + 1 ≠ 0) →
      (eats gEnv gSt = true → 0 < eatInterval gEnv gSt) →
      ∃ gEnv1 gSt1 w1, mainTick gEnv gSt (worldFor c) = .ok (gEnv1, gSt1, w1)) ∧
    (eats gEnv gSt = true → gSt.stepsToFruit + 1 ≠ 0 → eatInterval gEnv gSt ≤ 0 →
      (arrived gEnv gSt).snakeCoords = gSt.snakeCoords ++ [movedHead gEnv gSt] ∧
      ∀ w : world, mainTick gEnv gSt w = .error .nonPositiveInterval) := by
  refine ⟨?_, fun c hc hfree hdiv hint => mainTick_returns gEnv gSt hr hdiv hint c hc hfree,
    fun he hdiv hint =>
      ⟨arrived_snakeCoords gEnv gSt, fun w => mainTick_interval_panic gEnv gSt hr he hdiv hint w⟩⟩
  intro w gEnv1 gSt1 w1 h
  obtain ⟨m, hm, hbody, -⟩ := mainTick_body hr h
  obtain ⟨-, -, -, -, -, hsn, -⟩ := hbody
  have hms := tickMove_snakeCoords hm hne
  have hl : 0 < gSt.snakeCoords.length := List.length_pos.2 hne
  constructor
  · intro he
    rw [he] at hms
    rw [hsn, hms]
    simp only [Bool.false_eq_true, if_false, List.length_append, List.length_tail,
      List.length_singleton, true_and]
    omega
  · intro he
    rw [he] at hms
    rw [hsn, hms]
    simp

/-- C5, witness: the first tick of the scoring scenario moves the single segment from (5,5)
to (5,4) without eating, and the second one eats the fruit and makes the snake two long. -/
theorem snake_length_tick_witness :
    isRunning (scenarioState false) = true ∧ (scenarioState false).snakeCoords ≠ [] ∧
    mainTick boardEnv (scenarioState false) (drawsWorld []) =
      .ok (boardEnv, scenarioMid false, drawsWorld []) ∧
    eats boardEnv (scenarioState false) = false ∧
    (scenarioMid false).snakeCoords =
      (scenarioState false).snakeCoords.tail ++ [movedHead boardEnv (scenarioState false)] ∧
    (scenarioMid false).snakeCoords.length = (scenarioState false).snakeCoords.length ∧
    mainTick boardEnv (scenarioMid false) (drawsWorld [1, 1, 0]) =
      .ok (boardEnv, scenarioEnd false, drawsWorld []) ∧
    eats boardEnv (scenarioMid false) = true ∧
    (scenarioEnd false).snakeCoords.length = (scenarioMid false).snakeCoords.length + 1 :=
  have hr : isRunning (scenarioState false) = true := by rfl
  have hne : (scenarioState false).snakeCoords ≠ [] := by decide
  have hstep : mainTick boardEnv (scenarioState false) (drawsWorld []) =
      .ok (boardEnv, scenarioMid false, drawsWorld []) := by rfl
  have he : eats boardEnv (scenarioState false) = false := by rfl
  have hthm := ((snake_length_tick hr hne).1 _ _ _ _ hstep).1 he
  ⟨hr, hne, hstep, he, hthm.1, hthm.2, by rfl, by rfl, by rfl⟩

/-- C6: in Eli mode, on a board of at least one column and one row, with the head on the
board and a cardinal queued direction `(dx, dy)`, the head after a tick is
`((x + dx) mod boardWidth, (y + dy) mod boardHeight)`, again on the board; the boundary check
of that tick does not call the game-over handler (it returns the state unchanged); and the
tick returns, on the world `worldFor c`, when the board has a cell `c` free of the snake and,
in case it eats the fruit, the score division is defined and the ticker created at line 324
has a positive interval. -/
theorem wrap_tick_head {gEnv : gameEnvironment} {gSt : gameState}
    (hr : isRunning gSt = true) (hmode : gSt.eliMode = true)
    (hW : 1 ≤ gEnv.boardWidth) (hH : 1 ≤ gEnv.boardHeight)
    (hin : onBoard gEnv gSt.snakeHeadCoords)
    (hdir : isCardinal gSt.inputDirX gSt.inputDirY) :
    movedHead gEnv gSt =
      { x := (gSt.snakeHeadCoords.x + gSt.inputDirX) % gEnv.boardWidth,
        y := (gSt.snakeHeadCoords.y + gSt.inputDirY) % gEnv.boardHeight } ∧
    onBoard gEnv (movedHead gEnv gSt) ∧
    (∀ (w : world) (gEnv1 : gameEnvironment) (gSt1 : gameState) (w1 : world),
      mainTick gEnv gSt w = .ok (gEnv1, gSt1, w1) →
      gSt1.snakeHeadCoords = movedHead gEnv gSt ∧ onBoard gEnv1 gSt1.snakeHeadCoords) ∧
    (∀ (m : gameState) (w : world), tickMove gEnv gSt = .ok m →
      boundaryViolation gEnv m = false ∧ headOutsideBoard gEnv m = false ∧
      tickBoundaryCheck gEnv m w = .ok (gEnv, m, w)) ∧
    (∀ c : coords, onBoard gEnv c → c ∉ gSt.snakeCoords ++ [movedHead gEnv gSt] →
      (eats gEnv gSt = true → gSt.stepsToFruit + 1 ≠ 0) →
      (eats gEnv gSt = true → 0 < eatInterval gEnv gSt) →
      ∃ gEnv1 gSt1 w1, mainTick gEnv gSt (worldFor c) = .ok (gEnv1, gSt1, w1)) := by
  obtain ⟨i1, i2, i3, i4⟩ := hin
  have hdx : -1 ≤ gSt.inputDirX ∧ gSt.inputDirX ≤ 1 := by
    unfold isCardinal at hdir; omega
  have hdy : -1 ≤ gSt.inputDirY ∧ gSt.inputDirY ≤ 1 := by
    unfold isCardinal at hdir; omega
  have hx : (movedHead gEnv gSt).x =
      (gSt.snakeHeadCoords.x + gSt.inputDirX) % gEnv.boardWidth := by
    rw [movedHead_x, if_pos hmode]
    exact wrap_emod _ _ hW (by omega) (by omega)
  have hy : (movedHead gEnv gSt).y =
      (gSt.snakeHeadCoords.y + gSt.inputDirY) % gEnv.boardHeight := by
    rw [movedHead_y, if_pos hmode]
    exact wrap_emod _ _ hH (by omega) (by omega)
  have hon : onBoard gEnv (movedHead gEnv gSt) := by
    unfold onBoard
    rw [hx, hy]
    exact ⟨Int.emod_nonneg _ (by omega), Int.emod_lt_of_pos _ (by omega),
      Int.emod_nonneg _ (by omega), Int.emod_lt_of_pos _ (by omega)⟩
  refine ⟨(coords_eq_iff _ _).2 ⟨hx, hy⟩, hon, ?_, ?_,
    fun c hc hfree hdiv hint => mainTick_returns gEnv gSt hr hdiv hint c hc hfree⟩
  · intro w gEnv1 gSt1 w1 h
    obtain ⟨m, hm, hbody, henv⟩ := mainTick_body hr h
    obtain ⟨-, -, -, -, hhead, -⟩ := hbody
    obtain ⟨-, -, -, -, hmh, -⟩ := tickMove_common hm
    have : gSt1.snakeHeadCoords = movedHead gEnv gSt := hhead.trans hmh
    exact ⟨this, by rw [this]; exact (onBoard_envFrame henv _).2 hon⟩
  · intro m w hm
    obtain ⟨-, -, -, -, hmh, heli, -⟩ := tickMove_common hm
    have hb : boundaryViolation gEnv m = false := by
      simp [boundaryViolation, heli, hmode]
    have ho : headOutsideBoard gEnv m = false := by
      obtain ⟨o1, o2, o3, o4⟩ := hon
      unfold headOutsideBoard
      rw [hmh]
      simp only [Bool.or_eq_false_iff, decide_eq_false_iff_not]
      omega
    refine ⟨hb, ho, ?_⟩
    simp [tickBoundaryCheck, hb]

/-- C6, witness: in Eli mode on the 10 by 10 board, the head at (5,0) heading up comes back
in at (5,9); the boundary check does not fire and the game is still running after the tick. -/
theorem wrap_tick_head_witness :
    isRunning wrapState = true ∧ wrapState.eliMode = true ∧
    onBoard boardEnv wrapState.snakeHeadCoords ∧
    isCardinal wrapState.inputDirX wrapState.inputDirY ∧
    movedHead boardEnv wrapState = { x := 5, y := 9 } ∧
    mainTick boardEnv wrapState (drawsWorld []) =
      .ok (boardEnv, wrapStateEnd, drawsWorld []) ∧
    wrapStateEnd.snakeHeadCoords = { x := 5, y := 9 } ∧
    onBoard boardEnv wrapStateEnd.snakeHeadCoords ∧
    isRunning wrapStateEnd = true ∧
    boundaryViolation boardEnv wrapStateEnd = false :=
  have hr : isRunning wrapState = true := by rfl
  have hin : onBoard boardEnv wrapState.snakeHeadCoords := by
    unfold onBoard; decide
  have hdir : isCardinal wrapState.inputDirX wrapState.inputDirY := by
    unfold isCardinal; decide
  have hstep : mainTick boardEnv wrapState (drawsWorld []) =
      .ok (boardEnv, wrapStateEnd, drawsWorld []) := by rfl
  have hmove : tickMove boardEnv wrapState = .ok wrapStateEnd := by rfl
  have hthm := wrap_tick_head hr (by rfl) (by decide) (by decide) hin hdir
  have htick := hthm.2.2.1 _ _ _ _ hstep
  ⟨hr, by rfl, hin, hdir, hthm.1, hstep, htick.1, htick.2, by rfl,
    (hthm.2.2.2.1 wrapStateEnd (drawsWorld []) hmove).1⟩

/-- C7: reversal rejection.  For a state whose active direction is a cardinal unit vector
with `snakeDirX != 0`, the Up and Down keys set the queued direction to (0,-1) and (0,1) and
the Left and Right keys leave it unchanged; symmetrically, with `snakeDirY != 0`, Left and
Right set it to (-1,0) and (1,0) and Up and Down leave it unchanged.  Consequently, from any
state the loop reaches, after any sequence of arrow keys (which is always handled and does not
touch the active direction) the next tick of the running game commits the queued direction,
which is a cardinal unit vector equal or perpendicular to the direction active before, never
its negation. -/
theorem arrow_keys_never_reverse :
    (∀ (gEnv : gameEnvironment) (gSt : gameState) (ev : Event) (w : world),
      isCardinal gSt.snakeDirX gSt.snakeDirY → ev.EvType = .EventKey →
      (interruptPause gSt).inputDirX = gSt.inputDirX ∧
      (interruptPause gSt).inputDirY = gSt.inputDirY ∧
      (gSt.snakeDirX ≠ 0 →
        (ev.Key = .KeyArrowUp → mainKeyEvent gEnv gSt ev w =
          .ok (gEnv, { interruptPause gSt with inputDirX := 0, inputDirY := -1 }, w)) ∧
        (ev.Key = .KeyArrowDown → mainKeyEvent gEnv gSt ev w =
          .ok (gEnv, { interruptPause gSt with inputDirX := 0, inputDirY := 1 }, w)) ∧
        (ev.Key = .KeyArrowLeft ∨ ev.Key = .KeyArrowRight →
          mainKeyEvent gEnv gSt ev w = .ok (gEnv, interruptPause gSt, w))) ∧
      (gSt.snakeDirY ≠ 0 →
        (ev.Key = .KeyArrowLeft → mainKeyEvent gEnv gSt ev w =
          .ok (gEnv, { interruptPause gSt with inputDirX := -1, inputDirY := 0 }, w)) ∧
        (ev.Key = .KeyArrowRight → mainKeyEvent gEnv gSt ev w =
          .ok (gEnv, { interruptPause gSt with inputDirX := 1, inputDirY := 0 }, w)) ∧
        (ev.Key = .KeyArrowUp ∨ ev.Key = .KeyArrowDown →
          mainKeyEvent gEnv gSt ev w = .ok (gEnv, interruptPause gSt, w)))) ∧
    (∀ (gEnv0 : gameEnvironment) (gSt0 : gameState) (gEnv : gameEnvironment) (gSt : gameState)
      (keys : List (loopEvent × world)),
      (isFreshRound gEnv0 gSt0 ∨ isInitial gEnv0 gSt0) → Reaches gEnv0 gSt0 gEnv gSt →
      (∀ p ∈ keys, isArrowEvent p.1) →
      ∃ gSt1, mainRun gEnv gSt keys = .ok (gEnv, gSt1) ∧
        gSt1.snakeDirX = gSt.snakeDirX ∧ gSt1.snakeDirY = gSt.snakeDirY ∧
        ∀ (w : world) (gEnv2 : gameEnvironment) (gSt2 : gameState) (w2 : world),
          isRunning gSt1 = true → mainTick gEnv gSt1 w = .ok (gEnv2, gSt2, w2) →
          gSt2.snakeDirX = gSt1.inputDirX ∧ gSt2.snakeDirY = gSt1.inputDirY ∧
          isCardinal gSt2.snakeDirX gSt2.snakeDirY ∧
          ((gSt2.snakeDirX = gSt.snakeDirX ∧ gSt2.snakeDirY = gSt.snakeDirY) ∨
            gSt2.snakeDirX * gSt.snakeDirX + gSt2.snakeDirY * gSt.snakeDirY = 0) ∧
          ¬ (gSt2.snakeDirX = -gSt.snakeDirX ∧ gSt2.snakeDirY = -gSt.snakeDirY)) := by
  constructor
  · intro gEnv gSt ev w hcard hk
    obtain ⟨p1, p2, p3, p4, -⟩ := interruptPause_fields gSt
    unfold isCardinal at hcard
    refine ⟨p1, p2, ?_, ?_⟩
    · intro hx
      have hy : gSt.snakeDirY = 0 := by omega
      refine ⟨?_, ?_, ?_⟩
      · intro h
        simp [mainKeyEvent, hk, h, p4, hy]
      · intro h
        simp [mainKeyEvent, hk, h, p4, hy]
      · intro h
        rcases h with h | h <;> simp [mainKeyEvent, hk, h, p3, hx]
    · intro hy
      have hx : gSt.snakeDirX = 0 := by omega
      refine ⟨?_, ?_, ?_⟩
      · intro h
        simp [mainKeyEvent, hk, h, p3, hx]
      · intro h
        simp [mainKeyEvent, hk, h, p3, hx]
      · intro h
        rcases h with h | h <;> simp [mainKeyEvent, hk, h, p4, hy]
  · intro gEnv0 gSt0 gEnv gSt keys h0 hreach hkeys
    obtain ⟨gSt1, hrun, d1, d2⟩ := mainRun_arrows keys gEnv gSt hkeys
    refine ⟨gSt1, hrun, d1, d2, ?_⟩
    intro w gEnv2 gSt2 w2 hr htick
    have hI1 : Inv gEnv gSt1 :=
      Inv_of_Reaches (Inv_of_start h0) (Reaches_trans hreach (Reaches_of_mainRun _ _ _ _ _ hrun))
    obtain ⟨m, hm, hbody, -⟩ := mainTick_body hr htick
    obtain ⟨b1, b2, -⟩ := hbody
    obtain ⟨c1, c2, -⟩ := tickMove_common hm
    have e1 : gSt2.snakeDirX = gSt1.inputDirX := b1.trans c1
    have e2 : gSt2.snakeDirY = gSt1.inputDirY := b2.trans c2
    have hc := hI1.input_cardinal
    have hd := hI1.dir_cardinal
    have hn := hI1.input_not_reverse
    rw [← e1, ← e2] at hc hn
    rw [d1, d2] at hd hn
    refine ⟨e1, e2, hc, ?_, hn⟩
    unfold isCardinal at hc hd
    rcases hc with ⟨a1, a2 | a2⟩ | ⟨a1, a2 | a2⟩ <;>
      rcases hd with ⟨g1, g2 | g2⟩ | ⟨g1, g2 | g2⟩ <;>
      simp [a1, a2, g1, g2] at hn ⊢

/-- C7, witness: a fresh round on the 10 by 10 board heads up; the Down key is rejected, the
Left key is queued, and the next tick commits (-1,0), perpendicular to (0,-1) and not its
negation. -/
theorem arrow_keys_never_reverse_witness :
    isFreshRound boardEnv (freshUp false) ∧
    mainKeyEvent boardEnv (freshUp false) (keyPress .KeyArrowDown) (drawsWorld []) =
      .ok (boardEnv, interruptPause (freshUp false), drawsWorld []) ∧
    mainRun boardEnv (freshUp false) [pressed .KeyArrowDown, pressed .KeyArrowLeft] =
      .ok (boardEnv, queuedLeft) ∧
    mainTick boardEnv queuedLeft (drawsWorld [0, 0, 0]) =
      .ok (boardEnv, committedLeft, drawsWorld []) ∧
    committedLeft.snakeDirX = -1 ∧ committedLeft.snakeDirY = 0 ∧
    committedLeft.snakeDirX * (freshUp false).snakeDirX +
      committedLeft.snakeDirY * (freshUp false).snakeDirY = 0 ∧
    ¬ (committedLeft.snakeDirX = -(freshUp false).snakeDirX ∧
        committedLeft.snakeDirY = -(freshUp false).snakeDirY) := by
  have hfresh : isFreshRound boardEnv (freshUp false) :=
    ⟨false, drawsWorld [0], drawsWorld [], by rfl⟩
  have hcard : isCardinal (freshUp false).snakeDirX (freshUp false).snakeDirY := by
    unfold isCardinal; decide
  have hkeys : ∀ p ∈ [pressed .KeyArrowDown, pressed .KeyArrowLeft], isArrowEvent p.1 := by
    intro p hp
    simp only [List.mem_cons, List.mem_singleton, List.not_mem_nil, or_false] at hp
    rcases hp with rfl | rfl
    · exact ⟨keyPress .KeyArrowDown, rfl, rfl, Or.inr (Or.inr (Or.inr rfl))⟩
    · exact ⟨keyPress .KeyArrowLeft, rfl, rfl, Or.inl rfl⟩
  have hrun : mainRun boardEnv (freshUp false) [pressed .KeyArrowDown, pressed .KeyArrowLeft] =
      .ok (boardEnv, queuedLeft) := by rfl
  have hdown := ((arrow_keys_never_reverse.1 boardEnv (freshUp false) (keyPress .KeyArrowDown)
      (drawsWorld []) hcard rfl).2.2.2 (by decide)).2.2 (Or.inr rfl)
  obtain ⟨gSt1, hrun1, -, -, htick⟩ :=
    arrow_keys_never_reverse.2 boardEnv (freshUp false) boardEnv (freshUp false) _
      (Or.inl hfresh) Reaches.start hkeys
  have hg : gSt1 = queuedLeft := by
    rw [hrun] at hrun1
    cases hrun1
    rfl
  subst hg
  have hstep : mainTick boardEnv queuedLeft (drawsWorld [0, 0, 0]) =
      .ok (boardEnv, committedLeft, drawsWorld []) := by rfl
  have ht := htick _ _ _ _ (by rfl) hstep
  exact ⟨hfresh, hdown, hrun, hstep, by rfl, by rfl, by decide, ht.2.2.2.2⟩
/-- C8, counterexample: on the 10 by 10 board a special fruit placed at distance 2 is 12
steps old in a state reached from a fresh round; on the next tick it expires
(13 > 2 + 10), and that same tick, reading the draws 5, 3, 0, places the replacement at
(5,3): at the end of the tick `isFruit` is true, not false. -/
theorem expiry_tick_places_fruit :
    isFreshRound boardEnv (freshUp false) ∧
    mainRun boardEnv (freshUp false) toExpiry = .ok (boardEnv, expiryState) ∧
    isRunning expiryState = true ∧
    expiryState.isFruit = true ∧ expiryState.isSpecialFruit = true ∧
    expiryState.stepsToFruit + 1 > expiryState.fruitDistance + 10 ∧
    mainTick boardEnv expiryState (drawsWorld [5, 3, 0]) =
      .ok (boardEnv, scenarioState false, drawsWorld []) ∧
    (scenarioState false).isFruit = true ∧
    (scenarioState false).fruitCoords = { x := 5, y := 3 } ∧
    (scenarioState false).stepsToFruit = 0 := by
  refine ⟨⟨false, drawsWorld [0], drawsWorld [], by rfl⟩, by rfl, by rfl, by rfl, by rfl,
    by decide, by rfl, by rfl, by rfl, by rfl⟩

/-- C8, amended: on a tick of a running game on which a special fruit is present and
`stepsToFruit` after the increment exceeds `fruitDistance + 10`, the fruit is removed and not
eaten, even when the head is on its cell: after a tick that returns `fruits`,
`specialFruits` and `tickerDelay` are unchanged.  When the game is still running at the end of
the tick, the score is unchanged and the replacement has been placed on that same tick:
`isFruit` is true, with `stepsToFruit = 0`, on a cell of the board that is free of the snake.
When the tick ends the round, the slot stays empty and the score is kept or, after a cancelled
name entry, zeroed.  The tick does return, on the world `worldFor c`, when the board has a
cell `c` free of the snake. -/
theorem expired_fruit_is_replaced {gEnv : gameEnvironment} {gSt : gameState}
    (hr : isRunning gSt = true)
    (hfruit : gSt.isFruit = true) (hspecial : gSt.isSpecialFruit = true)
    (hold : gSt.stepsToFruit + 1 > gSt.fruitDistance + 10) :
    eats gEnv gSt = false ∧
    (∀ (w : world) (gEnv1 : gameEnvironment) (gSt1 : gameState) (w1 : world),
      mainTick gEnv gSt w = .ok (gEnv1, gSt1, w1) →
      gSt1.fruits = gSt.fruits ∧ gSt1.specialFruits = gSt.specialFruits ∧
      gSt1.tickerDelay = gSt.tickerDelay ∧
      (gSt1.gameStarted = true →
        gSt1.score = gSt.score ∧ gSt1.isFruit = true ∧ gSt1.stepsToFruit = 0 ∧
        gSt1.fruitCoords ∉ gSt1.snakeCoords ∧ onBoard gEnv gSt1.fruitCoords ∧
        gSt1.fruitDistance = manhattan gSt1.snakeHeadCoords gSt1.fruitCoords) ∧
      (gSt1.gameStarted = false →
        gSt1.isFruit = false ∧ gSt1.isSpecialFruit = false ∧
        (gSt1.score = gSt.score ∨ (gSt1.score = 0 ∧ escPressed w.events)))) ∧
    (∀ c : coords, onBoard gEnv c → c ∉ gSt.snakeCoords ++ [movedHead gEnv gSt] →
      ∃ gEnv1 gSt1 w1, mainTick gEnv gSt (worldFor c) = .ok (gEnv1, gSt1, w1)) := by
  have hexp : expires gSt = true := by
    simp [expires, hfruit, hspecial, hold]
  have he : eats gEnv gSt = false := by
    rw [eats_eq, hexp]; simp
  refine ⟨he, ?_, fun c hc hfree =>
    mainTick_returns gEnv gSt hr (fun h => by rw [he] at h; exact absurd h (by decide))
      (fun h => by rw [he] at h; exact absurd h (by decide)) c hc hfree⟩
  intro w gEnv1 gSt1 w1 h
  obtain ⟨hst, -, hov⟩ := (isRunning_iff gSt).1 hr
  obtain ⟨m, hm, hcase⟩ := mainTick_running hr h
  have hm2 : m = dropTail (arrived gEnv gSt) := by
    rcases tickMove_ok hm with ⟨he2, -⟩ | ⟨-, h2⟩
    · rw [he] at he2; exact absurd he2 (by decide)
    · exact h2
  have f1 : m.fruits = gSt.fruits := by rw [hm2]; simp
  have f2 : m.specialFruits = gSt.specialFruits := by rw [hm2]; simp
  have f3 : m.tickerDelay = gSt.tickerDelay := by rw [hm2]; simp
  have f4 : m.score = gSt.score := by rw [hm2]; simp
  have f5 : m.isFruit = false := by rw [hm2]; simp [hexp]
  have f6 : m.isSpecialFruit = false := by rw [hm2]; simp [hexp]
  have f7 : m.gameStarted = true := by rw [hm2]; simpa using hst
  have f8 : m.gameOver = false := by rw [hm2]; simpa using hov
  rcases hcase with ⟨-, -, -, hspawn⟩ | ⟨-, hsc, hst1, -⟩
  · rcases tickSpawnFruit_ok f7 f8 hspawn with ⟨hf, -⟩ | ⟨-, -, -, c, sp, s1, s2, s3, s4, s5, rfl⟩
    · rw [f5] at hf; exact absurd hf (by decide)
    · refine ⟨f1, f2, f3, ?_, ?_⟩
      · intro _
        exact ⟨f4, rfl, rfl, s1, ⟨s2, s3, s4, s5⟩, rfl⟩
      · intro hs
        rw [placeFruit_gameStarted, f7] at hs
        exact absurd hs (by decide)
  · have g1 : gSt1.gameStarted = false := by rw [hst1]; rfl
    refine ⟨?_, ?_, ?_, ?_, ?_⟩
    · rw [hst1]; exact f1
    · rw [hst1]; exact f2
    · rw [hst1]; exact f3
    · intro hs
      rw [g1] at hs
      exact absurd hs (by decide)
    · intro _
      refine ⟨by rw [hst1]; exact f5, by rw [hst1]; exact f6, ?_⟩
      rw [← f4]
      rcases hsc with h1 | ⟨-, h2, h3⟩
      · exact Or.inl h1
      · exact Or.inr ⟨h3, h2⟩

/-- C8, witness: the tick on which the special fruit of `expiryState` expires leaves the
score and the counters alone and places the replacement at (5,3). -/
theorem expired_fruit_is_replaced_witness :
    isRunning expiryState = true ∧ expiryState.isFruit = true ∧
    expiryState.isSpecialFruit = true ∧
    expiryState.stepsToFruit + 1 > expiryState.fruitDistance + 10 ∧
    mainTick boardEnv expiryState (drawsWorld [5, 3, 0]) =
      .ok (boardEnv, scenarioState false, drawsWorld []) ∧
    (scenarioState false).gameStarted = true ∧
    (scenarioState false).fruits = expiryState.fruits ∧
    (scenarioState false).specialFruits = expiryState.specialFruits ∧
    (scenarioState false).score = expiryState.score ∧
    (scenarioState false).isFruit = true ∧ (scenarioState false).stepsToFruit = 0 :=
  have hr : isRunning expiryState = true := by rfl
  have hold : expiryState.stepsToFruit + 1 > expiryState.fruitDistance + 10 := by decide
  have hstep : mainTick boardEnv expiryState (drawsWorld [5, 3, 0]) =
      .ok (boardEnv, scenarioState false, drawsWorld []) := by rfl
  have hthm := (@expired_fruit_is_replaced boardEnv expiryState hr (by rfl) (by rfl)
    hold).2.1 _ _ _ _ hstep
  have hgo := hthm.2.2.2.1 (by rfl)
  ⟨hr, by rfl, by rfl, hold, hstep, by rfl, hthm.1, hthm.2.1, hgo.1, hgo.2.1, hgo.2.2.1⟩

/-- C9: the name entry.  `readPlayerName` runs `readPlayerNameStep` on the polled events,
one after the other, until a step returns.  On a key event a step appends an allowed character
when the name is shorter than 20 and otherwise leaves the name alone; Backspace removes the
last character; Enter returns true exactly when the name has 1 to 20 characters; `Esc` returns
false; any other key, and any event that is not a key, leaves the name unchanged and does not
return.  Hence a name accepted after starting from an allowed name of at most 20 characters
has 1 to 20 characters, all allowed. -/
theorem readPlayerName_accepts :
    (∀ (name : List Char) (ev : Event) (rest : List Event),
      readPlayerName name [] = .error .starved ∧
      (∀ name1 validName, readPlayerNameStep name ev = (name1, some validName) →
        readPlayerName name (ev :: rest) = .ok (validName, name1, rest)) ∧
      (∀ name1, readPlayerNameStep name ev = (name1, none) →
        readPlayerName name (ev :: rest) = readPlayerName name1 rest)) ∧
    (∀ (name : List Char) (ev : Event),
      (ev.EvType ≠ .EventKey → readPlayerNameStep name ev = (name, none)) ∧
      (ev.EvType = .EventKey →
        (isNameChar ev.Ch = true →
          readPlayerNameStep name ev =
            (if name.length < 20 then name ++ [ev.Ch] else name, none)) ∧
        (isNameChar ev.Ch = false →
          (ev.Key = Key.KeyBackspace ∨ ev.Key = .KeyBackspace2 →
            readPlayerNameStep name ev = (name.dropLast, none)) ∧
          (ev.Key = .KeyEnter →
            readPlayerNameStep name ev =
              (name, if 1 ≤ name.length ∧ name.length ≤ 20 then some true else none)) ∧
          (ev.Key = .KeyEsc → readPlayerNameStep name ev = (name, some false)) ∧
          (ev.Key ≠ Key.KeyBackspace → ev.Key ≠ .KeyBackspace2 → ev.Key ≠ .KeyEnter →
            ev.Key ≠ .KeyEsc → readPlayerNameStep name ev = (name, none))))) ∧
    (∀ (name : List Char) (evs : List Event) (name1 : List Char) (rest : List Event),
      name.length ≤ 20 → (∀ c ∈ name, isNameChar c = true) →
      readPlayerName name evs = .ok (true, name1, rest) →
      1 ≤ name1.length ∧ name1.length ≤ 20 ∧ ∀ c ∈ name1, isNameChar c = true) := by
  refine ⟨fun name ev rest => ⟨rfl, ?_, ?_⟩, ?_, ?_⟩
  · intro name1 v h
    rw [readPlayerName, h]
  · intro name1 h
    rw [readPlayerName, h]
  · intro name ev
    refine ⟨fun h => by simp [readPlayerNameStep, h], fun hk => ⟨?_, ?_⟩⟩
    · intro hc
      simp only [readPlayerNameStep, hk, hc, if_true]
      split_ifs <;> rfl
    · intro hc
      unfold readPlayerNameStep
      rw [if_pos hk, hc, if_neg (by decide)]
      refine ⟨?_, ?_, ?_, ?_⟩
      · intro hb
        rw [if_pos hb]
        split_ifs with hl
        · rfl
        · have : name = [] := List.length_eq_zero.1 (by omega)
          rw [this]; rfl
      · intro he
        rw [if_neg (by rw [he]; decide), if_pos he]
        by_cases hl : name.length > 0 ∧ name.length ≤ 20
        · rw [if_pos hl, if_pos (by omega)]
        · rw [if_neg hl, if_neg (by omega)]
      · intro he
        rw [if_neg (by rw [he]; decide), if_neg (by rw [he]; decide), if_pos he]
      · intro n1 n2 n3 n4
        rw [if_neg (by rintro (h | h) <;> contradiction), if_neg n3, if_neg n4]
  · intro name evs name1 rest hl hall h
    obtain ⟨⟨-, a2⟩, a3, a4⟩ := readPlayerName_allowed evs name name1 rest ⟨hl, hall⟩ h
    exact ⟨a3, a4, a2⟩

/-- C9, witness: the scenario of the specification.  From the empty name, the keys `a`,
Backspace, `B`, `o`, `b`, `-`, `1`, Enter make `readPlayerName` return true with the name
`Bob-1`, which has 1 to 20 characters, all allowed. -/
theorem readPlayerName_accepts_witness :
    readPlayerName [] bobKeys = .ok (true, ['B', 'o', 'b', '-', '1'], []) ∧
    String.mk ['B', 'o', 'b', '-', '1'] = "Bob-1" ∧
    readPlayerNameStep [] (charPress 'a') = (['a'], none) ∧
    readPlayerNameStep ['a'] (keyPress .KeyBackspace2) = ([], none) ∧
    (1 ≤ ['B', 'o', 'b', '-', '1'].length ∧ ['B', 'o', 'b', '-', '1'].length ≤ 20 ∧
      ∀ c ∈ ['B', 'o', 'b', '-', '1'], isNameChar c = true) :=
  have hrun : readPlayerName [] bobKeys = .ok (true, ['B', 'o', 'b', '-', '1'], []) := by rfl
  ⟨hrun, by rfl, by rfl, by rfl,
    readPlayerName_accepts.2.2 [] bobKeys _ _ (by decide) (by simp) hrun⟩
/-- C10: in every state the loop reaches from a freshly started round (or from the start of
the program), in either mode, while the game is started the segments of the snake are pairwise
distinct and the last one is the head; in particular this holds when the game is still running
at the end of a tick.  On a tick of the running game, when the moved head equals another
segment that remains after the move, the self-collision check holds and calls the game-over
handler, and the tick ends with `gameStarted` false. -/
theorem snake_segments_distinct {gEnv0 : gameEnvironment} {gSt0 : gameState}
    {gEnv : gameEnvironment} {gSt : gameState}
    (h0 : isFreshRound gEnv0 gSt0 ∨ isInitial gEnv0 gSt0)
    (hreach : Reaches gEnv0 gSt0 gEnv gSt) :
    (gSt.gameStarted = true →
      gSt.snakeCoords.Nodup ∧ gSt.snakeCoords.getLast? = some gSt.snakeHeadCoords) ∧
    ∀ (w : world) (gEnv1 : gameEnvironment) (gSt1 : gameState) (w1 : world),
      isRunning gSt = true → mainTick gEnv gSt w = .ok (gEnv1, gSt1, w1) →
      (isRunning gSt1 = true →
        gSt1.snakeCoords.Nodup ∧ gSt1.snakeCoords.getLast? = some gSt1.snakeHeadCoords) ∧
      ∃ m, tickMove gEnv gSt = .ok m ∧ gSt1.snakeCoords = m.snakeCoords ∧
        gSt1.snakeHeadCoords = m.snakeHeadCoords ∧
        (m.snakeHeadCoords ∈ m.snakeCoords.dropLast →
          selfCollision m = true ∧
          (∀ (e : gameEnvironment) (v : world), tickSelfCheck e m v = handleGameOver e m v) ∧
          gSt1.gameStarted = false) := by
  have hI : Inv gEnv gSt := Inv_of_Reaches (Inv_of_start h0) hreach
  refine ⟨fun hs => ⟨hI.snake_nodup hs, hI.snake_last hs⟩, ?_⟩
  intro w gEnv1 gSt1 w1 hr h
  have hI1 : Inv gEnv1 gSt1 := Inv_mainTick hI h
  refine ⟨fun hr1 => ?_, ?_⟩
  · have hs := ((isRunning_iff gSt1).1 hr1).1
    exact ⟨hI1.snake_nodup hs, hI1.snake_last hs⟩
  · obtain ⟨m, hm, hcase⟩ := mainTick_running hr h
    obtain ⟨m2, hm2, hbody, -⟩ := mainTick_body hr h
    have hmm : m2 = m := by
      rw [hm] at hm2
      cases hm2
      rfl
    subst hmm
    obtain ⟨-, -, -, -, b5, b6, -⟩ := hbody
    refine ⟨m2, hm, b6, b5, ?_⟩
    intro hmem
    have hsc : selfCollision m2 = true := by
      unfold selfCollision
      have hlen : 0 < m2.snakeCoords.dropLast.length := List.length_pos_of_mem hmem
      rw [List.length_dropLast] at hlen
      simp only [Bool.and_eq_true, decide_eq_true_eq, areCoordsInSlice_eq_true_iff]
      exact ⟨by omega, hmem⟩
    refine ⟨hsc, fun e v => by simp [tickSelfCheck, hsc], ?_⟩
    rcases hcase with ⟨-, hno, -⟩ | ⟨-, -, hst, -⟩
    · rw [hsc] at hno
      exact absurd hno (by decide)
    · rw [hst]; rfl

/-- C10, witness: a round started on the 10 by 10 board eats four fruits and coils up; its
five segments are pairwise distinct until the head moves onto the segment at (5,1), and that
tick calls the game-over handler and ends with `gameStarted` false. -/
theorem snake_segments_distinct_witness :
    isFreshRound boardEnv (freshUp false) ∧
    mainRun boardEnv (freshUp false) toCoil = .ok (boardEnv, coiledState) ∧
    coiledState.snakeCoords.Nodup ∧
    coiledState.snakeCoords.getLast? = some coiledState.snakeHeadCoords ∧
    mainTick boardEnv coiledState escWorld =
      .ok (boardEnv, coiledEnd, { escWorld with events := [] }) ∧
    coiledEnd.snakeHeadCoords ∈ coiledEnd.snakeCoords.dropLast ∧
    coiledEnd.gameStarted = false := by
  have hfresh : isFreshRound boardEnv (freshUp false) :=
    ⟨false, drawsWorld [0], drawsWorld [], by rfl⟩
  have hrun : mainRun boardEnv (freshUp false) toCoil = .ok (boardEnv, coiledState) := by rfl
  have hstep : mainTick boardEnv coiledState escWorld =
      .ok (boardEnv, coiledEnd, { escWorld with events := [] }) := by rfl
  have hthm := snake_segments_distinct (Or.inl hfresh) (Reaches_of_mainRun _ _ _ _ _ hrun)
  have hnd := hthm.1 (by rfl)
  obtain ⟨-, m, hm, hsn, hhd, hcol⟩ := hthm.2 _ _ _ _ (by rfl) hstep
  have hmem : coiledEnd.snakeHeadCoords ∈ coiledEnd.snakeCoords.dropLast := by decide
  exact ⟨hfresh, hrun, hnd.1, hnd.2, hstep, hmem,
    (hcol (by rw [← hsn, ← hhd]; exact hmem)).2.2⟩

/-- C11: in any state the loop reaches from a freshly started round (or from the start of the
program), a tick that returns and leaves the game running was a tick of the running game, and
at its end the fruit slot is filled (`isFruit` is true) with a cell of the board that is on no
segment of the snake.  When the tick placed the fruit (there was none, or it expired, or it
was eaten), `stepsToFruit` is 0 and `fruitDistance` is the Manhattan distance
`|head.x - fruit.x| + |head.y - fruit.y|` from the just-moved head; otherwise the fruit is
the one of before, one step older.  A tick of the running game does return, on the world
`worldFor c`, when the board has a cell `c` free of the snake and, in case the tick eats the
fruit, the ticker created at line 324 has a positive interval; when it eats and that interval
is not positive, the tick panics in `time.NewTicker` and places no fruit.  Since the start of
the program the interval is positive when fewer than 780 fruits have been eaten in the
round. -/
theorem fruit_present_after_tick {gEnv0 : gameEnvironment} {gSt0 : gameState}
    {gEnv : gameEnvironment} {gSt : gameState}
    (h0 : isFreshRound gEnv0 gSt0 ∨ isInitial gEnv0 gSt0)
    (hreach : Reaches gEnv0 gSt0 gEnv gSt) :
    (∀ (w : world) (gEnv1 : gameEnvironment) (gSt1 : gameState) (w1 : world),
      mainTick gEnv gSt w = .ok (gEnv1, gSt1, w1) → isRunning gSt1 = true →
      isRunning gSt = true ∧
      gSt1.isFruit = true ∧ onBoard gEnv1 gSt1.fruitCoords ∧
      gSt1.fruitCoords ∉ gSt1.snakeCoords ∧
      gSt1.snakeHeadCoords = movedHead gEnv gSt ∧
      ((gSt.isFruit = false ∨ expires gSt = true ∨ eats gEnv gSt = true) →
        gSt1.stepsToFruit = 0 ∧
        gSt1.fruitDistance =
          |gSt1.snakeHeadCoords.x - gSt1.fruitCoords.x| +
            |gSt1.snakeHeadCoords.y - gSt1.fruitCoords.y|) ∧
      (gSt.isFruit = true → expires gSt = false → eats gEnv gSt = false →
        gSt1.fruitCoords = gSt.fruitCoords ∧ gSt1.stepsToFruit = gSt.stepsToFruit + 1 ∧
        gSt1.fruitDistance = gSt.fruitDistance)) ∧
    (isRunning gSt = true → (eats gEnv gSt = true → 0 < eatInterval gEnv gSt) →
      ∀ c : coords, onBoard gEnv c → c ∉ gSt.snakeCoords ++ [movedHead gEnv gSt] →
      ∃ gEnv1 gSt1 w1, mainTick gEnv gSt (worldFor c) = .ok (gEnv1, gSt1, w1)) ∧
    (isRunning gSt = true → eats gEnv gSt = true → eatInterval gEnv gSt ≤ 0 →
      ∀ w : world, mainTick gEnv gSt w = .error .nonPositiveInterval) ∧
    (isInitial gEnv0 gSt0 → isRunning gSt = true → gSt.fruits + gSt.specialFruits < 780 →
      ∀ c : coords, onBoard gEnv c → c ∉ gSt.snakeCoords ++ [movedHead gEnv gSt] →
      ∃ gEnv1 gSt1 w1, mainTick gEnv gSt (worldFor c) = .ok (gEnv1, gSt1, w1)) := by
  have hI : Inv gEnv gSt := Inv_of_Reaches (Inv_of_start h0) hreach
  have hsteps := hI.steps_nonneg
  refine ⟨?_, fun hr hint c hc hfree =>
      mainTick_returns gEnv gSt hr (fun _ => by omega) hint c hc hfree,
    fun hr he hint w => mainTick_interval_panic gEnv gSt hr he (by omega) hint w,
    fun hin hr hn c hc hfree =>
      mainTick_returns gEnv gSt hr (fun _ => by omega)
        (fun _ => (eatInterval_pos_iff hin hreach).2 (Or.inl hn)) c hc hfree⟩
  intro w gEnv1 gSt1 w1 h hr1
  have hr : isRunning gSt = true := by
    by_contra hn
    rw [mainTick_not_running w (by simpa using hn)] at h
    cases h
    exact hn hr1
  obtain ⟨hst, hpa, hov⟩ := (isRunning_iff gSt).1 hr
  obtain ⟨m, hm, hcase⟩ := mainTick_running hr h
  obtain ⟨-, -, -, -, -, -, -, m8⟩ := Inv_moved hI hr hm
  obtain ⟨-, -, -, -, c5, -, c7, -, c9, -, c11, c12, c13, -, -⟩ := tickMove_common hm
  have hmf := tickMove_isFruit hm
  rcases hcase with ⟨-, -, rfl, hsp⟩ | ⟨-, -, hst1, -⟩
  swap
  · have : gSt1.gameStarted = false := by rw [hst1]; rfl
    rw [((isRunning_iff gSt1).1 hr1).1] at this
    exact absurd this (by decide)
  rcases tickSpawnFruit_ok (c7.trans hst) (c9.trans hov) hsp with
    ⟨hf, rfl⟩ | ⟨hf, -, -, c, sp, s1, s2, s3, s4, s5, rfl⟩
  · rw [hmf] at hf
    simp only [Bool.and_eq_true, Bool.not_eq_true'] at hf
    obtain ⟨⟨f1, f2⟩, f3⟩ := hf
    have hf2 : gSt1.isFruit = true := by rw [hmf]; simp [f1, f2, f3]
    refine ⟨hr, hf2, (m8 hf2).2, (m8 hf2).1, c5, ?_, fun _ _ _ => ⟨c11, c13, c12⟩⟩
    rintro (h1 | h1 | h1)
    · rw [f1] at h1; exact absurd h1 (by decide)
    · rw [f2] at h1; exact absurd h1 (by decide)
    · rw [f3] at h1; exact absurd h1 (by decide)
  · refine ⟨hr, rfl, ⟨s2, s3, s4, s5⟩, s1, c5, fun _ => ⟨rfl, rfl⟩, ?_⟩
    intro h1 h2 h3
    rw [hmf, h1, h2, h3] at hf
    exact absurd hf (by decide)

/-- C11, witness: in the scoring scenario the tick that eats the fruit at (5,3) places the next
one at (1,1), a cell of the board off the snake, with `stepsToFruit = 0` and
`fruitDistance = |5 - 1| + |3 - 1| = 6`. -/
theorem fruit_present_after_tick_witness :
    isFreshRound boardEnv (freshUp false) ∧
    mainRun boardEnv (freshUp false) (toScenario 0 ++ [tickWith []]) =
      .ok (boardEnv, scenarioMid false) ∧
    mainTick boardEnv (scenarioMid false) (drawsWorld [1, 1, 0]) =
      .ok (boardEnv, scenarioEnd false, drawsWorld []) ∧
    isRunning (scenarioEnd false) = true ∧
    (scenarioEnd false).isFruit = true ∧
    onBoard boardEnv (scenarioEnd false).fruitCoords ∧
    (scenarioEnd false).fruitCoords ∉ (scenarioEnd false).snakeCoords ∧
    (scenarioEnd false).fruitCoords = { x := 1, y := 1 } ∧
    (scenarioEnd false).stepsToFruit = 0 ∧
    (scenarioEnd false).fruitDistance = 6 := by
  have hfresh : isFreshRound boardEnv (freshUp false) :=
    ⟨false, drawsWorld [0], drawsWorld [], by rfl⟩
  have hrun : mainRun boardEnv (freshUp false) (toScenario 0 ++ [tickWith []]) =
      .ok (boardEnv, scenarioMid false) := by rfl
  have hstep : mainTick boardEnv (scenarioMid false) (drawsWorld [1, 1, 0]) =
      .ok (boardEnv, scenarioEnd false, drawsWorld []) := by rfl
  have hr1 : isRunning (scenarioEnd false) = true := by rfl
  have hthm := (fruit_present_after_tick (Or.inl hfresh)
    (Reaches_of_mainRun _ _ _ _ _ hrun)).1 _ _ _ _ hstep hr1
  have hnew := hthm.2.2.2.2.2.1 (Or.inr (Or.inr (by rfl)))
  exact ⟨hfresh, hrun, hstep, hr1, hthm.2.1, hthm.2.2.1, hthm.2.2.2.1, by rfl, hnew.1, by rfl⟩
/-- C12, counterexample: in Eli mode on the 10 by 10 board, a state reached from a fresh round
has the head at (5,0) heading up and the fruit just placed at (5,9), at Manhattan distance 9.
The next tick takes the head through the wall onto the fruit: one step was counted, fewer than
the distance, and the score grows by `10 * 9 / 1 = 90`, more than 10. -/
theorem wrap_reward_exceeds_ten :
    isFreshRound boardEnv (freshUp true) ∧
    mainRun boardEnv (freshUp true) toEdge = .ok (boardEnv, edgeState) ∧
    isRunning edgeState = true ∧ edgeState.eliMode = true ∧
    edgeState.isFruit = true ∧ edgeState.isSpecialFruit = false ∧
    movedHead boardEnv edgeState = edgeState.fruitCoords ∧
    edgeState.fruitDistance = 9 ∧ edgeState.stepsToFruit + 1 = 1 ∧
    edgeState.stepsToFruit + 1 < edgeState.fruitDistance ∧
    Int.tdiv (10 * edgeState.fruitDistance) (edgeState.stepsToFruit + 1) = 90 ∧
    mainTick boardEnv edgeState (drawsWorld [0, 0, 0]) =
      .ok (boardEnv, edgeEnd, drawsWorld []) ∧
    edgeEnd.score = edgeState.score + 90 := by
  refine ⟨⟨true, drawsWorld [0], drawsWorld [], by rfl⟩, by rfl, by rfl, by rfl, by rfl, by rfl,
    by rfl, by rfl, by rfl, by decide, by rfl, by rfl, by rfl⟩

/-- C12, amended: in any state the loop reaches from a freshly started round (or from the
start of the program), on a tick of the running game on which the moved head is on the fruit
and the fruit has not expired, with `d = fruitDistance` and `s = stepsToFruit + 1`: in both
modes `d >= 1` and `s >= 1`, so the base reward `10 * d / s` lies between 0 and `10 * d`.  In
normal mode moreover `s >= d`, so the base reward is at most 10, it is 10 exactly when
`s = d`, and a tick that returns has grown the score by at most 10, or at most 100 for a
special fruit. -/
theorem reward_bound {gEnv0 : gameEnvironment} {gSt0 : gameState}
    {gEnv : gameEnvironment} {gSt : gameState}
    (h0 : isFreshRound gEnv0 gSt0 ∨ isInitial gEnv0 gSt0)
    (hreach : Reaches gEnv0 gSt0 gEnv gSt)
    (hr : isRunning gSt = true)
    (hfruit : gSt.isFruit = true) (hactive : expires gSt = false)
    (hhead : movedHead gEnv gSt = gSt.fruitCoords) :
    1 ≤ gSt.fruitDistance ∧ 1 ≤ gSt.stepsToFruit + 1 ∧
    0 ≤ Int.tdiv (10 * gSt.fruitDistance) (gSt.stepsToFruit + 1) ∧
    Int.tdiv (10 * gSt.fruitDistance) (gSt.stepsToFruit + 1) ≤ 10 * gSt.fruitDistance ∧
    (gSt.eliMode = false →
      gSt.fruitDistance ≤ gSt.stepsToFruit + 1 ∧
      Int.tdiv (10 * gSt.fruitDistance) (gSt.stepsToFruit + 1) ≤ 10 ∧
      (Int.tdiv (10 * gSt.fruitDistance) (gSt.stepsToFruit + 1) = 10 ↔
        gSt.stepsToFruit + 1 = gSt.fruitDistance) ∧
      ∀ (w : world) (gEnv1 : gameEnvironment) (gSt1 : gameState) (w1 : world),
        mainTick gEnv gSt w = .ok (gEnv1, gSt1, w1) →
        gSt1.score =
          gSt.score +
            (if gSt.isSpecialFruit then
              Int.tdiv (10 * gSt.fruitDistance) (gSt.stepsToFruit + 1) * 10
             else Int.tdiv (10 * gSt.fruitDistance) (gSt.stepsToFruit + 1)) ∧
        gSt1.score ≤ gSt.score + (if gSt.isSpecialFruit then 100 else 10)) := by
  have hI0 := Inv_of_start h0
  have hI : Inv gEnv gSt := Inv_of_Reaches hI0 hreach
  have hR : rewardInv gSt := rewardInv_of_Reaches hI0 (rewardInv_of_start h0) hreach
  have he : eats gEnv gSt = true := eats_of_head hfruit hactive hhead
  have hd := hR.distance_pos hfruit
  have hs := hI.steps_nonneg
  obtain ⟨q1, q2, q3⟩ :=
    @reward_quotient gSt.fruitDistance (gSt.stepsToFruit + 1) (by omega) (by omega)
  refine ⟨hd, by omega, q1, q2, ?_⟩
  intro hmode
  have hle : gSt.fruitDistance ≤ gSt.stepsToFruit + 1 := by
    have h1 := hR.distance_le hmode hfruit
    have h2 := manhattan_step hI.input_cardinal gSt.snakeHeadCoords gSt.fruitCoords
    rw [← movedHead_normal hmode, hhead, manhattan_self_iff.2 rfl] at h2
    omega
  obtain ⟨q4, q5⟩ := q3 hle
  refine ⟨hle, q4, q5, ?_⟩
  intro w gEnv1 gSt1 w1 h
  have hsc := eat_tick_score hI hr he h
  have hdelta : scoreDelta (arrived gEnv gSt) =
      (if gSt.isSpecialFruit then
        Int.tdiv (10 * gSt.fruitDistance) (gSt.stepsToFruit + 1) * 10
       else Int.tdiv (10 * gSt.fruitDistance) (gSt.stepsToFruit + 1)) := by
    simp [scoreDelta, hactive]
  rw [hdelta] at hsc
  refine ⟨hsc, ?_⟩
  rw [hsc]
  split_ifs <;> omega

/-- C12, witness: in the scoring scenario, a round in normal mode, the fruit at distance 2 is
reached in 2 steps and the base reward is `10 * 2 / 2 = 10`. -/
theorem reward_bound_witness :
    isFreshRound boardEnv (freshUp false) ∧
    mainRun boardEnv (freshUp false) (toScenario 0 ++ [tickWith []]) =
      .ok (boardEnv, scenarioMid false) ∧
    isRunning (scenarioMid false) = true ∧ (scenarioMid false).eliMode = false ∧
    movedHead boardEnv (scenarioMid false) = (scenarioMid false).fruitCoords ∧
    (scenarioMid false).fruitDistance = 2 ∧ (scenarioMid false).stepsToFruit + 1 = 2 ∧
    Int.tdiv (10 * (scenarioMid false).fruitDistance) ((scenarioMid false).stepsToFruit + 1) ≤
      10 ∧
    mainTick boardEnv (scenarioMid false) (drawsWorld [1, 1, 0]) =
      .ok (boardEnv, scenarioEnd false, drawsWorld []) ∧
    (scenarioEnd false).score ≤ (scenarioMid false).score +
      (if (scenarioMid false).isSpecialFruit then 100 else 10) := by
  have hfresh : isFreshRound boardEnv (freshUp false) :=
    ⟨false, drawsWorld [0], drawsWorld [], by rfl⟩
  have hrun : mainRun boardEnv (freshUp false) (toScenario 0 ++ [tickWith []]) =
      .ok (boardEnv, scenarioMid false) := by rfl
  have hstep : mainTick boardEnv (scenarioMid false) (drawsWorld [1, 1, 0]) =
      .ok (boardEnv, scenarioEnd false, drawsWorld []) := by rfl
  have hthm := (reward_bound (Or.inl hfresh) (Reaches_of_mainRun _ _ _ _ _ hrun)
    (by rfl) (by rfl) (by rfl) (by rfl)).2.2.2.2 (by rfl)
  exact ⟨hfresh, hrun, by rfl, by rfl, by rfl, by rfl, by rfl, hthm.2.1, hstep,
    (hthm.2.2.2 _ _ _ _ hstep).2⟩
/-- C13: in every state the loop reaches from the state `main` enters it with (or from a
freshly started round) by key events and ticks, `gameOver` and `gameStarted` are not both
true, and `gamePaused` implies `gameStarted`. -/
theorem phase_flags {gEnv0 : gameEnvironment} {gSt0 : gameState}
    {gEnv : gameEnvironment} {gSt : gameState}
    (h0 : isInitial gEnv0 gSt0 ∨ isFreshRound gEnv0 gSt0)
    (hreach : Reaches gEnv0 gSt0 gEnv gSt) :
    ¬ (gSt.gameOver = true ∧ gSt.gameStarted = true) ∧
    (gSt.gamePaused = true → gSt.gameStarted = true) := by
  have hI : Inv gEnv gSt := Inv_of_Reaches (Inv_of_start h0.symm) hreach
  exact ⟨hI.not_over_started, hI.paused_started⟩

/-- C13, witness: on a terminal of 20 by 11 characters `main` enters its loop with the intro
shown; `Ctrl+R`, a tick and `Ctrl+P` lead to a paused game, which is started and not over. -/
theorem phase_flags_witness :
    isInitial boardEnv introState ∧
    mainRun boardEnv introState toPause = .ok (boardEnv, pausedState) ∧
    pausedState.gamePaused = true ∧ pausedState.gameStarted = true ∧
    pausedState.gameOver = false ∧
    ¬ (pausedState.gameOver = true ∧ pausedState.gameStarted = true) ∧
    (pausedState.gamePaused = true → pausedState.gameStarted = true) := by
  have hinit : isInitial boardEnv introState :=
    ⟨20, 11, false, drawsWorld [0], drawsWorld [], by rfl⟩
  have hrun : mainRun boardEnv introState toPause = .ok (boardEnv, pausedState) := by rfl
  have hthm := phase_flags (Or.inl hinit) (Reaches_of_mainRun _ _ _ _ _ hrun)
  exact ⟨hinit, hrun, by rfl, by rfl, by rfl, hthm.1, hthm.2⟩

/-- C14: in every state the loop reaches from the state `main` enters it with (or from a
freshly started round), `stepsToFruit` and `fruitDistance` are not negative.  Hence no tick
fails with the panic of an integer division by zero, whatever it reads; when the division is
evaluated, its divisor is `stepsToFruit + 1`, at least 1, and the quotient is not negative;
and a tick of the running game that returns leaves `stepsToFruit` one higher, or at 0 when it
has placed a fruit.  The eating block can still panic after the division, in
`time.NewTicker`: it returns exactly when the interval of the new ticker is positive. -/
theorem score_division_defined {gEnv0 : gameEnvironment} {gSt0 : gameState}
    {gEnv : gameEnvironment} {gSt : gameState}
    (h0 : isInitial gEnv0 gSt0 ∨ isFreshRound gEnv0 gSt0)
    (hreach : Reaches gEnv0 gSt0 gEnv gSt) :
    0 ≤ gSt.stepsToFruit ∧ 0 ≤ gSt.fruitDistance ∧
    tickMove gEnv gSt ≠ .error .divideByZero ∧
    (∀ w : world, mainTick gEnv gSt w ≠ .error .divideByZero) ∧
    (eats gEnv gSt = true →
      (arrived gEnv gSt).stepsToFruit = gSt.stepsToFruit + 1 ∧
      (arrived gEnv gSt).fruitDistance = gSt.fruitDistance ∧
      1 ≤ (arrived gEnv gSt).stepsToFruit ∧
      0 ≤ Int.tdiv (10 * (arrived gEnv gSt).fruitDistance) (arrived gEnv gSt).stepsToFruit ∧
      eatFruit gEnv (arrived gEnv gSt) ≠ .error .divideByZero ∧
      (0 < eatInterval gEnv gSt ↔
        eatFruit gEnv (arrived gEnv gSt) = .ok (eatenState gEnv (arrived gEnv gSt)))) ∧
    (∀ (w : world) (gEnv1 : gameEnvironment) (gSt1 : gameState) (w1 : world),
      isRunning gSt = true → mainTick gEnv gSt w = .ok (gEnv1, gSt1, w1) →
      0 ≤ gSt1.stepsToFruit ∧
      (gSt1.stepsToFruit = gSt.stepsToFruit + 1 ∨
        (gSt1.stepsToFruit = 0 ∧ gSt1.isFruit = true ∧
          (gSt.isFruit = false ∨ expires gSt = true ∨ eats gEnv gSt = true)))) := by
  have hI : Inv gEnv gSt := Inv_of_Reaches (Inv_of_start h0.symm) hreach
  have hs := hI.steps_nonneg
  have hd := hI.distance_nonneg
  have hdiv : eats gEnv gSt = true → gSt.stepsToFruit + 1 ≠ 0 := fun _ => by omega
  refine ⟨hs, hd, ?_, ?_, ?_, ?_⟩
  · rw [tickMove_eq]
    split_ifs with he h1 <;> first | exact absurd h1 (hdiv he) | simp
  · intro w hp
    rcases mainTick_error_cases hp with h1 | ⟨h1, -⟩ | ⟨-, he, h3⟩ | ⟨h1, -⟩
    · cases h1
    · cases h1
    · exact hdiv he h3
    · cases h1
  · intro he
    refine ⟨arrived_stepsToFruit _ _, arrived_fruitDistance _ _, ?_, ?_, ?_, ?_⟩
    · rw [arrived_stepsToFruit]; omega
    · rw [arrived_stepsToFruit, arrived_fruitDistance]
      exact Int.tdiv_nonneg (by omega) (by omega)
    · rw [eatFruit_arrived he, if_neg (hdiv he)]
      split_ifs <;> simp
    · rw [eatFruit_arrived he, if_neg (hdiv he)]
      constructor
      · intro hi
        rw [if_neg (not_le.2 hi)]
      · intro hok
        split_ifs at hok with hi
        omega
  · intro w gEnv1 gSt1 w1 hr h
    have hI1 : Inv gEnv1 gSt1 := Inv_mainTick hI h
    refine ⟨hI1.steps_nonneg, ?_⟩
    obtain ⟨hst, hpa, hov⟩ := (isRunning_iff gSt).1 hr
    obtain ⟨m, hm, hcase⟩ := mainTick_running hr h
    obtain ⟨-, -, -, -, -, -, c7, -, c9, -, -, -, c13, -, -⟩ := tickMove_common hm
    have hmf := tickMove_isFruit hm
    rcases hcase with ⟨-, -, -, hsp⟩ | ⟨-, -, hst1, -⟩
    · rcases tickSpawnFruit_ok (c7.trans hst) (c9.trans hov) hsp with
        ⟨-, rfl⟩ | ⟨hf, -, -, c, sp, -, -, -, -, -, rfl⟩
      · exact Or.inl c13
      · right
        refine ⟨rfl, rfl, ?_⟩
        rw [hmf] at hf
        by_contra hc
        push_neg at hc
        obtain ⟨n1, n2, n3⟩ := hc
        have n1' : gSt.isFruit = true := by simpa using n1
        have n2' : expires gSt = false := by simpa using n2
        have n3' : eats gEnv gSt = false := by simpa using n3
        rw [n1', n2', n3'] at hf
        exact absurd hf (by decide)
    · left
      rw [hst1]
      exact c13

/-- C14, witness: in the scoring scenario, when the head moves onto the fruit the divisor is
2 and the quotient `10 * 2 / 2` is 10; the tick returns, with `stepsToFruit` back at 0 for
the fruit it has placed. -/
theorem score_division_defined_witness :
    isInitial boardEnv introState ∧
    mainRun boardEnv introState
      ((.terminal (keyPress .KeyCtrlR), drawsWorld [0]) :: (toScenario 0 ++ [tickWith []])) =
        .ok (boardEnv, scenarioMid false) ∧
    eats boardEnv (scenarioMid false) = true ∧
    (arrived boardEnv (scenarioMid false)).stepsToFruit = 2 ∧
    1 ≤ (arrived boardEnv (scenarioMid false)).stepsToFruit ∧
    Int.tdiv (10 * (arrived boardEnv (scenarioMid false)).fruitDistance)
      (arrived boardEnv (scenarioMid false)).stepsToFruit = 10 ∧
    mainTick boardEnv (scenarioMid false) (drawsWorld [1, 1, 0]) =
      .ok (boardEnv, scenarioEnd false, drawsWorld []) ∧
    mainTick boardEnv (scenarioMid false) (drawsWorld [1, 1, 0]) ≠ .error .divideByZero ∧
    (scenarioEnd false).stepsToFruit = 0 := by
  have hinit : isInitial boardEnv introState :=
    ⟨20, 11, false, drawsWorld [0], drawsWorld [], by rfl⟩
  have hrun : mainRun boardEnv introState
      ((.terminal (keyPress .KeyCtrlR), drawsWorld [0]) :: (toScenario 0 ++ [tickWith []])) =
        .ok (boardEnv, scenarioMid false) := by rfl
  have hstep : mainTick boardEnv (scenarioMid false) (drawsWorld [1, 1, 0]) =
      .ok (boardEnv, scenarioEnd false, drawsWorld []) := by rfl
  have hthm := score_division_defined (Or.inl hinit) (Reaches_of_mainRun _ _ _ _ _ hrun)
  have he : eats boardEnv (scenarioMid false) = true := by rfl
  exact ⟨hinit, hrun, he, by rfl, (hthm.2.2.2.2.1 he).2.2.1, by rfl, hstep,
    hthm.2.2.2.1 _, by rfl⟩

end Snakolek
